import Mathlib

/-!
# Minitar: a shallow embedding of `minitar.c` and `minitar_main.c`

The archive codec of the repository is embedded as pure functions over an
explicit file-system state.

Modelling conventions

* A byte is a `Nat` (a value `0..255`), a buffer or a file is a list of bytes,
  a path is the list of the bytes of a C string (no NUL inside).
* C `int` is `Int` wrapped to 32 bits by `i32` after every operation, C `/` and
  `%` on `int` are `Int.tdiv` and `Int.tmod` (truncation toward zero), and
  `unsigned` is `Nat` reduced modulo `2^32`.
* The file system is one name space `FS`: the archive and the member files are
  looked up in the same map, as in the program. A file has one name: two names
  are two files. Whether a file can be created under a name is a parameter of
  the platform (`Env.writable`).
* A stdio stream opened for writing is fully buffered and the buffer reaches the
  file when the stream is closed; `fopen(_, "w")` truncates at once. A stream
  opened for reading reads the file as it is at the time of the call.
  Both agree with the C library whenever the file written is not read through
  another stream in the meantime.
* `malloc(n)` returns `NULL` exactly when `n`, converted to `size_t`, exceeds
  `PTRDIFF_MAX` (a negative `int`); `malloc(0)` returns a pointer. Read and write
  errors of the device (`ferror`, short `fwrite`, failing `fclose`) do not occur.
* The local array `char size[12]` of the two scanning loops is not initialised
  by the program; it is threaded through the iterations as one stack slot whose
  first content is a parameter `junk`.
-/

namespace Minitar

abbrev Bytes := List Nat

abbrev Path := List Nat

/-! ## Machine integers -/

/-- Conversion of an integer value to C `int` (two's complement, 32 bits). -/
def i32 (x : Int) : Int := (x + 2147483648) % 4294967296 - 2147483648

/-- Conversion of an integer value to C `unsigned` (32 bits). -/
def u32 (x : Int) : Nat := (x % 4294967296).toNat

def BLOCK_SIZE : Int := 512

def NUM_TRAILING_BLOCKS : Nat := 2

/-- The character constant REGTYPE, `'0'`. -/
def REGTYPE : Nat := 48

/-- The string constant MAGIC, `"ustar"`. -/
def MAGIC : Bytes := [117, 115, 116, 97, 114]

/-! ## libc string and formatting primitives -/

/-- The octal digits of `n`, least significant first, at most `fuel` of them. -/
def octRev : Nat → Nat → Bytes
  | 0, _ => []
  | k + 1, n => (48 + n % 8) :: (if n / 8 = 0 then [] else octRev k (n / 8))

/-- The text `printf` produces for the conversion `%0<w>o` applied to an
`unsigned` argument `v` (below `2^32`, so at most 11 digits): the octal digits of
`v`, padded with `'0'` on the left to at least `w` characters. -/
def fmt_o (w : Nat) (v : Nat) : Bytes :=
  let ds := (octRev 11 v).reverse
  List.replicate (w - ds.length) 48 ++ ds

/-- The effect of `snprintf(dst, n, ...)` on the array `dst` when the formatted
text is `s`: at most `n - 1` characters are stored, followed by a NUL. -/
def snprintf (dst : Bytes) (n : Nat) (s : Bytes) : Bytes :=
  let w := s.take (n - 1)
  w ++ 0 :: dst.drop (w.length + 1)

/-- The effect of `strncpy(dst, src, n)` on the array `dst`, for a C string
`src`: the first `n` bytes of `src`, padded with NUL up to `n` bytes when `src`
is shorter (and not terminated when it is not). -/
def strncpy (dst : Bytes) (src : Bytes) (n : Nat) : Bytes :=
  src.take n ++ List.replicate (n - src.length) 0 ++ dst.drop n

/-- The effect of `memcpy(dst, src, n)` on the array `dst`. -/
def memcpy (dst : Bytes) (src : Bytes) (n : Nat) : Bytes :=
  src.take n ++ dst.drop n

/-- The C string held in a character array: the bytes before the first NUL
(the whole array when it holds none). -/
def cstr (buf : Bytes) : Bytes := buf.takeWhile (fun b => b != 0)

def isspace (c : Nat) : Bool := c == 32 || (9 ≤ c && c ≤ 13)

def isodigit (c : Nat) : Bool := 48 ≤ c && c ≤ 55

/-- The value `sscanf(s, "%o", &x)` converts, or `none` when the call does not
return 1: white space is skipped, an optional sign is read, then the longest run
of octal digits, which must not be empty. -/
def sscanf_o (s : Bytes) : Option Int :=
  let t := (cstr s).dropWhile isspace
  let neg := t.head? == some 45
  let u := if t.head? == some 45 || t.head? == some 43 then t.tail else t
  let ds := u.takeWhile isodigit
  if ds.isEmpty then none
  else
    let v : Nat := ds.foldl (fun a d => a * 8 + (d - 48)) 0
    some (if neg then -(v : Int) else (v : Int))

/-! ## The file system and the platform -/

/-- The fields of `struct stat` the program reads, other than `st_size`. -/
structure Stat where
  st_mode : Nat
  st_uid : Nat
  st_gid : Nat
  st_mtime : Int
  st_dev : Nat
  deriving DecidableEq

/-- A regular file: its metadata and its bytes; `st_size` is the number of bytes. -/
structure File where
  st : Stat
  content : Bytes
  deriving DecidableEq

abbrev FS := Path → Option File

/-- What the program takes from the platform: the user and group databases
(`getpwuid`, `getgrgid`, giving `pw_name` and `gr_name`), whether plain `char` is
signed (it is on x86-64 Linux), the metadata of a file that `fopen(_, "w")`
creates, and for which names `fopen(name, "w")` succeeds (`writable`: the
directory part of the name exists and can be written, and the name is not that
of a directory). -/
structure Env where
  getpwuid : Nat → Option Bytes
  getgrgid : Nat → Option Bytes
  char_signed : Bool
  creat : Stat
  writable : Path → Bool

/-- The macro `major` of `<sys/sysmacros.h>` (glibc), an `unsigned`. -/
def major (dev : Nat) : Nat := (dev / 256) % 4096 + ((dev / 17592186044416) % 1048576) * 4096

/-- The macro `minor` of `<sys/sysmacros.h>` (glibc), an `unsigned`. -/
def minor (dev : Nat) : Nat := dev % 256 + ((dev / 1048576) % 16777216) * 256

/-- The system call `stat`: fails on the empty path and on a missing file. -/
def stat (fs : FS) (file_name : Path) : Option File :=
  if file_name = [] then none else fs file_name

/-- The file a stream opened by `fopen(name, "r")` reads, if the call succeeds. -/
def fopen_r (fs : FS) (name : Path) : Option File :=
  if name = [] then none else fs name

/-- Replace the bytes of the file `name`, creating it when it does not exist. -/
def set_content (env : Env) (fs : FS) (name : Path) (data : Bytes) : FS :=
  fun p =>
    if p = name then
      some { st := match fs name with
                   | some f => f.st
                   | none => env.creat,
             content := data }
    else fs p

/-- The file system after `fopen(name, "w")`, if the call succeeds: the file
exists and is empty. The call fails on the empty name and on a name the platform
does not let the program create (a missing directory, a directory). -/
def fopen_w (env : Env) (fs : FS) (name : Path) : Option FS :=
  if name = [] then none
  else if env.writable name = true then some (set_content env fs name [])
  else none

/-- The call `fread(buf, 1, n, fp)` on a stream at position `pos` of a file with
bytes `content`: the new array and the number of bytes read. Bytes of the array
beyond those read keep their value. -/
def fread (content : Bytes) (pos : Nat) (buf : Bytes) (n : Nat) : Bytes × Nat :=
  let data := (content.drop pos).take n
  (data ++ buf.drop data.length, data.length)

/-- The position after `fseek(fp, off, SEEK_CUR)`; a seek to a negative position
fails and leaves the position as it was. -/
def fseek_cur (pos : Nat) (off : Int) : Nat :=
  if 0 ≤ (pos : Int) + off then ((pos : Int) + off).toNat else pos

/-- The position after `fseek(fp, off, SEEK_SET)`. -/
def fseek_set (pos : Nat) (off : Int) : Nat :=
  if 0 ≤ off then off.toNat else pos

/-! ## The header -/

/-- Modelled from the spec: the type `tar_header` of `minitar.h`, which is not
among the sources: the field layout of the 512-byte header record, in the order
and with the widths the specification lists. -/
structure tar_header where
  name : Bytes
  mode : Bytes
  uid : Bytes
  gid : Bytes
  size : Bytes
  mtime : Bytes
  chksum : Bytes
  typeflag : Nat
  linkname : Bytes
  magic : Bytes
  version : Bytes
  uname : Bytes
  gname : Bytes
  devmajor : Bytes
  devminor : Bytes
  pfx : Bytes
  padding : Bytes
  deriving DecidableEq

/-- The header as the array of bytes `(char *) header`. -/
def tar_header.bytes (h : tar_header) : Bytes :=
  h.name ++ h.mode ++ h.uid ++ h.gid ++ h.size ++ h.mtime ++ h.chksum ++ [h.typeflag]
    ++ h.linkname ++ h.magic ++ h.version ++ h.uname ++ h.gname ++ h.devmajor
    ++ h.devminor ++ h.pfx ++ h.padding

def zeros (n : Nat) : Bytes := List.replicate n 0

/-- The header after `memset(header, 0, sizeof(tar_header))`. -/
def tar_header.zero : tar_header :=
  { name := zeros 100, mode := zeros 8, uid := zeros 8, gid := zeros 8, size := zeros 12,
    mtime := zeros 12, chksum := zeros 8, typeflag := 0, linkname := zeros 100,
    magic := zeros 6, version := zeros 2, uname := zeros 32, gname := zeros 32,
    devmajor := zeros 8, devminor := zeros 8, pfx := zeros 155, padding := zeros 12 }

/-- The value of `bytes[i]`, a plain `char`, in the sum of `compute_checksum`. -/
def char_val (char_signed : Bool) (b : Nat) : Int :=
  if char_signed && decide (128 ≤ b) then (b : Int) - 256 else (b : Int)

/-- The function `compute_checksum`. -/
def compute_checksum (env : Env) (header : tar_header) : tar_header :=
  let h1 := { header with chksum := List.replicate 8 32 }
  let sum : Nat := h1.bytes.foldl (fun s b => u32 ((s : Int) + char_val env.char_signed b)) 0
  { h1 with chksum := snprintf h1.chksum 8 (fmt_o 7 sum) }

/-- The function `fill_tar_header`: `none` stands for the return value -1. -/
def fill_tar_header (env : Env) (fs : FS) (file_name : Path) : Option tar_header :=
  let header := tar_header.zero
  match stat fs file_name with
  | none => none
  | some f =>
    let header := { header with name := strncpy header.name file_name 100 }
    let header := { header with mode := snprintf header.mode 8 (fmt_o 7 (f.st.st_mode % 4096)) }
    let header := { header with uid := snprintf header.uid 8 (fmt_o 7 (f.st.st_uid % 4294967296)) }
    match env.getpwuid f.st.st_uid with
    | none => none
    | some pw_name =>
      let header := { header with uname := strncpy header.uname pw_name 32 }
      let header :=
        { header with gid := snprintf header.gid 8 (fmt_o 7 (f.st.st_gid % 4294967296)) }
      match env.getgrgid f.st.st_gid with
      | none => none
      | some gr_name =>
        let header := { header with gname := strncpy header.gname gr_name 32 }
        let header :=
          { header with size := snprintf header.size 12 (fmt_o 11 (u32 f.content.length)) }
        let header :=
          { header with mtime := snprintf header.mtime 12 (fmt_o 11 (u32 f.st.st_mtime)) }
        let header := { header with typeflag := REGTYPE }
        let header := { header with magic := strncpy header.magic MAGIC 6 }
        let header := { header with version := memcpy header.version [48, 48] 2 }
        let header :=
          { header with
            devmajor := snprintf header.devmajor 8 (fmt_o 7 (major f.st.st_dev % 4294967296)) }
        let header :=
          { header with
            devminor := snprintf header.devminor 8 (fmt_o 7 (minor f.st.st_dev % 4294967296)) }
        some (compute_checksum env header)

/-! ## The name list -/

/-- Modelled from the spec: the type `file_list_t` of `file_list.h`, which is not
among the sources: an ordered sequence of names, duplicates permitted, insertion
order preserved. -/
abbrev file_list_t := List Path

/-- Modelled from the spec: `file_list_add` of `file_list.c`, which is not among
the sources: the name is added at the end; the allocation failure (return value
1) does not occur. -/
def file_list_add (files : file_list_t) (file_name : Path) : file_list_t :=
  files ++ [file_name]

/-- Modelled from the spec: `file_list_contains` of `file_list.c`, which is not
among the sources: whether the name is in the list. -/
def file_list_contains (files : file_list_t) (file_name : Path) : Bool :=
  decide (file_name ∈ files)

/-- Modelled from the spec: `file_list_clear` of `file_list.c`, which is not
among the sources: the list becomes empty. -/
def file_list_clear (_files : file_list_t) : file_list_t := []

/-! ## Helpers of `minitar.c` -/

/-- The function `remove_trailing_bytes`: the status and the file system after. -/
def remove_trailing_bytes (env : Env) (fs : FS) (file_name : Path) (nbytes : Nat) : Int × FS :=
  match stat fs file_name with
  | none => (-1, fs)
  | some f =>
    let file_size : Nat := f.content.length
    let file_size : Nat := if nbytes > file_size then 0 else file_size - nbytes
    (0, set_content env fs file_name (f.content.take file_size))

/-- The function `get_size` on a stream just opened on a file with these bytes:
the `long` of `ftell` returned as an `int`. -/
def get_size (content : Bytes) : Int := i32 content.length

/-- The function `allZeros`. -/
def allZeros (arr : Bytes) (size : Nat) : Bool := (arr.take size).all (fun b => b == 0)

/-! ## Writing entries: the loop of `create_archive` and `append_files_to_archive` -/

/-- One iteration of the `while (current)` loop of `create_archive`
(`read_adjust = true`: `fread` is asked for `adjust_size` bytes) and of
`append_files_to_archive` (`read_adjust = false`: `fread` is asked for `size`
bytes); otherwise the two loop bodies are the same. The result is whether the
iteration reached `current = current->next`, and the bytes it wrote to the
archive stream. -/
def write_entry (env : Env) (fs : FS) (read_adjust : Bool) (name : Path) : Bool × Bytes :=
  match fill_tar_header env fs name with
  | none => (false, [])
  | some header =>
    match fopen_r fs name with
    | none => (false, header.bytes)
    | some cf =>
      let size := get_size cf.content
      if size < 0 then (false, header.bytes)
      else
        let adjust_size := i32 ((i32 (i32 (size + BLOCK_SIZE) - 1)).tdiv BLOCK_SIZE * BLOCK_SIZE)
        if adjust_size < 0 then (false, header.bytes)
        else
          let buffer := zeros adjust_size.toNat
          let buffer :=
            (fread cf.content 0 buffer (if read_adjust then adjust_size.toNat else size.toNat)).1
          (true, header.bytes ++ buffer.take adjust_size.toNat)

/-- The `while (current)` loop over the name list: the status (0 when every
iteration completed, -1 at the first that did not) and the bytes written. -/
def write_entries (env : Env) (fs : FS) (read_adjust : Bool) : List Path → Int × Bytes
  | [] => (0, [])
  | name :: rest =>
    match write_entry env fs read_adjust name with
    | (false, b) => (-1, b)
    | (true, b) =>
      let r := write_entries env fs read_adjust rest
      (r.1, b ++ r.2)

/-- The footer `char footer[1024] = \x7b0\x7d`. -/
def footer : Bytes := zeros (NUM_TRAILING_BLOCKS * 512)

/-- The function `create_archive`: the return value and the file system after. -/
def create_archive (env : Env) (fs : FS) (archive_name : Path) (files : file_list_t) :
    Int × FS :=
  match fopen_w env fs archive_name with
  | none => (-1, fs)
  | some fs0 =>
    let r := write_entries env fs0 true files
    if r.1 = 0 then (0, set_content env fs0 archive_name (r.2 ++ footer))
    else (-1, set_content env fs0 archive_name r.2)

/-- The function `append_files_to_archive`: the return value and the file system
after. -/
def append_files_to_archive (env : Env) (fs : FS) (archive_name : Path) (files : file_list_t) :
    Int × FS :=
  match fopen_r fs archive_name with
  | none => (-1, fs)
  | some _ =>
    let t := remove_trailing_bytes env fs archive_name 1024
    if t.1 = -1 then (-1, t.2)
    else
      match fopen_r t.2 archive_name with
      | none => (-1, t.2)
      | some af =>
        let r := write_entries env t.2 false files
        if r.1 = 0 then (0, set_content env t.2 archive_name (af.content ++ r.2 ++ footer))
        else (-1, set_content env t.2 archive_name (af.content ++ r.2))

/-! ## Reading: `get_archive_file_list` and `extract_files_from_archive` -/

/-- The `while (!allZeros(file_name, 100))` loop of `get_archive_file_list` on an
archive with bytes `content`. The state is the array `file_name`, the stack slot
of `size`, the `int offset`, the stream position and the list. `none` is returned
only when the fuel runs out. -/
def list_loop (content : Bytes) :
    Nat → Bytes → Bytes → Int → Nat → file_list_t → Option (Int × file_list_t)
  | 0, _, _, _, _, _ => none
  | fuel + 1, file_name, size, offset, pos, files =>
    if allZeros file_name 100 then some (0, files)
    else
      let files := file_list_add files (cstr file_name)
      let pos := fseek_cur pos 24
      let rd := fread content pos size 12
      let size := rd.1
      let pos := pos + rd.2
      match sscanf_o size with
      | none => some (-1, file_list_clear files)
      | some v =>
        let int_size := i32 v
        let block_num := i32 ((i32 (i32 (int_size + BLOCK_SIZE) - 1)).tdiv BLOCK_SIZE + 1)
        let offset := i32 (offset + i32 (block_num * BLOCK_SIZE))
        let pos := fseek_set pos offset
        let rd := fread content pos file_name 100
        list_loop content fuel rd.1 size offset (pos + rd.2) files

/-- The function `get_archive_file_list`: the return value and the list after. -/
def get_archive_file_list (fuel : Nat) (junk : Bytes) (fs : FS) (archive_name : Path)
    (files : file_list_t) : Option (Int × file_list_t) :=
  match fopen_r fs archive_name with
  | none => some (-1, files)
  | some af =>
    let rd := fread af.content 0 (zeros 100) 100
    list_loop af.content fuel rd.1 junk 0 rd.2 files

/-- The bytes of the file `name` as a reading stream sees them. -/
def bytes_of (fs : FS) (name : Path) : Bytes :=
  match fs name with
  | some f => f.content
  | none => []

/-- The `while (current)` loop of `extract_files_from_archive`. The state is the
file system, the position of the archive stream and the stack slot of `size`. -/
def extract_loop (env : Env) (archive_name : Path) : List Path → FS → Nat → Bytes → Int × FS
  | [], fs, _, _ => (0, fs)
  | name :: rest, fs, pos, size =>
    match fopen_w env fs name with
    | none => (-1, fs)
    | some fs1 =>
      let pos := fseek_cur pos 124
      let rd := fread (bytes_of fs1 archive_name) pos size 12
      let size := rd.1
      let pos := pos + rd.2
      match sscanf_o size with
      | none => (-1, fs1)
      | some v =>
        let int_size := i32 v
        let pos := fseek_cur pos (512 - 136)
        if int_size < 0 then (-1, fs1)
        else
          let rd := fread (bytes_of fs1 archive_name) pos (zeros int_size.toNat) int_size.toNat
          let num_read := rd.2
          let fs2 := set_content env fs1 name (rd.1.take num_read)
          let pos := pos + num_read
          let offset := i32 ((i32 (BLOCK_SIZE - int_size.tmod BLOCK_SIZE)).tmod BLOCK_SIZE)
          let pos := fseek_cur pos offset
          extract_loop env archive_name rest fs2 pos size

/-- The function `extract_files_from_archive`: the return value and the file
system after. The two arrays `size` (of the list pass and of the extract pass)
start with the contents `junk1` and `junk2`. -/
def extract_files_from_archive (fuel : Nat) (junk1 junk2 : Bytes) (env : Env) (fs : FS)
    (archive_name : Path) : Option (Int × FS) :=
  match get_archive_file_list fuel junk1 fs archive_name [] with
  | none => none
  | some (r, files) =>
    if r = -1 then some (-1, fs)
    else
      match fopen_r fs archive_name with
      | none => some (-1, fs)
      | some _ => some (extract_loop env archive_name files fs 0 junk2)

/-! ## The update operation: the branch `-u` of `main` -/

/-- The branch `-u` of `main` for the archive `argv[3]` and the names
`argv[4..]`: the exit status and the file system after. -/
def main_update (fuel : Nat) (junk : Bytes) (env : Env) (fs : FS) (archive_name : Path)
    (names : List Path) : Option (Int × FS) :=
  if names.isEmpty then some (1, fs)
  else
    match get_archive_file_list fuel junk fs archive_name [] with
    | none => none
    | some (r, files_in_archive) =>
      if r = -1 then some (1, fs)
      else if names.all (fun n => file_list_contains files_in_archive n) then
        let files := names.foldl file_list_add []
        let a := append_files_to_archive env fs archive_name files
        if a.1 = -1 then some (1, a.2) else some (0, a.2)
      else some (1, fs)

/-! ## Notions used to state the properties -/

/-- The value of a run of octal digits read most significant first. -/
def octVal (ds : Bytes) : Nat := ds.foldl (fun a d => a * 8 + (d - 48)) 0

/-- A name the program can be given and can store whole: a non-empty C string
(no NUL byte, every byte a value `1..255`) shorter than 100 bytes. -/
def valid_name (n : Path) : Prop := n ≠ [] ∧ n.length < 100 ∧ ∀ b ∈ n, 0 < b ∧ b < 256

instance (n : Path) : Decidable (valid_name n) := by unfold valid_name; infer_instance

/-- The 100-byte name field of the header of a file named `n`. -/
def name_field (n : Path) : Bytes := n ++ zeros (100 - n.length)

/-- The 12-byte size field of the header of a file of `s` bytes. -/
def size_field (s : Nat) : Bytes := fmt_o 11 s ++ [0]

/-- The number of zero bytes after `s` bytes of content. -/
def pad_len (s : Nat) : Nat := (512 - s % 512) % 512

/-- The number of bytes of an entry for `s` bytes of content: the header and the
padded content. -/
def entry_len (s : Nat) : Nat := 512 + 512 * ((s + 511) / 512)

/-- The bytes `e` are a complete entry for the name `n` and the content `data`:
a 512-byte header whose name and size fields hold `n` and the length of `data`,
then `data`, then the zero padding. -/
def IsEntry (n : Path) (data : Bytes) (e : Bytes) : Prop :=
  ∃ g1 g2 : Bytes, g1.length = 24 ∧ g2.length = 376 ∧ (∃ c g, g2 = c :: g ∧ c ≠ 0) ∧
    e = name_field n ++ g1 ++ size_field data.length ++ g2 ++ data ++ zeros (pad_len data.length)

/-- The bytes `b` are the complete entries of the files `l` (name and content),
in order. -/
def IsEntries : List (Path × Bytes) → Bytes → Prop
  | [], b => b = []
  | (n, d) :: r, b => ∃ e b', IsEntry n d e ∧ IsEntries r b' ∧ b = e ++ b'

/-- The header `fill_tar_header` builds before the checksum is computed. -/
def raw_header (file_name : Path) (f : File) (pw_name gr_name : Bytes) : tar_header :=
  { name := strncpy (zeros 100) file_name 100,
    mode := snprintf (zeros 8) 8 (fmt_o 7 (f.st.st_mode % 4096)),
    uid := snprintf (zeros 8) 8 (fmt_o 7 (f.st.st_uid % 4294967296)),
    gid := snprintf (zeros 8) 8 (fmt_o 7 (f.st.st_gid % 4294967296)),
    size := snprintf (zeros 12) 12 (fmt_o 11 (u32 f.content.length)),
    mtime := snprintf (zeros 12) 12 (fmt_o 11 (u32 f.st.st_mtime)),
    chksum := zeros 8,
    typeflag := REGTYPE,
    linkname := zeros 100,
    magic := strncpy (zeros 6) MAGIC 6,
    version := memcpy (zeros 2) [48, 48] 2,
    uname := strncpy (zeros 32) pw_name 32,
    gname := strncpy (zeros 32) gr_name 32,
    devmajor := snprintf (zeros 8) 8 (fmt_o 7 (major f.st.st_dev % 4294967296)),
    devminor := snprintf (zeros 8) 8 (fmt_o 7 (minor f.st.st_dev % 4294967296)),
    pfx := zeros 155,
    padding := zeros 12 }

/-- The 24 bytes between the name field and the size field. -/
def hdr_mid (h : tar_header) : Bytes := h.mode ++ h.uid ++ h.gid

/-- The 376 bytes after the size field. -/
def hdr_tail (h : tar_header) : Bytes :=
  h.mtime ++ h.chksum ++ [h.typeflag] ++ h.linkname ++ h.magic ++ h.version ++ h.uname
    ++ h.gname ++ h.devmajor ++ h.devminor ++ h.pfx ++ h.padding

/-- The bytes of the entry of the file `f` named `n`, owned by `pw` and `gr`. -/
def entry_bytes (env : Env) (n : Path) (f : File) (pw gr : Bytes) : Bytes :=
  (compute_checksum env (raw_header n f pw gr)).bytes ++ f.content
    ++ zeros (pad_len f.content.length)

/-- The list pass from the point where it reads the name field at the position
`o`, the variable `offset` holding `o`. -/
def scan_from (content : Bytes) (fuel : Nat) (old size : Bytes) (o : Nat)
    (files : file_list_t) : Option (Int × file_list_t) :=
  list_loop content fuel (fread content o old 100).1 size (o : Int)
    (o + (fread content o old 100).2) files

/-- The file system after the files `l` (name and content) have been written
one after the other. -/
def extracted (env : Env) (fs : FS) (l : List (Path × Bytes)) : FS :=
  l.foldl (fun fs x => set_content env fs x.1 x.2) fs

/-- An example platform: user 1000 is `u`, group 1000 is `g`, `char` is signed,
and the working directory can be written and has no subdirectory: a file can be
created under every name without `/` other than `.` and `..`. -/
def ex_env : Env :=
  { getpwuid := fun u => if u = 1000 then some [117] else none,
    getgrgid := fun g => if g = 1000 then some [103] else none,
    char_signed := true,
    creat := { st_mode := 33188, st_uid := 1000, st_gid := 1000, st_mtime := 0, st_dev := 2049 },
    writable := fun p => decide (47 ∉ p ∧ p ≠ [46] ∧ p ≠ [46, 46]) }

/-- The metadata of the example files: mode 0100644, owner 1000:1000. -/
def ex_stat : Stat :=
  { st_mode := 33188, st_uid := 1000, st_gid := 1000, st_mtime := 1700000000, st_dev := 2049 }

/-- The five bytes `hello`. -/
def hello : Bytes := [104, 101, 108, 108, 111]

/-- A directory with the file `f` (`hello`) and the empty file `g`. -/
def ex_fs : FS := fun p =>
  if p = [102] then some { st := ex_stat, content := hello }
  else if p = [103] then some { st := ex_stat, content := [] }
  else none

/-- A directory with the single file `a` (`hello`). -/
def ex_fs_a : FS := fun p => if p = [97] then some { st := ex_stat, content := hello } else none

/-- One GiB of zero bytes. -/
def big : Bytes := List.replicate 1073741824 0

/-- A directory with the single file `f` holding the bytes `d`. -/
def ex_fs_one (d : Bytes) : FS := fun p =>
  if p = [102] then some { st := ex_stat, content := d } else none

/-- The bytes `remove_trailing_bytes` with `nbytes = 1024` leaves of a file
holding `c`. -/
def strip_footer (c : Bytes) : Bytes := c.take (if 1024 > c.length then 0 else c.length - 1024)

/-- The last `n` bytes of `c`. -/
def last_bytes (c : Bytes) (n : Nat) : Bytes := c.drop (c.length - n)

/-- A directory with the file `f` (`hello`) and a file `a` of 1025 bytes. -/
def ex_fs_odd : FS := fun p =>
  if p = [102] then some { st := ex_stat, content := hello }
  else if p = [97] then some { st := ex_stat, content := List.replicate 1025 1 }
  else none

/-- A directory with the single file `é` (the two bytes 195, 169 of its UTF-8
name), holding `hello`. -/
def ex_fs_accent : FS := fun p =>
  if p = [195, 169] then some { st := ex_stat, content := hello } else none

/-- The specification's checksum of a header: the sum of its 512 bytes, each
counted as a value `0..255`, with the 8 bytes of `chksum` counted as spaces. -/
def unsigned_sum (h : tar_header) : Nat :=
  ({ h with chksum := List.replicate 8 32 } : tar_header).bytes.sum

/-- A file the write loop can archive: it exists under a non-empty name, its
owner and group have names, and its size is below 2^31 - 511. -/
def archivable (env : Env) (fs : FS) (n : Path) : Prop :=
  n ≠ [] ∧ ∃ f, fs n = some f ∧ (env.getpwuid f.st.st_uid).isSome = true ∧
    (env.getgrgid f.st.st_gid).isSome = true ∧ f.content.length + 511 < 2147483648

/-- A directory with the two files `f` and `g`, both holding the bytes `d`. -/
def ex_fs_two (d : Bytes) : FS := fun p =>
  if p = [102] then some { st := ex_stat, content := d }
  else if p = [103] then some { st := ex_stat, content := d }
  else none

/-- A numeric header field of `k` characters: `k` octal digits `'0'..'7'`
followed by a NUL. -/
def octal_field (k : Nat) (fld : Bytes) : Prop :=
  ∃ ds, fld = ds ++ [0] ∧ ds.length = k ∧ ∀ d ∈ ds, 48 ≤ d ∧ d ≤ 55

/-- The file `a` of `ex_fs_odd`: 1025 bytes. -/
def ex_file_odd : File := { st := ex_stat, content := List.replicate 1025 1 }

/-- The complete entry of the file `n`: its 512-byte header, its content and the
zero padding up to the next multiple of 512 bytes (empty when the header cannot
be made). -/
def entry_of (env : Env) (fs : FS) (n : Path) : Bytes :=
  match fill_tar_header env fs n, fs n with
  | some h, some f => h.bytes ++ f.content ++ zeros (pad_len f.content.length)
  | _, _ => []

/-- The metadata of a file whose owner, 4242, has no name on the example
platform. -/
def ex_stat_orphan : Stat :=
  { st_mode := 33188, st_uid := 4242, st_gid := 1000, st_mtime := 1700000000, st_dev := 2049 }

/-- A directory with the file `f` (`hello`) and the file `o` (`hello`) whose
owner has no name. -/
def ex_fs_orphan : FS := fun p =>
  if p = [102] then some { st := ex_stat, content := hello }
  else if p = [111] then some { st := ex_stat_orphan, content := hello }
  else none

/-- A file of 4 GiB and 5 bytes, every byte 1. -/
def big4 : Bytes := List.replicate 4294967301 1

/-- The directory `ex_fs` after `create_archive` was called for the archive `a`
with the names `f` and `m`, the second of which does not exist: the archive holds
the entry of `f` and no footer. -/
def ex_fs_cut : FS := (create_archive ex_env ex_fs [97] [[102], [109]]).2

/-! ## The list pass, one iteration at a time -/

/-- The variables of the loop of `get_archive_file_list` when the loop condition
is evaluated: the arrays `file_name` and `size`, the variable `offset`, the
position of the archive stream and the list. -/
structure list_state where
  file_name : Bytes
  size : Bytes
  offset : Int
  pos : Nat
  files : file_list_t
  deriving DecidableEq

/-- One iteration of the `while (!allZeros(file_name, 100))` loop of
`get_archive_file_list` that comes back to the loop condition; `none` when the
loop ends here, by the condition or by the `return -1` after `sscanf`. -/
def list_next (content : Bytes) (s : list_state) : Option list_state :=
  if allZeros s.file_name 100 then none
  else
    let files := file_list_add s.files (cstr s.file_name)
    let pos := fseek_cur s.pos 24
    let rd := fread content pos s.size 12
    let size := rd.1
    let pos := pos + rd.2
    match sscanf_o size with
    | none => none
    | some v =>
      let int_size := i32 v
      let block_num := i32 ((i32 (i32 (int_size + BLOCK_SIZE) - 1)).tdiv BLOCK_SIZE + 1)
      let offset := i32 (s.offset + i32 (block_num * BLOCK_SIZE))
      let pos := fseek_set pos offset
      let rd := fread content pos s.file_name 100
      some { file_name := rd.1, size := size, offset := offset, pos := pos + rd.2,
             files := files }

/-- The state after `k` iterations that all come back to the loop condition. -/
def list_iter (content : Bytes) : Nat → list_state → Option list_state
  | 0, s => some s
  | k + 1, s =>
    match list_next content s with
    | none => none
    | some s' => list_iter content k s'

/-- The state in which `get_archive_file_list` enters the loop. -/
def list_start (content junk : Bytes) (files : file_list_t) : list_state :=
  { file_name := (fread content 0 (zeros 100) 100).1, size := junk, offset := 0,
    pos := (fread content 0 (zeros 100) 100).2, files := files }

/-- The array `fld` holds a valid octal number string, in the words of the
specification: one or more characters before the first NUL, all of them octal
digits. -/
def octal_string (fld : Bytes) : Prop :=
  cstr fld ≠ [] ∧ ∀ d ∈ cstr fld, isodigit d = true

instance (fld : Bytes) : Decidable (octal_string fld) := by
  unfold octal_string; infer_instance

/-- A directory with the single file `a` holding the bytes `d`. -/
def ex_fs_archive (d : Bytes) : FS := fun p =>
  if p = [97] then some { st := ex_stat, content := d } else none

/-- An archive of 2048 bytes: a header with the name `f` and the size field
`00000000018`, one more block, and the footer. -/
def ex_bad_octal : Bytes :=
  name_field [102] ++ zeros 24 ++ [48, 48, 48, 48, 48, 48, 48, 48, 48, 49, 56, 0] ++ zeros 376
    ++ zeros 512 ++ footer

/-- An archive of 1536 bytes: the entry of the file `f` (`hello`), then a header
with the name `g` whose size field starts with the letter `x`. -/
def ex_bad_size : Bytes :=
  entry_bytes ex_env [102] { st := ex_stat, content := hello } [117] [103]
    ++ (name_field [103] ++ zeros 24 ++ ([120] ++ zeros 11) ++ zeros 376)

/-! ## The positions of the two passes -/

/-- The amount `block_num * BLOCK_SIZE` that one iteration of the list pass adds
to `offset`, for the value `int_size` that `sscanf` stored. -/
def list_stride (int_size : Int) : Int :=
  i32 (i32 ((i32 (i32 (int_size + BLOCK_SIZE) - 1)).tdiv BLOCK_SIZE + 1) * BLOCK_SIZE)

/-- The number of bytes one iteration of the extract pass moves the archive
stream when no read is short: `fseek` by 124, `fread` of 12 bytes, `fseek` by
`512 - 136`, `fread` of `int_size` bytes, `fseek` by
`(BLOCK_SIZE - int_size % BLOCK_SIZE) % BLOCK_SIZE`. -/
def extract_move (int_size : Int) : Int :=
  124 + 12 + (512 - 136) + int_size
    + i32 ((i32 (BLOCK_SIZE - int_size.tmod BLOCK_SIZE)).tmod BLOCK_SIZE)

/-- The state of the list pass after it has read the name field at the position
`o`, the variable `offset` holding `o`. -/
def at_header (content : Bytes) (o : Nat) (old size : Bytes) (files : file_list_t) :
    list_state :=
  { file_name := (fread content o old 100).1, size := size, offset := (o : Int),
    pos := o + (fread content o old 100).2, files := files }

/-- The variables of the `while (current)` loop of `extract_files_from_archive`
at the start of an iteration: the file system, the position of the archive
stream and the array `size`. -/
structure extract_state where
  fs : FS
  pos : Nat
  size : Bytes

/-- One iteration of the `while (current)` loop of `extract_files_from_archive`
that reaches `current = current->next`; `none` when it returns -1. -/
def extract_next (env : Env) (archive_name : Path) (name : Path) (s : extract_state) :
    Option extract_state :=
  match fopen_w env s.fs name with
  | none => none
  | some fs1 =>
    let pos := fseek_cur s.pos 124
    let rd := fread (bytes_of fs1 archive_name) pos s.size 12
    let size := rd.1
    let pos := pos + rd.2
    match sscanf_o size with
    | none => none
    | some v =>
      let int_size := i32 v
      let pos := fseek_cur pos (512 - 136)
      if int_size < 0 then none
      else
        let rd := fread (bytes_of fs1 archive_name) pos (zeros int_size.toNat) int_size.toNat
        let num_read := rd.2
        let fs2 := set_content env fs1 name (rd.1.take num_read)
        let pos := pos + num_read
        let offset := i32 ((i32 (BLOCK_SIZE - int_size.tmod BLOCK_SIZE)).tmod BLOCK_SIZE)
        let pos := fseek_cur pos offset
        some { fs := fs2, pos := pos, size := size }

/-- The state after the iterations for the names of a list, when each reaches
`current = current->next`. -/
def extract_iter (env : Env) (archive_name : Path) :
    List Path → extract_state → Option extract_state
  | [], s => some s
  | name :: rest, s =>
    match extract_next env archive_name name s with
    | none => none
    | some s' => extract_iter env archive_name rest s'

/-- The entries of the files `f` (`hello`) and `g` (empty), one after the other. -/
def ex_two : Bytes :=
  entry_bytes ex_env [102] { st := ex_stat, content := hello } [117] [103]
    ++ (entry_bytes ex_env [103] { st := ex_stat, content := [] } [117] [103] ++ [])

/-- A name of 101 bytes: a hundred times `a`, and then `b`. -/
def long_b : Path := List.replicate 100 97 ++ [98]

/-- A name of 101 bytes: a hundred times `a`, and then `c`. -/
def long_c : Path := List.replicate 100 97 ++ [99]

/-- A directory with the two files `long_b` (`hello`) and `long_c` (empty). -/
def ex_fs_long : FS := fun p =>
  if p = long_b then some { st := ex_stat, content := hello }
  else if p = long_c then some { st := ex_stat, content := [] }
  else none

/-- The directory that holds the archive `a` of `fs` and nothing else. -/
def ex_fs_only (fs : FS) : FS := fun p => if p = [97] then fs [97] else none

/-- The entry of a file `f` holding `hello` followed by the entry of a file `f`
holding the two bytes `hi`: what an update leaves after `f` has changed. -/
def ex_twice : Bytes :=
  entry_bytes ex_env [102] { st := ex_stat, content := hello } [117] [103]
    ++ (entry_bytes ex_env [102] { st := ex_stat, content := [104, 105] } [117] [103] ++ [])

/-- The value of `int_size` after `sscanf(size, "%o", &int_size)` has returned 1,
as the two scanning loops use it: the number converted, stored in an `int`. -/
def scan_int_size (size : Bytes) : Option Int := (sscanf_o size).map i32

/-- Two GiB of zero bytes. -/
def big2 : Bytes := List.replicate 2147483648 0

/-! # Theorems -/

/-! ## Machine integers: facts -/

theorem i32_id {x : Int} (h1 : -2147483648 ≤ x) (h2 : x < 2147483648) : i32 x = x := by
  unfold i32; omega

theorem u32_id (n : Nat) (h : n < 4294967296) : u32 (n : Int) = n := by
  unfold u32; omega

/-! ## Octal text: facts -/

theorem octRev_length_le : ∀ k n, (octRev k n).length ≤ k
  | 0, _ => by simp [octRev]
  | k + 1, n => by
    unfold octRev
    split
    · simp
    · have := octRev_length_le k (n / 8)
      simp; omega

theorem octRev_digit : ∀ k n d, d ∈ octRev k n → 48 ≤ d ∧ d ≤ 55
  | 0, _, d => by simp [octRev]
  | k + 1, n, d => by
    unfold octRev
    intro h
    rw [List.mem_cons] at h
    rcases h with h | h
    · omega
    · split at h
      · simp at h
      · exact octRev_digit k _ d h

theorem octRev_val : ∀ k n, n < 8 ^ k →
    (octRev k n).foldr (fun d a => a * 8 + (d - 48)) 0 = n
  | 0, n => by intro h; simp at h; simp [octRev, h]
  | k + 1, n => by
    intro h
    unfold octRev
    split
    · simp
      omega
    · have hk : n / 8 < 8 ^ k := by
        rw [pow_succ] at h
        omega
      have := octRev_val k (n / 8) hk
      simp only [List.foldr_cons, this]
      omega

theorem foldl_oct_zeros (m : Nat) (ds : List Nat) :
    (List.replicate m 48 ++ ds).foldl (fun a d => a * 8 + (d - 48)) 0
      = ds.foldl (fun a d => a * 8 + (d - 48)) 0 := by
  induction m with
  | zero => simp
  | succ m ih => simpa [List.replicate_succ] using ih

theorem fmt_o_val (w v : Nat) (h : v < 8 ^ 11) : octVal (fmt_o w v) = v := by
  unfold octVal fmt_o
  simp only []
  rw [foldl_oct_zeros, List.foldl_reverse]
  exact octRev_val 11 v h

theorem fmt_o_digit (w v d : Nat) (h : d ∈ fmt_o w v) : 48 ≤ d ∧ d ≤ 55 := by
  unfold fmt_o at h
  simp only [List.mem_append, List.mem_reverse] at h
  rcases h with h | h
  · have := List.eq_of_mem_replicate h
    omega
  · exact octRev_digit _ _ _ h

theorem fmt_o_length_ge (w v : Nat) : w ≤ (fmt_o w v).length := by
  unfold fmt_o; simp; omega

theorem fmt_o_length_11 (v : Nat) : (fmt_o 11 v).length = 11 := by
  have := octRev_length_le 11 v
  unfold fmt_o; simp; omega

theorem takeWhile_all_append (p : Nat → Bool) : ∀ (ds : Bytes) (x : Nat) (rest : Bytes),
    (∀ d ∈ ds, p d = true) → p x = false → (ds ++ x :: rest).takeWhile p = ds
  | [], x, rest, _, hx => by simp [List.takeWhile, hx]
  | d :: ds, x, rest, h, hx => by
    have hd : p d = true := h d (List.mem_cons_self _ _)
    have := takeWhile_all_append p ds x rest (fun e he => h e (List.mem_cons_of_mem _ he)) hx
    simp [List.takeWhile, hd, this]

theorem takeWhile_all (p : Nat → Bool) : ∀ (ds : Bytes), (∀ d ∈ ds, p d = true) →
    ds.takeWhile p = ds
  | [], _ => rfl
  | d :: ds, h => by
    have hd : p d = true := h d (List.mem_cons_self _ _)
    have := takeWhile_all p ds (fun e he => h e (List.mem_cons_of_mem _ he))
    simp [List.takeWhile, hd, this]

theorem cstr_append_nul (ds rest : Bytes) (h : ∀ d ∈ ds, d ≠ 0) :
    cstr (ds ++ 0 :: rest) = ds := by
  unfold cstr
  apply takeWhile_all_append
  · intro d hd; simpa using h d hd
  · simp

theorem sscanf_o_digits (ds rest : Bytes) (hne : ds ≠ []) (hd : ∀ d ∈ ds, 48 ≤ d ∧ d ≤ 55) :
    sscanf_o (ds ++ 0 :: rest) = some (octVal ds : Int) := by
  have hc : cstr (ds ++ 0 :: rest) = ds :=
    cstr_append_nul ds rest (fun d h => by have := hd d h; omega)
  obtain ⟨a, t, rfl⟩ := List.exists_cons_of_ne_nil hne
  have ha := hd a (List.mem_cons_self _ _)
  have hsp : isspace a = false := by
    unfold isspace; simp; omega
  have htw : (a :: t).takeWhile isodigit = a :: t := by
    apply takeWhile_all
    intro d h
    have := hd d h
    unfold isodigit; simp; omega
  have h45 : a ≠ 45 := by omega
  have h43 : a ≠ 43 := by omega
  unfold sscanf_o
  simp only [hc, List.dropWhile, hsp, List.head?_cons]
  simp [h45, h43, htw, octVal]

theorem sscanf_o_size_field (s : Nat) (h : s < 8 ^ 11) :
    sscanf_o (size_field s) = some (s : Int) := by
  have hne : fmt_o 11 s ≠ [] := by
    intro h0
    have := fmt_o_length_11 s
    rw [h0] at this
    simp at this
  have := sscanf_o_digits (fmt_o 11 s) [] hne (fun d hd => fmt_o_digit 11 s d hd)
  rw [fmt_o_val 11 s h] at this
  exact this

theorem size_field_length (s : Nat) : (size_field s).length = 12 := by
  unfold size_field
  simp [fmt_o_length_11]

/-! ## The header: facts -/

theorem fill_tar_header_eq (env : Env) (fs : FS) (n : Path) (f : File) (pw gr : Bytes)
    (hf : stat fs n = some f) (hpw : env.getpwuid f.st.st_uid = some pw)
    (hgr : env.getgrgid f.st.st_gid = some gr) :
    fill_tar_header env fs n = some (compute_checksum env (raw_header n f pw gr)) := by
  unfold fill_tar_header
  simp only [hf, hpw, hgr]
  rfl

theorem fill_tar_header_some (env : Env) (fs : FS) (n : Path) (h : tar_header)
    (hh : fill_tar_header env fs n = some h) :
    ∃ f pw gr, stat fs n = some f ∧ env.getpwuid f.st.st_uid = some pw ∧
      env.getgrgid f.st.st_gid = some gr ∧ h = compute_checksum env (raw_header n f pw gr) := by
  unfold fill_tar_header at hh
  cases hf : stat fs n with
  | none => simp [hf] at hh
  | some f =>
    cases hpw : env.getpwuid f.st.st_uid with
    | none => simp [hf, hpw] at hh
    | some pw =>
      cases hgr : env.getgrgid f.st.st_gid with
      | none => simp [hf, hpw, hgr] at hh
      | some gr =>
        refine ⟨f, pw, gr, rfl, hpw, hgr, ?_⟩
        simp only [hf, hpw, hgr, Option.some.injEq] at hh
        rw [← hh]
        rfl

theorem snprintf_length (dst s : Bytes) (n : Nat) (h1 : 0 < n) (h2 : n ≤ dst.length) :
    (snprintf dst n s).length = dst.length := by
  unfold snprintf
  simp
  omega

theorem strncpy_length (dst src : Bytes) (n : Nat) (h : n ≤ dst.length) :
    (strncpy dst src n).length = dst.length := by
  unfold strncpy
  simp
  omega

theorem zeros_length (n : Nat) : (zeros n).length = n := by simp [zeros]

theorem snprintf_size (v : Nat) : snprintf (zeros 12) 12 (fmt_o 11 v) = size_field v := by
  unfold snprintf size_field
  have h := fmt_o_length_11 v
  have ht : (fmt_o 11 v).take (12 - 1) = fmt_o 11 v := by
    apply List.take_of_length_le
    omega
  simp only [ht, h]
  simp [zeros]

theorem strncpy_name (n : Path) (h : n.length ≤ 100) :
    strncpy (zeros 100) n 100 = name_field n := by
  unfold strncpy name_field
  have ht : n.take 100 = n := List.take_of_length_le h
  simp [ht, zeros]

theorem tar_header_bytes_split (h : tar_header) :
    h.bytes = h.name ++ hdr_mid h ++ h.size ++ hdr_tail h := by
  unfold tar_header.bytes hdr_mid hdr_tail
  simp only [List.append_assoc]

theorem compute_checksum_fields (env : Env) (h : tar_header) :
    (compute_checksum env h).name = h.name ∧ hdr_mid (compute_checksum env h) = hdr_mid h ∧
    (compute_checksum env h).size = h.size ∧ (compute_checksum env h).mtime = h.mtime ∧
    ((compute_checksum env h).chksum).length = 8 := by
  refine ⟨rfl, rfl, rfl, rfl, ?_⟩
  unfold compute_checksum
  simp only []
  rw [snprintf_length] <;> simp

theorem raw_header_lengths (n : Path) (f : File) (pw gr : Bytes) :
    (hdr_mid (raw_header n f pw gr)).length = 24 ∧
    ∀ env, (hdr_tail (compute_checksum env (raw_header n f pw gr))).length = 376 := by
  constructor
  · unfold hdr_mid raw_header
    simp only [List.length_append]
    rw [snprintf_length, snprintf_length, snprintf_length] <;> simp [zeros]
  · intro env
    have hc := (compute_checksum_fields env (raw_header n f pw gr)).2.2.2.2
    unfold hdr_tail
    simp only [List.length_append, hc]
    unfold compute_checksum raw_header
    simp only []
    rw [snprintf_length, snprintf_length, snprintf_length, strncpy_length, strncpy_length,
      strncpy_length] <;> simp [zeros, memcpy]

theorem raw_header_tail_head (env : Env) (n : Path) (f : File) (pw gr : Bytes) :
    ∃ c g, hdr_tail (compute_checksum env (raw_header n f pw gr)) = c :: g ∧ c ≠ 0 := by
  have hm : (compute_checksum env (raw_header n f pw gr)).mtime = size_field (u32 f.st.st_mtime) := by
    show snprintf (zeros 12) 12 (fmt_o 11 (u32 f.st.st_mtime)) = _
    exact snprintf_size _
  have hl := fmt_o_length_11 (u32 f.st.st_mtime)
  cases hfm : fmt_o 11 (u32 f.st.st_mtime) with
  | nil => rw [hfm] at hl; simp at hl
  | cons c t =>
    have hd := fmt_o_digit 11 (u32 f.st.st_mtime) c (by rw [hfm]; exact List.mem_cons_self _ _)
    have hc0 : c ≠ 0 := by omega
    have he : hdr_tail (compute_checksum env (raw_header n f pw gr))
        = c :: (hdr_tail (compute_checksum env (raw_header n f pw gr))).tail := by
      unfold hdr_tail
      rw [hm]
      unfold size_field
      rw [hfm]
      simp only [List.cons_append, List.append_assoc, List.tail_cons]
    exact ⟨c, _, he, hc0⟩

/-! ## Writing one entry: facts -/

theorem adjust_size_eq (s : Nat) (h : s + 511 < 2147483648) :
    i32 ((i32 (i32 ((s : Int) + BLOCK_SIZE) - 1)).tdiv BLOCK_SIZE * BLOCK_SIZE)
      = (((s + 511) / 512 * 512 : Nat) : Int) := by
  have h1 : i32 (i32 ((s : Int) + BLOCK_SIZE) - 1) = (s : Int) + 511 := by
    unfold i32 BLOCK_SIZE; omega
  rw [h1]
  have h2 : ((s : Int) + 511).tdiv BLOCK_SIZE = ((s : Int) + 511) / 512 :=
    Int.tdiv_eq_ediv (by omega) (by unfold BLOCK_SIZE; omega)
  rw [h2]
  unfold BLOCK_SIZE
  rw [i32_id (by omega) (by omega)]
  push_cast
  rfl

theorem adjust_size_neg (s : Nat) (h1 : s < 2147483648) (h2 : 2147483648 ≤ s + 511) :
    i32 ((i32 (i32 ((s : Int) + BLOCK_SIZE) - 1)).tdiv BLOCK_SIZE * BLOCK_SIZE) < 0 := by
  have h3 : i32 (i32 ((s : Int) + BLOCK_SIZE) - 1) = (s : Int) + 511 - 4294967296 := by
    unfold i32 BLOCK_SIZE; omega
  rw [h3]
  have h4 : ((s : Int) + 511 - 4294967296).tdiv BLOCK_SIZE
      = -((4294967296 - ((s : Int) + 511)) / 512) := by
    have : (s : Int) + 511 - 4294967296 = -(4294967296 - ((s : Int) + 511)) := by ring
    rw [this, Int.neg_tdiv, Int.tdiv_eq_ediv (by omega) (by unfold BLOCK_SIZE; omega)]
    rfl
  rw [h4]
  unfold BLOCK_SIZE i32
  omega

theorem stat_of_ne_nil (fs : FS) (n : Path) (h : n ≠ []) : stat fs n = fs n := by
  simp [stat, h]

theorem fopen_r_of_ne_nil (fs : FS) (n : Path) (h : n ≠ []) : fopen_r fs n = fs n := by
  simp [fopen_r, h]

theorem pad_len_eq (s : Nat) : (s + 511) / 512 * 512 - s = pad_len s := by
  unfold pad_len; omega

theorem entry_len_eq (s : Nat) : 512 + (s + pad_len s) = entry_len s := by
  unfold pad_len entry_len; omega

theorem fread_content (content : Bytes) (m cnt : Nat) (h1 : content.length ≤ cnt)
    (h2 : content.length ≤ m) :
    ((fread content 0 (zeros m) cnt).1).take m = content ++ zeros (m - content.length) := by
  unfold fread
  have ht : (content.drop 0).take cnt = content := by
    simp only [List.drop_zero]
    exact List.take_of_length_le h1
  simp only [ht]
  rw [List.take_of_length_le]
  · simp [zeros]
  · simp [zeros]; omega

theorem entry_bytes_isEntry (env : Env) (n : Path) (f : File) (pw gr : Bytes)
    (hn : n.length ≤ 100) (hs : f.content.length < 4294967296) :
    IsEntry n f.content (entry_bytes env n f pw gr) := by
  have hl := raw_header_lengths n f pw gr
  refine ⟨hdr_mid (raw_header n f pw gr),
    hdr_tail (compute_checksum env (raw_header n f pw gr)), hl.1, hl.2 env,
    raw_header_tail_head env n f pw gr, ?_⟩
  unfold entry_bytes
  rw [tar_header_bytes_split]
  have hc := compute_checksum_fields env (raw_header n f pw gr)
  rw [hc.1, hc.2.1, hc.2.2.1]
  have h1 : (raw_header n f pw gr).name = name_field n := strncpy_name n hn
  have h2 : (raw_header n f pw gr).size = size_field f.content.length := by
    show snprintf (zeros 12) 12 (fmt_o 11 (u32 f.content.length)) = _
    rw [snprintf_size, u32_id _ hs]
  rw [h1, h2]

theorem write_entry_ok (env : Env) (fs : FS) (rd : Bool) (n : Path) (f : File) (pw gr : Bytes)
    (hn : n ≠ []) (hf : fs n = some f) (hpw : env.getpwuid f.st.st_uid = some pw)
    (hgr : env.getgrgid f.st.st_gid = some gr) (hs : f.content.length + 511 < 2147483648) :
    write_entry env fs rd n = (true, entry_bytes env n f pw gr) := by
  have hst : stat fs n = some f := by rw [stat_of_ne_nil fs n hn, hf]
  have hop : fopen_r fs n = some f := by rw [fopen_r_of_ne_nil fs n hn, hf]
  have hsz : get_size f.content = (f.content.length : Int) := by
    unfold get_size
    exact i32_id (by omega) (by omega)
  have hadj := adjust_size_eq f.content.length hs
  unfold write_entry
  rw [fill_tar_header_eq env fs n f pw gr hst hpw hgr]
  simp only [hop, hsz, hadj]
  have hneg1 : ¬ ((f.content.length : Int) < 0) := by omega
  have hneg2 : ¬ ((((f.content.length + 511) / 512 * 512 : Nat) : Int) < 0) := by omega
  simp only [hneg1, hneg2, if_false, Int.toNat_ofNat]
  have hb : ((fread f.content 0 (zeros ((f.content.length + 511) / 512 * 512))
      (if rd = true then (f.content.length + 511) / 512 * 512 else f.content.length)).1).take
        ((f.content.length + 511) / 512 * 512)
      = f.content ++ zeros (pad_len f.content.length) := by
    rw [fread_content, pad_len_eq]
    · split <;> omega
    · omega
  rw [hb]
  unfold entry_bytes
  simp only [List.append_assoc]

theorem write_entry_true (env : Env) (fs : FS) (rd : Bool) (n : Path)
    (h : (write_entry env fs rd n).1 = true) :
    ∃ f pw gr, n ≠ [] ∧ fs n = some f ∧ env.getpwuid f.st.st_uid = some pw ∧
      env.getgrgid f.st.st_gid = some gr ∧
      (f.content.length < 2147483648 → f.content.length + 511 < 2147483648) := by
  unfold write_entry at h
  cases hh : fill_tar_header env fs n with
  | none => simp [hh] at h
  | some hd =>
    obtain ⟨f, pw, gr, hst, hpw, hgr, _⟩ := fill_tar_header_some env fs n hd hh
    have hn : n ≠ [] := by
      intro h0
      simp [stat, h0] at hst
    have hf : fs n = some f := by rw [← stat_of_ne_nil fs n hn, hst]
    have hop : fopen_r fs n = some f := by rw [fopen_r_of_ne_nil fs n hn, hf]
    refine ⟨f, pw, gr, hn, hf, hpw, hgr, ?_⟩
    intro hlt
    by_contra hge
    have hsz : get_size f.content = (f.content.length : Int) := by
      unfold get_size
      exact i32_id (by omega) (by omega)
    have hneg := adjust_size_neg f.content.length hlt (by omega)
    simp only [hh, hop, hsz] at h
    have hneg1 : ¬ ((f.content.length : Int) < 0) := by omega
    simp [hneg1, hneg] at h

/-! ## Reading at a position: facts -/

theorem fread_at (pre x post buf : Bytes) :
    fread (pre ++ x ++ post) pre.length buf x.length = (x ++ buf.drop x.length, x.length) := by
  unfold fread
  have h : ((pre ++ x ++ post).drop pre.length).take x.length = x := by
    rw [List.append_assoc, List.drop_left, List.take_left]
  simp only [h]

theorem fread_at_full (pre x post buf : Bytes) (p k : Nat) (hp : p = pre.length)
    (hk : k = x.length) (hb : buf.length ≤ k) :
    fread (pre ++ x ++ post) p buf k = (x, k) := by
  subst hp hk
  rw [fread_at]
  have : buf.drop x.length = [] := List.drop_eq_nil_of_le hb
  rw [this, List.append_nil]

theorem name_field_length (n : Path) (h : n.length ≤ 100) : (name_field n).length = 100 := by
  unfold name_field
  simp [zeros]
  omega

theorem cstr_name_field (n : Path) (h : valid_name n) : cstr (name_field n) = n := by
  obtain ⟨_, hl, hb⟩ := h
  unfold name_field
  have hz : zeros (100 - n.length) = 0 :: zeros (100 - n.length - 1) := by
    unfold zeros
    rw [← List.replicate_succ]
    congr 1
    omega
  rw [hz]
  exact cstr_append_nul n _ (fun d hd => by have := hb d hd; omega)

theorem allZeros_name_field (n : Path) (h : valid_name n) :
    allZeros (name_field n) 100 = false := by
  obtain ⟨hne, hl, hb⟩ := h
  obtain ⟨a, t, rfl⟩ := List.exists_cons_of_ne_nil hne
  have ha := hb a (List.mem_cons_self _ _)
  have ha0 : a ≠ 0 := by omega
  unfold allZeros name_field
  simp [List.take, ha0]

theorem allZeros_zeros : allZeros (zeros 100) 100 = true := by
  unfold allZeros zeros
  simp

theorem isEntry_length (n : Path) (data e : Bytes) (h : IsEntry n data e) (hn : n.length ≤ 100) :
    e.length = entry_len data.length := by
  obtain ⟨g1, g2, h1, h2, _, rfl⟩ := h
  simp only [List.length_append, name_field_length n hn, h1, h2, size_field_length, zeros_length]
  rw [← entry_len_eq]
  omega

/-! ## The list pass: facts -/

theorem fread_at_shape (content pre x post buf : Bytes) (p k : Nat)
    (hc : content = pre ++ x ++ post) (hp : p = pre.length) (hk : k = x.length) :
    fread content p buf k = (x ++ buf.drop k, k) := by
  subst hc hp hk
  exact fread_at pre x post buf

theorem block_num_eq (s : Nat) (h : s + 511 < 2147483648) :
    i32 (i32 ((i32 (i32 ((i32 (s : Int)) + BLOCK_SIZE) - 1)).tdiv BLOCK_SIZE + 1) * BLOCK_SIZE)
      = i32 ((entry_len s : Nat) : Int) := by
  have h0 : i32 (s : Int) = (s : Int) := i32_id (by omega) (by omega)
  have h1 : i32 (i32 ((s : Int) + BLOCK_SIZE) - 1) = (s : Int) + 511 := by
    unfold i32 BLOCK_SIZE; omega
  have h2 : ((s : Int) + 511).tdiv BLOCK_SIZE = ((s : Int) + 511) / 512 :=
    Int.tdiv_eq_ediv (by omega) (by unfold BLOCK_SIZE; omega)
  rw [h0, h1, h2]
  have h3 : i32 (((s : Int) + 511) / 512 + 1) = ((s : Int) + 511) / 512 + 1 :=
    i32_id (by omega) (by omega)
  rw [h3]
  have h4 : (((s : Int) + 511) / 512 + 1) * BLOCK_SIZE = ((entry_len s : Nat) : Int) := by
    unfold BLOCK_SIZE entry_len
    push_cast
    ring
  rw [h4]

theorem list_loop_step (content pre e post : Bytes) (n : Path) (data : Bytes)
    (hc : content = pre ++ e ++ post) (he : IsEntry n data e) (hn : valid_name n)
    (hs : data.length + 511 < 2147483648) (size : Bytes) (offset : Int) (files : file_list_t)
    (fuel : Nat) :
    list_loop content (fuel + 1) (name_field n) size offset (pre.length + 100) files
      = list_loop content fuel
          (fread content
            (fseek_set (pre.length + 136) (i32 (offset + i32 ((entry_len data.length : Nat) : Int))))
            (name_field n) 100).1
          (size_field data.length ++ size.drop 12) (i32 (offset + i32 ((entry_len data.length : Nat) : Int)))
          (fseek_set (pre.length + 136) (i32 (offset + i32 ((entry_len data.length : Nat) : Int)))
            + (fread content
                (fseek_set (pre.length + 136)
                  (i32 (offset + i32 ((entry_len data.length : Nat) : Int))))
                (name_field n) 100).2)
          (files ++ [n]) := by
  obtain ⟨g1, g2, hg1, hg2, _, rfl⟩ := he
  have hnl := name_field_length n (by have := hn.2.1; omega)
  have hseek : fseek_cur (pre.length + 100) 24 = pre.length + 124 := by
    unfold fseek_cur
    have : (0 : Int) ≤ ((pre.length + 100 : Nat) : Int) + 24 := by omega
    rw [if_pos this]
    omega
  have hrd : fread content (pre.length + 124) size 12
      = (size_field data.length ++ size.drop 12, 12) := by
    apply fread_at_shape content (pre ++ name_field n ++ g1) (size_field data.length)
      (g2 ++ data ++ zeros (pad_len data.length) ++ post)
    · rw [hc]; simp only [List.append_assoc]
    · simp only [List.length_append, hnl, hg1]
    · rw [size_field_length]
  have hscan : sscanf_o (size_field data.length ++ size.drop 12) = some (data.length : Int) := by
    have hne : fmt_o 11 data.length ≠ [] := by
      intro h0
      have := fmt_o_length_11 data.length
      rw [h0] at this
      simp at this
    have := sscanf_o_digits (fmt_o 11 data.length) (size.drop 12) hne
      (fun d hd => fmt_o_digit 11 _ d hd)
    rw [fmt_o_val 11 _ (by norm_num; omega)] at this
    unfold size_field
    simpa using this
  rw [list_loop]
  simp only [allZeros_name_field n hn, cstr_name_field n hn, hseek, hrd, hscan,
    block_num_eq data.length hs, file_list_add, Bool.false_eq_true, if_false]

theorem fread_full_shape (content pre x post buf : Bytes) (p k : Nat)
    (hc : content = pre ++ x ++ post) (hp : p = pre.length) (hk : k = x.length)
    (hb : buf.length ≤ k) : fread content p buf k = (x, k) := by
  subst hc
  exact fread_at_full pre x post buf p k hp hk hb

theorem scan_step (content pre e post : Bytes) (n : Path) (data : Bytes)
    (hc : content = pre ++ e ++ post) (he : IsEntry n data e) (hn : valid_name n)
    (hs : data.length + 511 < 2147483648) (hov : pre.length + e.length < 2147483648)
    (old size : Bytes) (hold : old.length ≤ 100) (files : file_list_t) (fuel : Nat) :
    scan_from content (fuel + 1) old size pre.length files
      = scan_from content fuel (name_field n) (size_field data.length ++ size.drop 12)
          (pre.length + e.length) (files ++ [n]) := by
  have hnl := name_field_length n (by have := hn.2.1; omega)
  have hel := isEntry_length n data e he (by have := hn.2.1; omega)
  have hstep := list_loop_step content pre e post n data hc he hn hs size
    (pre.length : Int) files fuel
  have hrd : fread content pre.length old 100 = (name_field n, 100) := by
    obtain ⟨g1, g2, hg1, hg2, _, rfl⟩ := he
    apply fread_full_shape content pre (name_field n)
      (g1 ++ size_field data.length ++ g2 ++ data ++ zeros (pad_len data.length) ++ post)
    · rw [hc]; simp only [List.append_assoc]
    · rfl
    · rw [hnl]
    · exact hold
  have hoff : i32 ((pre.length : Int) + i32 ((entry_len data.length : Nat) : Int))
      = ((pre.length + e.length : Nat) : Int) := by
    rw [← hel]
    have h1 : i32 ((e.length : Nat) : Int) = (e.length : Int) := i32_id (by omega) (by omega)
    rw [h1, i32_id (by omega) (by omega)]
    push_cast
    rfl
  have hset : fseek_set (pre.length + 136) ((pre.length + e.length : Nat) : Int)
      = pre.length + e.length := by
    unfold fseek_set
    rw [if_pos (by omega)]
    omega
  unfold scan_from
  rw [hrd]
  simp only []
  rw [hstep, hoff, hset]

theorem isEntries_length : ∀ (l : List (Path × Bytes)) (b : Bytes), IsEntries l b →
    (∀ x ∈ l, x.1.length ≤ 100) → b.length = (l.map (fun x => entry_len x.2.length)).sum
  | [], b, h, _ => by
    simp only [IsEntries] at h
    simp [h]
  | (n, d) :: r, b, h, hv => by
    obtain ⟨e, b', he, hr, rfl⟩ := h
    have h1 := isEntry_length n d e he (hv (n, d) (List.mem_cons_self _ _))
    have h2 := isEntries_length r b' hr (fun x hx => hv x (List.mem_cons_of_mem _ hx))
    simp [h1, h2]

theorem scan_entries : ∀ (l : List (Path × Bytes)) (b : Bytes), IsEntries l b →
    (∀ x ∈ l, valid_name x.1) → (∀ x ∈ l, x.2.length + 511 < 2147483648) →
    ∀ (pre old size : Bytes) (files : file_list_t), pre.length + b.length < 2147483648 →
    old.length ≤ 100 →
    ∃ old' size', old'.length ≤ 100 ∧ ∀ (fuel : Nat) (post : Bytes),
      scan_from (pre ++ b ++ post) (fuel + l.length) old size pre.length files
        = scan_from (pre ++ b ++ post) fuel old' size' (pre.length + b.length)
            (files ++ l.map Prod.fst)
  | [], b, h, _, _, pre, old, size, files, _, hold => by
    simp only [IsEntries] at h
    subst h
    exact ⟨old, size, hold, fun fuel post => by simp⟩
  | (n, d) :: r, b, h, hv, hs, pre, old, size, files, hov, hold => by
    obtain ⟨e, b', he, hr, rfl⟩ := h
    have hn : valid_name n := hv (n, d) (List.mem_cons_self _ _)
    have hd : d.length + 511 < 2147483648 := hs (n, d) (List.mem_cons_self _ _)
    have hnl := name_field_length n (by have := hn.2.1; omega)
    have hov' : pre.length + (e.length + b'.length) < 2147483648 := by
      rw [← List.length_append]; exact hov
    obtain ⟨old', size', hold', ih⟩ := scan_entries r b' hr
      (fun x hx => hv x (List.mem_cons_of_mem _ hx))
      (fun x hx => hs x (List.mem_cons_of_mem _ hx)) (pre ++ e) (name_field n)
      (size_field d.length ++ size.drop 12) (files ++ [n])
      (by rw [List.length_append]; omega) (by omega)
    refine ⟨old', size', hold', fun fuel post => ?_⟩
    have hstep := scan_step (pre ++ (e ++ b') ++ post) pre e (b' ++ post) n d
      (by simp only [List.append_assoc]) he hn hd (by omega) old size hold files
      (fuel + r.length)
    have hih := ih fuel post
    rw [List.length_append] at hih
    have e1 : pre ++ (e ++ b') ++ post = pre ++ e ++ b' ++ post := by
      simp only [List.append_assoc]
    have e2 : fuel + ((n, d) :: r).length = fuel + r.length + 1 := by
      simp only [List.length_cons]; omega
    rw [e2, hstep, e1, hih]
    simp only [List.length_append, List.map_cons, List.append_assoc, List.singleton_append,
      Nat.add_assoc]

theorem scan_footer (pre post old size : Bytes) (files : file_list_t) (fuel : Nat)
    (hold : old.length ≤ 100) :
    scan_from (pre ++ footer ++ post) (fuel + 1) old size pre.length files = some (0, files) := by
  have hrd : fread (pre ++ footer ++ post) pre.length old 100 = (zeros 100, 100) := by
    apply fread_full_shape _ pre (zeros 100) (zeros 924 ++ post)
    · have : footer = zeros 100 ++ zeros 924 := by
        unfold footer zeros NUM_TRAILING_BLOCKS
        rw [← List.replicate_add]
      rw [this]; simp only [List.append_assoc]
    · rfl
    · simp [zeros]
    · exact hold
  unfold scan_from
  rw [hrd, list_loop]
  simp only [allZeros_zeros, if_true]

/-! ## Writing the entries of a name list: facts -/

theorem write_entries_cons (env : Env) (fs : FS) (rd : Bool) (n : Path) (rest : List Path) :
    write_entries env fs rd (n :: rest)
      = if (write_entry env fs rd n).1 = true then
          ((write_entries env fs rd rest).1,
            (write_entry env fs rd n).2 ++ (write_entries env fs rd rest).2)
        else (-1, (write_entry env fs rd n).2) := by
  rw [write_entries]
  cases hw : write_entry env fs rd n with
  | mk ok b => cases ok <;> simp

theorem write_entries_status (env : Env) (fs : FS) (rd : Bool) : ∀ names : List Path,
    (write_entries env fs rd names).1 = 0 ∨ (write_entries env fs rd names).1 = -1
  | [] => Or.inl rfl
  | n :: rest => by
    rw [write_entries_cons]
    split
    · exact write_entries_status env fs rd rest
    · exact Or.inr rfl

theorem write_entries_zero_iff (env : Env) (fs : FS) (rd : Bool) : ∀ names : List Path,
    (write_entries env fs rd names).1 = 0 ↔ ∀ n ∈ names, (write_entry env fs rd n).1 = true
  | [] => by simp [write_entries]
  | n :: rest => by
    rw [write_entries_cons]
    have ih := write_entries_zero_iff env fs rd rest
    split
    · rename_i h
      simp only [ih, List.mem_cons, forall_eq_or_imp, h, true_and]
    · rename_i h
      constructor
      · intro h0
        have h1 : (-1 : Int) = 0 := h0
        exact absurd h1 (by decide)
      · intro hall
        exact absurd (hall n (List.mem_cons_self _ _)) h

theorem bytes_of_eq (fs : FS) (n : Path) (f : File) (h : fs n = some f) :
    bytes_of fs n = f.content := by
  simp [bytes_of, h]

theorem write_entry_isEntry (env : Env) (fs : FS) (rd : Bool) (n : Path)
    (h : (write_entry env fs rd n).1 = true) (hn : n.length ≤ 100)
    (hs : (bytes_of fs n).length < 2147483648) :
    IsEntry n (bytes_of fs n) (write_entry env fs rd n).2 ∧
      (bytes_of fs n).length + 511 < 2147483648 := by
  obtain ⟨f, pw, gr, hne, hf, hpw, hgr, hb⟩ := write_entry_true env fs rd n h
  rw [bytes_of_eq fs n f hf] at hs ⊢
  have hb' := hb hs
  rw [write_entry_ok env fs rd n f pw gr hne hf hpw hgr hb']
  exact ⟨entry_bytes_isEntry env n f pw gr hn (by omega), hb'⟩

theorem write_entries_isEntries (env : Env) (fs : FS) (rd : Bool) : ∀ names : List Path,
    (write_entries env fs rd names).1 = 0 → (∀ n ∈ names, n.length ≤ 100) →
    (∀ n ∈ names, (bytes_of fs n).length < 2147483648) →
    IsEntries (names.map (fun n => (n, bytes_of fs n))) (write_entries env fs rd names).2
  | [], _, _, _ => by simp [write_entries, IsEntries]
  | n :: rest, h, hn, hs => by
    have hall := (write_entries_zero_iff env fs rd (n :: rest)).1 h
    have h1 := hall n (List.mem_cons_self _ _)
    have hrest : (write_entries env fs rd rest).1 = 0 :=
      (write_entries_zero_iff env fs rd rest).2 (fun m hm => hall m (List.mem_cons_of_mem _ hm))
    have ih := write_entries_isEntries env fs rd rest hrest
      (fun m hm => hn m (List.mem_cons_of_mem _ hm))
      (fun m hm => hs m (List.mem_cons_of_mem _ hm))
    have he := (write_entry_isEntry env fs rd n h1 (hn n (List.mem_cons_self _ _))
      (hs n (List.mem_cons_self _ _))).1
    rw [write_entries_cons, if_pos h1]
    simp only [List.map_cons, IsEntries]
    exact ⟨_, _, he, ih, rfl⟩

/-! ## `create_archive`: facts -/

theorem set_content_same (env : Env) (fs : FS) (a : Path) (d : Bytes) :
    bytes_of (set_content env fs a d) a = d := by
  simp [bytes_of, set_content]

theorem set_content_other (env : Env) (fs : FS) (a p : Path) (d : Bytes) (h : p ≠ a) :
    set_content env fs a d p = fs p := by
  simp [set_content, h]

theorem bytes_of_set_content_other (env : Env) (fs : FS) (a p : Path) (d : Bytes) (h : p ≠ a) :
    bytes_of (set_content env fs a d) p = bytes_of fs p := by
  simp [bytes_of, set_content, h]

theorem create_archive_ok (env : Env) (fs : FS) (a : Path) (names : List Path)
    (h : (create_archive env fs a names).1 = 0) :
    a ≠ [] ∧ (write_entries env (set_content env fs a []) true names).1 = 0 ∧
    (create_archive env fs a names).2
      = set_content env (set_content env fs a []) a
          ((write_entries env (set_content env fs a []) true names).2 ++ footer) := by
  by_cases ha : a = []
  · simp [create_archive, fopen_w, ha] at h
  · by_cases hcw : env.writable a = true
    · by_cases hw : (write_entries env (set_content env fs a []) true names).1 = 0
      · refine ⟨ha, hw, ?_⟩
        simp only [create_archive, fopen_w, ha, hcw, if_false, hw, if_true]
      · simp [create_archive, fopen_w, ha, hcw, hw] at h
    · simp [create_archive, fopen_w, ha, hcw] at h

theorem create_archive_writable (env : Env) (fs : FS) (a : Path) (names : List Path)
    (h : (create_archive env fs a names).1 = 0) : env.writable a = true := by
  by_cases ha : a = []
  · simp [create_archive, fopen_w, ha] at h
  · by_cases hcw : env.writable a = true
    · exact hcw
    · simp [create_archive, fopen_w, ha, hcw] at h

theorem create_archive_bytes (env : Env) (fs : FS) (a : Path) (names : List Path)
    (h : (create_archive env fs a names).1 = 0) :
    bytes_of (create_archive env fs a names).2 a
      = (write_entries env (set_content env fs a []) true names).2 ++ footer := by
  rw [(create_archive_ok env fs a names h).2.2, set_content_same]

theorem fopen_r_set_content (env : Env) (fs : FS) (a : Path) (d : Bytes) (ha : a ≠ []) :
    ∃ f, fopen_r (set_content env fs a d) a = some f ∧ f.content = d := by
  refine ⟨{ st := match fs a with
                  | some f => f.st
                  | none => env.creat,
            content := d }, ?_, rfl⟩
  unfold fopen_r set_content
  simp only [ha, if_false, if_true]

theorem get_archive_file_list_eq_scan (fuel : Nat) (junk : Bytes) (fs : FS) (a : Path)
    (files : file_list_t) (f : File) (h : fopen_r fs a = some f) :
    get_archive_file_list fuel junk fs a files
      = scan_from f.content fuel (zeros 100) junk 0 files := by
  unfold get_archive_file_list scan_from
  simp only [h, Nat.zero_add]
  rfl

theorem footer_length : footer.length = 1024 := by
  unfold footer zeros NUM_TRAILING_BLOCKS
  rw [List.length_replicate]

/-- The list pass on an archive made of complete entries followed by the footer
returns the names of the entries, when the entries total less than `2^31` bytes. -/
theorem list_of_entries (fuel : Nat) (junk : Bytes) (fs : FS) (a : Path) (f : File)
    (l : List (Path × Bytes)) (b : Bytes) (hf : fopen_r fs a = some f)
    (hc : f.content = b ++ footer) (hl : IsEntries l b) (hv : ∀ x ∈ l, valid_name x.1)
    (hs : ∀ x ∈ l, x.2.length + 511 < 2147483648) (htot : b.length < 2147483648)
    (hfuel : l.length < fuel) :
    get_archive_file_list fuel junk fs a [] = some (0, l.map Prod.fst) := by
  rw [get_archive_file_list_eq_scan fuel junk fs a [] f hf, hc]
  obtain ⟨old', size', hold', hscan⟩ := scan_entries l b hl hv hs [] (zeros 100) junk []
    (by simpa using htot) (by simp [zeros])
  obtain ⟨k, rfl⟩ : ∃ k, fuel = (k + 1) + l.length := ⟨fuel - l.length - 1, by omega⟩
  have h1 := hscan (k + 1) footer
  simp only [List.nil_append, List.length_nil, Nat.zero_add] at h1
  rw [h1]
  have h2 := scan_footer b [] old' size' (l.map Prod.fst) k hold'
  simpa using h2

theorem bytes_of_truncated_lt (env : Env) (fs : FS) (a n : Path) (k : Nat)
    (h : (bytes_of fs n).length < k) : (bytes_of (set_content env fs a []) n).length < k := by
  by_cases hn : n = a
  · subst hn
    rw [set_content_same]
    simp only [List.length_nil]
    omega
  · rw [bytes_of_set_content_other env fs a n [] hn]
    exact h

theorem written_entries (env : Env) (fs : FS) (rd : Bool) (names : List Path)
    (hok : (write_entries env fs rd names).1 = 0) (hv : ∀ n ∈ names, valid_name n)
    (hsz : ∀ n ∈ names, (bytes_of fs n).length < 2147483648) :
    IsEntries (names.map (fun n => (n, bytes_of fs n))) (write_entries env fs rd names).2 ∧
    (∀ x ∈ names.map (fun n => (n, bytes_of fs n)), valid_name x.1) ∧
    (∀ x ∈ names.map (fun n => (n, bytes_of fs n)), x.2.length + 511 < 2147483648) ∧
    (names.map (fun n => (n, bytes_of fs n))).map Prod.fst = names := by
  refine ⟨write_entries_isEntries env fs rd names hok
    (fun n hn => by have := (hv n hn).2.1; omega) hsz, ?_, ?_, ?_⟩
  · intro x hx
    obtain ⟨n, hn, rfl⟩ := List.mem_map.1 hx
    exact hv n hn
  · intro x hx
    obtain ⟨n, hn, rfl⟩ := List.mem_map.1 hx
    have h1 := (write_entries_zero_iff env fs rd names).1 hok n hn
    exact (write_entry_isEntry env fs rd n h1 (by have := (hv n hn).2.1; omega) (hsz n hn)).2
  · simp [List.map_map, Function.comp_def]

theorem list_after_create_aux (env : Env) (fs : FS) (archive_name : Path) (names : List Path)
    (fuel : Nat) (junk : Bytes) (hv : ∀ n ∈ names, valid_name n)
    (hsz : ∀ n ∈ names, (bytes_of fs n).length < 2147483648)
    (hok : (create_archive env fs archive_name names).1 = 0)
    (htot : (bytes_of (create_archive env fs archive_name names).2 archive_name).length
      < 2147483648 + 1024)
    (hfuel : names.length < fuel) :
    get_archive_file_list fuel junk (create_archive env fs archive_name names).2 archive_name []
      = some (0, names) := by
  obtain ⟨ha, hw, hfs⟩ := create_archive_ok env fs archive_name names hok
  have hb := create_archive_bytes env fs archive_name names hok
  rw [hb, List.length_append, footer_length] at htot
  obtain ⟨hl, hlv, hls, hnames⟩ := written_entries env (set_content env fs archive_name []) true
    names hw hv (fun n hn => bytes_of_truncated_lt env fs archive_name n _ (hsz n hn))
  rw [hfs]
  obtain ⟨f, hf, hfc⟩ := fopen_r_set_content env (set_content env fs archive_name [])
    archive_name ((write_entries env (set_content env fs archive_name []) true names).2 ++ footer)
    ha
  have := list_of_entries fuel junk _ archive_name f _ _ hf hfc hl hlv hls (by omega)
    (by simpa using hfuel)
  rw [hnames] at this
  exact this

/-! ## The extract pass: facts -/

theorem set_content_twice (env : Env) (fs : FS) (n : Path) (d1 d2 : Bytes) :
    set_content env (set_content env fs n d1) n d2 = set_content env fs n d2 := by
  funext p
  by_cases hp : p = n
  · simp [set_content, hp]
  · simp [set_content, hp]

theorem extract_pad_eq (s : Nat) (h : s < 2147483648) :
    i32 ((i32 (BLOCK_SIZE - (i32 (s : Int)).tmod BLOCK_SIZE)).tmod BLOCK_SIZE)
      = ((pad_len s : Nat) : Int) := by
  have h0 : i32 (s : Int) = (s : Int) := i32_id (by omega) (by omega)
  have h1 : ((s : Int)).tmod BLOCK_SIZE = (s : Int) % 512 :=
    Int.tmod_eq_emod (by omega) (by unfold BLOCK_SIZE; omega)
  rw [h0, h1]
  have h2 : i32 (BLOCK_SIZE - (s : Int) % 512) = 512 - (s : Int) % 512 := by
    unfold BLOCK_SIZE
    exact i32_id (by omega) (by omega)
  rw [h2]
  have h3 : (512 - (s : Int) % 512).tmod BLOCK_SIZE = (512 - (s : Int) % 512) % 512 :=
    Int.tmod_eq_emod (by omega) (by unfold BLOCK_SIZE; omega)
  rw [h3, i32_id (by omega) (by omega)]
  unfold pad_len
  omega

theorem extract_step (env : Env) (a n : Path) (rest : List Path) (fs : FS)
    (pre e post data size : Bytes) (hna : n ≠ a) (hn : valid_name n)
    (hcw : env.writable n = true)
    (hc : bytes_of fs a = pre ++ e ++ post) (he : IsEntry n data e)
    (hs : data.length < 2147483648) :
    extract_loop env a (n :: rest) fs pre.length size
      = extract_loop env a rest (set_content env fs n data) (pre.length + e.length)
          (size_field data.length ++ size.drop 12) := by
  have hnl := name_field_length n (by have := hn.2.1; omega)
  have hel := isEntry_length n data e he (by have := hn.2.1; omega)
  obtain ⟨g1, g2, hg1, hg2, _, rfl⟩ := he
  have hc1 : bytes_of (set_content env fs n []) a
      = pre ++ (name_field n ++ g1 ++ size_field data.length ++ g2 ++ data
          ++ zeros (pad_len data.length)) ++ post := by
    rw [bytes_of_set_content_other env fs n a [] (Ne.symm hna), hc]
  have hopen : fopen_w env fs n = some (set_content env fs n []) := by
    simp [fopen_w, hn.1, hcw]
  have hseek1 : fseek_cur pre.length 124 = pre.length + 124 := by
    unfold fseek_cur
    rw [if_pos (by omega)]
    omega
  have hrd1 : fread (bytes_of (set_content env fs n []) a) (pre.length + 124) size 12
      = (size_field data.length ++ size.drop 12, 12) := by
    apply fread_at_shape _ (pre ++ name_field n ++ g1) (size_field data.length)
      (g2 ++ data ++ zeros (pad_len data.length) ++ post)
    · rw [hc1]; simp only [List.append_assoc]
    · simp only [List.length_append, hnl, hg1]
    · rw [size_field_length]
  have hscan : sscanf_o (size_field data.length ++ size.drop 12) = some (data.length : Int) := by
    have hne : fmt_o 11 data.length ≠ [] := by
      intro h0
      have := fmt_o_length_11 data.length
      rw [h0] at this
      simp at this
    have := sscanf_o_digits (fmt_o 11 data.length) (size.drop 12) hne
      (fun d hd => fmt_o_digit 11 _ d hd)
    rw [fmt_o_val 11 _ (by norm_num; omega)] at this
    unfold size_field
    simpa using this
  have hi : i32 (data.length : Int) = (data.length : Int) := i32_id (by omega) (by omega)
  have hseek2 : fseek_cur (pre.length + 124 + 12) (512 - 136) = pre.length + 512 := by
    unfold fseek_cur
    rw [if_pos (by omega)]
    omega
  have hrd2 : fread (bytes_of (set_content env fs n []) a) (pre.length + 512)
      (zeros data.length) data.length = (data, data.length) := by
    apply fread_full_shape _ (pre ++ name_field n ++ g1 ++ size_field data.length ++ g2) data
      (zeros (pad_len data.length) ++ post)
    · rw [hc1]; simp only [List.append_assoc]
    · simp only [List.length_append, hnl, hg1, hg2, size_field_length]
    · rfl
    · simp [zeros]
  have hpad := extract_pad_eq data.length hs
  rw [hi] at hpad
  have hseek3 : fseek_cur (pre.length + 512 + data.length) ((pad_len data.length : Nat) : Int)
      = pre.length + (name_field n ++ g1 ++ size_field data.length ++ g2 ++ data
          ++ zeros (pad_len data.length)).length := by
    unfold fseek_cur
    rw [if_pos (by omega), hel, ← entry_len_eq]
    omega
  have hnn : ¬ ((data.length : Int) < 0) := by omega
  rw [extract_loop]
  simp only [hopen, hseek1, hrd1, hscan, hi, hseek2, hnn, if_false, Int.toNat_ofNat, hrd2,
    List.take_length, hpad, hseek3, set_content_twice]

theorem extract_entries (env : Env) (a : Path) : ∀ (l : List (Path × Bytes)) (b : Bytes),
    IsEntries l b → (∀ x ∈ l, valid_name x.1) → (∀ x ∈ l, x.2.length < 2147483648) →
    (∀ x ∈ l, x.1 ≠ a) → (∀ x ∈ l, env.writable x.1 = true) →
    ∀ (fs : FS) (pre post size : Bytes),
    bytes_of fs a = pre ++ b ++ post →
    extract_loop env a (l.map Prod.fst) fs pre.length size = (0, extracted env fs l)
  | [], _, _, _, _, _, _, fs, pre, post, size, _ => by
    simp [extract_loop, extracted]
  | (n, d) :: r, b, h, hv, hs, hna, hcw, fs, pre, post, size, hc => by
    obtain ⟨e, b', he, hr, rfl⟩ := h
    have hn : valid_name n := hv (n, d) (List.mem_cons_self _ _)
    have hd : d.length < 2147483648 := hs (n, d) (List.mem_cons_self _ _)
    have hne : n ≠ a := hna (n, d) (List.mem_cons_self _ _)
    have hstep := extract_step env a n (r.map Prod.fst) fs pre e (b' ++ post) d size hne hn
      (hcw (n, d) (List.mem_cons_self _ _))
      (by rw [hc]; simp only [List.append_assoc]) he hd
    have hc' : bytes_of (set_content env fs n d) a = (pre ++ e) ++ b' ++ post := by
      rw [bytes_of_set_content_other env fs n a d (Ne.symm hne), hc]
      simp only [List.append_assoc]
    have ih := extract_entries env a r b' hr (fun x hx => hv x (List.mem_cons_of_mem _ hx))
      (fun x hx => hs x (List.mem_cons_of_mem _ hx))
      (fun x hx => hna x (List.mem_cons_of_mem _ hx))
      (fun x hx => hcw x (List.mem_cons_of_mem _ hx)) (set_content env fs n d) (pre ++ e) post
      (size_field d.length ++ size.drop 12) hc'
    rw [List.length_append] at ih
    simp only [List.map_cons]
    rw [hstep, ih]
    rfl

theorem extracted_other (env : Env) : ∀ (l : List (Path × Bytes)) (fs : FS) (p : Path),
    (∀ x ∈ l, x.1 ≠ p) → extracted env fs l p = fs p
  | [], _, _, _ => rfl
  | (n, d) :: r, fs, p, h => by
    have h1 : n ≠ p := h (n, d) (List.mem_cons_self _ _)
    have ih := extracted_other env r (set_content env fs n d) p
      (fun x hx => h x (List.mem_cons_of_mem _ hx))
    show extracted env (set_content env fs n d) r p = fs p
    rw [ih, set_content_other env fs n p d (Ne.symm h1)]

theorem extracted_nodup (env : Env) : ∀ (l : List (Path × Bytes)) (fs : FS),
    (l.map Prod.fst).Nodup → ∀ x ∈ l, bytes_of (extracted env fs l) x.1 = x.2 ∧
      ∃ f, extracted env fs l x.1 = some f
  | [], _, _, x, hx => by simp at hx
  | (n, d) :: r, fs, hnd, x, hx => by
    rw [List.map_cons, List.nodup_cons] at hnd
    rw [List.mem_cons] at hx
    show bytes_of (extracted env (set_content env fs n d) r) x.1 = x.2 ∧
      ∃ f, extracted env (set_content env fs n d) r x.1 = some f
    rcases hx with rfl | hx
    · have hno : ∀ y ∈ r, y.1 ≠ n := by
        intro y hy h0
        exact hnd.1 (List.mem_map.2 ⟨y, hy, h0⟩)
      have := extracted_other env r (set_content env fs n d) n hno
      refine ⟨?_, ?_⟩
      · unfold bytes_of
        rw [this]
        simp [set_content]
      · rw [this]
        simp [set_content]
    · exact extracted_nodup env r (set_content env fs n d) hnd.2 x hx

/-- The extract pass on an archive made of complete entries followed by the
footer, none of them named as the archive, writes every entry to its file. -/
theorem extract_of_entries (fuel : Nat) (junk1 junk2 : Bytes) (env : Env) (fs : FS) (a : Path)
    (f : File) (l : List (Path × Bytes)) (b : Bytes) (hf : fopen_r fs a = some f)
    (hc : f.content = b ++ footer) (hl : IsEntries l b) (hv : ∀ x ∈ l, valid_name x.1)
    (hs : ∀ x ∈ l, x.2.length + 511 < 2147483648) (hna : ∀ x ∈ l, x.1 ≠ a)
    (hcw : ∀ x ∈ l, env.writable x.1 = true)
    (htot : b.length < 2147483648) (hfuel : l.length < fuel) :
    extract_files_from_archive fuel junk1 junk2 env fs a = some (0, extracted env fs l) := by
  have hlist := list_of_entries fuel junk1 fs a f l b hf hc hl hv hs htot hfuel
  have hb : bytes_of fs a = [] ++ b ++ footer := by
    have ha : a ≠ [] := by
      intro h0
      simp [fopen_r, h0] at hf
    rw [fopen_r_of_ne_nil fs a ha] at hf
    rw [bytes_of_eq fs a f hf, hc]
    rfl
  have hex := extract_entries env a l b hl hv (fun x hx => by have := hs x hx; omega) hna hcw
    fs [] footer junk2 hb
  unfold extract_files_from_archive
  rw [hlist]
  simp only [hf]
  rw [← hex]
  rfl

/-! ## Example inputs -/

theorem round_trip_aux (env : Env) (fs : FS) (archive_name : Path) (names : List Path)
    (fuel : Nat) (junk1 junk2 : Bytes) (fs' : FS) (hv : ∀ n ∈ names, valid_name n)
    (hnd : names.Nodup)
    (hna : archive_name ∉ names) (hsz : ∀ n ∈ names, (bytes_of fs n).length < 2147483648)
    (hok : (create_archive env fs archive_name names).1 = 0)
    (htot : (bytes_of (create_archive env fs archive_name names).2 archive_name).length
      < 2147483648 + 1024)
    (hfuel : names.length < fuel)
    (hcw : ∀ n ∈ names, env.writable n = true)
    (harch : fs' archive_name = (create_archive env fs archive_name names).2 archive_name) :
    ∃ fs2, extract_files_from_archive fuel junk1 junk2 env fs' archive_name = some (0, fs2) ∧
      ∀ n ∈ names, ∃ f0 f2, fs n = some f0 ∧ fs2 n = some f2 ∧ f2.content = f0.content := by
  obtain ⟨ha, hw, hfs⟩ := create_archive_ok env fs archive_name names hok
  have hb := create_archive_bytes env fs archive_name names hok
  rw [hb, List.length_append, footer_length] at htot
  obtain ⟨hl, hlv, hls, hnames⟩ := written_entries env (set_content env fs archive_name []) true
    names hw hv (fun n hn => bytes_of_truncated_lt env fs archive_name n _ (hsz n hn))
  obtain ⟨f, hf, hfc⟩ := fopen_r_set_content env (set_content env fs archive_name [])
    archive_name ((write_entries env (set_content env fs archive_name []) true names).2 ++ footer)
    ha
  have hlna : ∀ x ∈ names.map (fun n => (n, bytes_of (set_content env fs archive_name []) n)),
      x.1 ≠ archive_name := by
    intro x hx h0
    obtain ⟨n, hn, rfl⟩ := List.mem_map.1 hx
    exact hna (h0 ▸ hn)
  have hlcw : ∀ x ∈ names.map (fun n => (n, bytes_of (set_content env fs archive_name []) n)),
      env.writable x.1 = true := by
    intro x hx
    obtain ⟨n, hn, rfl⟩ := List.mem_map.1 hx
    exact hcw n hn
  have hf' : fopen_r fs' archive_name = some f := by
    have hfr := hf
    rw [fopen_r_of_ne_nil _ archive_name ha] at hfr
    rw [fopen_r_of_ne_nil fs' archive_name ha, harch, hfs]
    exact hfr
  have hex := extract_of_entries fuel junk1 junk2 env fs' archive_name f _ _ hf' hfc hl hlv hls
    hlna hlcw (by omega) (by simpa using hfuel)
  refine ⟨_, hex, ?_⟩
  intro n hn
  have hmem : (n, bytes_of (set_content env fs archive_name []) n)
      ∈ names.map (fun n => (n, bytes_of (set_content env fs archive_name []) n)) :=
    List.mem_map.2 ⟨n, hn, rfl⟩
  obtain ⟨hby, f2, hf2⟩ := extracted_nodup env _ fs'
    (by rw [hnames]; exact hnd) _ hmem
  have hne : n ≠ archive_name := fun h0 => hna (h0 ▸ hn)
  obtain ⟨f0, _, _, _, hf0, _⟩ := write_entry_true env _ true n
    ((write_entries_zero_iff env _ true names).1 hw n hn)
  rw [set_content_other env fs archive_name n [] hne] at hf0
  refine ⟨f0, f2, hf0, hf2, ?_⟩
  simp only [] at hby hf2
  rw [bytes_of_eq _ n f2 hf2, bytes_of_set_content_other env fs archive_name n [] hne,
    bytes_of_eq fs n f0 hf0] at hby
  exact hby

theorem extract_alias (env : Env) (a : Path) (fs : FS) (pos : Nat) (size : Bytes)
    (ha : a ≠ []) (hcw : env.writable a = true) :
    bytes_of (extract_loop env a [a] fs pos size).2 a = [] := by
  have hrd : ∀ (p k : Nat) (buf : Bytes), fread [] p buf k = (buf, 0) := by
    intro p k buf
    simp [fread]
  rw [extract_loop]
  simp only [fopen_w, ha, hcw, if_false, if_true, set_content_same, hrd]
  cases hsc : sscanf_o size with
  | none => simp only [set_content_same]
  | some v =>
    simp only []
    split
    · simp only [set_content_same]
    · simp only [extract_loop, List.take_zero, set_content_same]

theorem extract_alias_all (fuel : Nat) (junk1 junk2 : Bytes) (env : Env) (fs : FS) (a : Path)
    (f : File) (hlist : get_archive_file_list fuel junk1 fs a [] = some (0, [a]))
    (hf : fopen_r fs a = some f) (hcw : env.writable a = true) :
    ∃ r, extract_files_from_archive fuel junk1 junk2 env fs a = some r ∧ bytes_of r.2 a = [] := by
  have ha : a ≠ [] := by
    intro h0
    simp [fopen_r, h0] at hf
  refine ⟨extract_loop env a [a] fs 0 junk2, ?_, extract_alias env a fs 0 junk2 ha hcw⟩
  unfold extract_files_from_archive
  rw [hlist]
  simp only [hf]
  rfl

/-- C1, counterexample. With the single file `a` holding `hello`, `create_archive`
on the archive `a` with the name list `[a]` succeeds, and the extract pass on
the result, whatever the two `size` arrays hold at first, returns with the file
`a` empty, not holding `hello`. -/
theorem round_trip_counterexample :
    ([[97]] : List Path).Nodup ∧ (∀ n ∈ ([[97]] : List Path), valid_name n) ∧
    (∀ n ∈ ([[97]] : List Path), ∃ f, ex_fs_a n = some f ∧ f.content = hello ∧
      f.content.length < 2147483648) ∧
    (create_archive ex_env ex_fs_a [97] [[97]]).1 = 0 ∧
    ∀ junk1 junk2 : Bytes, ∃ r, extract_files_from_archive 2 junk1 junk2 ex_env
        (create_archive ex_env ex_fs_a [97] [[97]]).2 [97] = some r ∧
      bytes_of r.2 [97] = [] ∧ bytes_of r.2 [97] ≠ hello := by
  refine ⟨by decide, by decide, by decide, by decide, ?_⟩
  intro junk1 junk2
  have hlist := list_after_create_aux ex_env ex_fs_a [97] [[97]] 2 junk1 (by decide) (by decide)
    (by decide) (by decide!) (by decide)
  have hopen : ∃ f, fopen_r (create_archive ex_env ex_fs_a [97] [[97]]).2 [97] = some f :=
    ⟨_, rfl⟩
  obtain ⟨f, hf⟩ := hopen
  obtain ⟨r, hr, hb⟩ := extract_alias_all 2 junk1 junk2 ex_env _ [97] f hlist hf (by decide)
  refine ⟨r, hr, hb, ?_⟩
  rw [hb]
  decide

/-- C1 (amended). Round trip: for every list of distinct names (each a non-empty
C string shorter than 100 bytes) of files whose sizes are below 2^31, none of
them the archive itself, when `create_archive` succeeds and the entries it wrote
total less than 2^31 bytes (the archive is shorter than 2^31 + 1024 bytes),
`extract_files_from_archive` on the resulting archive, run in any directory `fs'`
that holds the archive as `create_archive` left it (a clean directory, or one
where the files were changed or removed) and where a file can be created under
every name, returns 0, given fuel above the number of names, and leaves under
every name a file whose bytes equal the bytes the original file had when the
archive was created. -/
theorem round_trip (env : Env) (fs : FS) (archive_name : Path) (names : List Path)
    (fuel : Nat) (junk1 junk2 : Bytes) (fs' : FS) (hv : ∀ n ∈ names, valid_name n)
    (hnd : names.Nodup)
    (hna : archive_name ∉ names) (hsz : ∀ n ∈ names, (bytes_of fs n).length < 2147483648)
    (hok : (create_archive env fs archive_name names).1 = 0)
    (htot : (bytes_of (create_archive env fs archive_name names).2 archive_name).length
      < 2147483648 + 1024)
    (hfuel : names.length < fuel)
    (hcw : ∀ n ∈ names, env.writable n = true)
    (harch : fs' archive_name = (create_archive env fs archive_name names).2 archive_name) :
    ∃ fs2, extract_files_from_archive fuel junk1 junk2 env fs' archive_name = some (0, fs2) ∧
      ∀ n ∈ names, ∃ f0 f2, fs n = some f0 ∧ fs2 n = some f2 ∧ f2.content = f0.content :=
  round_trip_aux env fs archive_name names fuel junk1 junk2 fs' hv hnd hna hsz hok htot hfuel
    hcw harch

/-- C1, witness: the file `f` (`hello`) and the empty file `g` archived in `a`,
and extracted in a directory that holds nothing but the archive. -/
theorem round_trip_witness :
    ex_fs_only (create_archive ex_env ex_fs [97] [[102], [103]]).2 [102] = none ∧
    ex_fs_only (create_archive ex_env ex_fs [97] [[102], [103]]).2 [103] = none ∧
    ∃ fs2, extract_files_from_archive 3 [] [] ex_env
        (ex_fs_only (create_archive ex_env ex_fs [97] [[102], [103]]).2) [97] = some (0, fs2) ∧
      ∀ n ∈ ([[102], [103]] : List Path),
        ∃ f0 f2, ex_fs n = some f0 ∧ fs2 n = some f2 ∧ f2.content = f0.content :=
  ⟨by decide, by decide,
    round_trip ex_env ex_fs [97] [[102], [103]] 3 [] []
      (ex_fs_only (create_archive ex_env ex_fs [97] [[102], [103]]).2) (by decide) (by decide)
      (by decide) (by decide) (by decide) (by decide!) (by decide) (by decide) rfl⟩

/-- C2 (amended). Order preservation: for every list of names (duplicates
allowed; each a non-empty C string shorter than 100 bytes, naming a file of size
below 2^31, none of them the archive itself), when `create_archive` succeeds and
the entries it wrote total less than 2^31 bytes (the archive is shorter than
2^31 + 1024 bytes), `get_archive_file_list` on the archive returns 0 and exactly
the names, in order, for every amount of fuel above the number of names. -/
theorem list_after_create (env : Env) (fs : FS) (archive_name : Path) (names : List Path)
    (fuel : Nat) (junk : Bytes) (hv : ∀ n ∈ names, valid_name n)
    (_hna : archive_name ∉ names)
    (hsz : ∀ n ∈ names, (bytes_of fs n).length < 2147483648)
    (hok : (create_archive env fs archive_name names).1 = 0)
    (htot : (bytes_of (create_archive env fs archive_name names).2 archive_name).length
      < 2147483648 + 1024)
    (hfuel : names.length < fuel) :
    get_archive_file_list fuel junk (create_archive env fs archive_name names).2 archive_name []
      = some (0, names) :=
  list_after_create_aux env fs archive_name names fuel junk hv hsz hok htot hfuel

/-- C2, witness: the name list `[f, g, f]`, with a duplicate. -/
theorem list_after_create_witness :
    get_archive_file_list 4 [] (create_archive ex_env ex_fs [97] [[102], [103], [102]]).2 [97] []
      = some (0, [[102], [103], [102]]) :=
  list_after_create ex_env ex_fs [97] [[102], [103], [102]] 4 [] (by decide) (by decide)
    (by decide) (by decide) (by decide!) (by decide)

/-! ## The list pass beyond 2^31 bytes -/

theorem list_loop_length (content : Bytes) : ∀ (fuel : Nat) (fnm size : Bytes) (off : Int)
    (pos : Nat) (files fl : file_list_t),
    list_loop content fuel fnm size off pos files = some (0, fl) → files.length ≤ fl.length
  | 0, _, _, _, _, _, _, h => by simp [list_loop] at h
  | fuel + 1, fnm, size, off, pos, files, fl, h => by
    rw [list_loop] at h
    split at h
    · simp only [Option.some.injEq, Prod.mk.injEq, true_and] at h
      rw [h]
    · simp only [] at h
      split at h
      · simp at h
      · have := list_loop_length content fuel _ _ _ _ _ fl h
        simp only [file_list_add, List.length_append, List.length_singleton] at this
        omega

theorem list_loop_grows (content : Bytes) (fuel : Nat) (fnm size : Bytes) (off : Int)
    (pos : Nat) (files fl : file_list_t) (hz : allZeros fnm 100 = false)
    (h : list_loop content fuel fnm size off pos files = some (0, fl)) :
    files.length < fl.length := by
  cases fuel with
  | zero => simp [list_loop] at h
  | succ fuel =>
    rw [list_loop] at h
    simp only [hz, Bool.false_eq_true, if_false] at h
    split at h
    · simp at h
    · have := list_loop_length content fuel _ _ _ _ _ fl h
      simp only [file_list_add, List.length_append, List.length_singleton] at this
      omega

/-- When the second of two complete entries ends at or beyond 2^31 bytes, the
list pass does not return the two names. -/
theorem list_overflow (e1 e2 post : Bytes) (n1 n2 : Path) (d1 d2 : Bytes)
    (h1 : IsEntry n1 d1 e1) (h2 : IsEntry n2 d2 e2) (hn1 : valid_name n1) (hn2 : valid_name n2)
    (hd1 : d1.length + 511 < 2147483648) (hd2 : d2.length + 511 < 2147483648)
    (hl1 : e1.length < 2147483648) (hl2 : 2147483648 ≤ e1.length + e2.length)
    (hl3 : e1.length + e2.length < 4294967296) (fuel : Nat) (junk : Bytes) :
    scan_from (e1 ++ e2 ++ post) fuel (zeros 100) junk 0 [] ≠ some (0, [n1, n2]) := by
  intro h
  have hel2 := isEntry_length n2 d2 e2 h2 (by have := hn2.2.1; omega)
  have hnl2 := name_field_length n2 (by have := hn2.2.1; omega)
  cases fuel with
  | zero => simp [scan_from, list_loop] at h
  | succ k =>
    have s1 := scan_step (e1 ++ e2 ++ post) [] e1 (e2 ++ post) n1 d1
      (by simp only [List.nil_append, List.append_assoc]) h1 hn1 hd1
      (by simpa using hl1) (zeros 100) junk (by simp [zeros]) [] k
    simp only [List.length_nil, Nat.zero_add, List.nil_append] at s1
    rw [s1] at h
    have hrd : fread (e1 ++ e2 ++ post) e1.length (name_field n1) 100 = (name_field n2, 100) := by
      obtain ⟨g1, g2, hg1, hg2, _, rfl⟩ := h2
      apply fread_full_shape _ e1 (name_field n2)
        (g1 ++ size_field d2.length ++ g2 ++ d2 ++ zeros (pad_len d2.length) ++ post)
      · simp only [List.append_assoc]
      · rfl
      · rw [hnl2]
      · rw [name_field_length n1 (by have := hn1.2.1; omega)]
    unfold scan_from at h
    rw [hrd] at h
    simp only [] at h
    cases k with
    | zero => simp [list_loop] at h
    | succ k =>
      have s2 := list_loop_step (e1 ++ e2 ++ post) e1 e2 post n2 d2 rfl h2 hn2 hd2
        (size_field d1.length ++ junk.drop 12) (e1.length : Int) [n1] k
      rw [s2] at h
      have hoff : i32 ((e1.length : Int) + i32 ((entry_len d2.length : Nat) : Int)) < 0 := by
        rw [← hel2]
        have : e2.length ≤ 2147483648 + 512 := by
          rw [hel2]; unfold entry_len; omega
        unfold i32
        omega
      have hset : fseek_set (e1.length + 136)
          (i32 ((e1.length : Int) + i32 ((entry_len d2.length : Nat) : Int)))
          = e1.length + 136 := by
        unfold fseek_set
        rw [if_neg (by omega)]
      rw [hset] at h
      obtain ⟨g1, g2, hg1, hg2, ⟨c, g, hg, hc0⟩, he2⟩ := h2
      have hrd2 : fread (e1 ++ e2 ++ post) (e1.length + 136) (name_field n2) 100
          = (g2.take 100, 100) := by
        apply fread_full_shape _ (e1 ++ name_field n2 ++ g1 ++ size_field d2.length)
          (g2.take 100) (g2.drop 100 ++ d2 ++ zeros (pad_len d2.length) ++ post)
        · rw [he2]
          conv_lhs => rw [← List.take_append_drop 100 g2]
          simp only [List.append_assoc]
        · simp only [List.length_append, hnl2, hg1, size_field_length]
        · rw [List.length_take, hg2]
          rfl
        · rw [hnl2]
      rw [hrd2] at h
      simp only [] at h
      have hz : allZeros (g2.take 100) 100 = false := by
        rw [hg]
        unfold allZeros
        simp [List.take, hc0]
      have := list_loop_grows _ _ _ _ _ _ _ _ hz h
      simp at this

theorem create_archive_success (env : Env) (fs : FS) (a : Path) (names : List Path)
    (ha : a ≠ []) (hcw : env.writable a = true)
    (h : ∀ n ∈ names, (write_entry env (set_content env fs a []) true n).1 = true) :
    (create_archive env fs a names).1 = 0 := by
  have hw := (write_entries_zero_iff env (set_content env fs a []) true names).2 h
  simp only [create_archive, fopen_w, ha, hcw, if_false, hw, if_true]

theorem big_length : big.length = 1073741824 := by
  unfold big
  rw [List.length_replicate]

theorem ex_fs_one_entry (d : Bytes) (hd : d.length = 1073741824) :
    write_entry ex_env (set_content ex_env (ex_fs_one d) [97] []) true [102]
      = (true, entry_bytes ex_env [102] { st := ex_stat, content := d } [117] [103]) := by
  apply write_entry_ok
  · decide
  · rw [set_content_other ex_env (ex_fs_one d) [97] [102] [] (by decide)]
    rfl
  · rfl
  · rfl
  · show d.length + 511 < 2147483648
    omega

theorem list_after_create_one (d : Bytes) (hd : d.length = 1073741824) :
    (∀ n ∈ ([[102], [102]] : List Path), valid_name n) ∧
    (∀ n ∈ ([[102], [102]] : List Path), (bytes_of (ex_fs_one d) n).length = 1073741824) ∧
    (create_archive ex_env (ex_fs_one d) [97] [[102], [102]]).1 = 0 ∧
    ∀ (fuel : Nat) (junk : Bytes),
      get_archive_file_list fuel junk
        (create_archive ex_env (ex_fs_one d) [97] [[102], [102]]).2 [97] []
        ≠ some (0, [[102], [102]]) := by
  have hsucc : (create_archive ex_env (ex_fs_one d) [97] [[102], [102]]).1 = 0 := by
    apply create_archive_success _ _ _ _ (by decide) (by decide)
    intro n hn
    have hn' : n = [102] := by simpa using hn
    rw [hn', ex_fs_one_entry d hd]
  refine ⟨by decide, ?_, hsucc, ?_⟩
  · intro n hn
    have hn' : n = [102] := by simpa using hn
    rw [hn']
    exact hd
  intro fuel junk
  obtain ⟨ha, hw, hfs⟩ := create_archive_ok ex_env (ex_fs_one d) [97] [[102], [102]] hsucc
  have hie : IsEntry [102] d (entry_bytes ex_env [102] { st := ex_stat, content := d }
      [117] [103]) :=
    entry_bytes_isEntry ex_env [102] { st := ex_stat, content := d } [117] [103] (by decide)
      (by show d.length < 4294967296; omega)
  have hlen := isEntry_length _ _ _ hie (by decide)
  rw [hd] at hlen
  have hel : entry_len 1073741824 = 1073742336 := by decide
  rw [hel] at hlen
  have hb : (write_entries ex_env (set_content ex_env (ex_fs_one d) [97] []) true
      [[102], [102]]).2
      = entry_bytes ex_env [102] { st := ex_stat, content := d } [117] [103]
        ++ entry_bytes ex_env [102] { st := ex_stat, content := d } [117] [103] := by
    rw [write_entries_cons, write_entries_cons, ex_fs_one_entry d hd]
    simp [write_entries]
  obtain ⟨f, hf, hfc⟩ := fopen_r_set_content ex_env (set_content ex_env (ex_fs_one d) [97] [])
    [97] ((write_entries ex_env (set_content ex_env (ex_fs_one d) [97] []) true
      [[102], [102]]).2 ++ footer) ha
  rw [hfs, get_archive_file_list_eq_scan fuel junk _ [97] [] f hf, hfc, hb]
  exact list_overflow _ _ footer [102] [102] d d hie hie (by decide) (by decide)
    (by omega) (by omega) (by omega) (by omega) (by omega) fuel junk

/-- C2, counterexample. The one-GiB file `f` listed twice: `create_archive`
succeeds (the archive has 2^31 + 2048 bytes), and `get_archive_file_list` on the
archive returns the two names for no amount of fuel and no first content of the
array `size`: after the second entry `offset` exceeds the range of `int`. -/
theorem list_after_create_counterexample :
    (∀ n ∈ ([[102], [102]] : List Path), valid_name n) ∧
    (∀ n ∈ ([[102], [102]] : List Path), (bytes_of (ex_fs_one big) n).length = 1073741824) ∧
    (create_archive ex_env (ex_fs_one big) [97] [[102], [102]]).1 = 0 ∧
    ∀ (fuel : Nat) (junk : Bytes),
      get_archive_file_list fuel junk
        (create_archive ex_env (ex_fs_one big) [97] [[102], [102]]).2 [97] []
        ≠ some (0, [[102], [102]]) :=
  list_after_create_one big big_length

/-! ## `append_files_to_archive`: facts -/

theorem remove_trailing_bytes_eq (env : Env) (fs : FS) (a : Path) (f : File)
    (hf : fopen_r fs a = some f) :
    remove_trailing_bytes env fs a 1024 = (0, set_content env fs a (strip_footer f.content)) := by
  have ha : a ≠ [] := by
    intro h0
    simp [fopen_r, h0] at hf
  rw [fopen_r_of_ne_nil fs a ha] at hf
  unfold remove_trailing_bytes
  rw [stat_of_ne_nil fs a ha, hf]
  rfl

theorem append_eq (env : Env) (fs : FS) (a : Path) (files : List Path) (f : File)
    (hf : fopen_r fs a = some f) :
    append_files_to_archive env fs a files
      = if (write_entries env (set_content env fs a (strip_footer f.content)) false files).1 = 0
        then (0, set_content env (set_content env fs a (strip_footer f.content)) a
          (strip_footer f.content
            ++ (write_entries env (set_content env fs a (strip_footer f.content)) false files).2
            ++ footer))
        else (-1, set_content env (set_content env fs a (strip_footer f.content)) a
          (strip_footer f.content
            ++ (write_entries env (set_content env fs a (strip_footer f.content)) false
                files).2)) := by
  have ha : a ≠ [] := by
    intro h0
    simp [fopen_r, h0] at hf
  obtain ⟨g, hg, hgc⟩ := fopen_r_set_content env fs a (strip_footer f.content) ha
  unfold append_files_to_archive
  rw [hf]
  simp only [remove_trailing_bytes_eq env fs a f hf, hg, hgc]
  rfl

theorem append_ok (env : Env) (fs : FS) (a : Path) (files : List Path)
    (h : (append_files_to_archive env fs a files).1 = 0) :
    ∃ f, fopen_r fs a = some f ∧
      (write_entries env (set_content env fs a (strip_footer f.content)) false files).1 = 0 ∧
      (append_files_to_archive env fs a files).2
        = set_content env (set_content env fs a (strip_footer f.content)) a
          (strip_footer f.content
            ++ (write_entries env (set_content env fs a (strip_footer f.content)) false files).2
            ++ footer) := by
  cases hf : fopen_r fs a with
  | none =>
    simp [append_files_to_archive, hf] at h
  | some f =>
    refine ⟨f, rfl, ?_⟩
    rw [append_eq env fs a files f hf] at h ⊢
    by_cases hw : (write_entries env (set_content env fs a (strip_footer f.content)) false
        files).1 = 0
    · rw [if_pos hw]
      exact ⟨hw, rfl⟩
    · rw [if_neg hw] at h
      have h1 : (-1 : Int) = 0 := h
      exact absurd h1 (by decide)

theorem strip_footer_append (b : Bytes) : strip_footer (b ++ footer) = b := by
  unfold strip_footer
  rw [List.length_append, footer_length]
  have h1 : ¬ (1024 > b.length + 1024) := by omega
  rw [if_neg h1]
  have h2 : b.length + 1024 - 1024 = b.length := by omega
  rw [h2, List.take_left]

theorem isEntries_append : ∀ (l1 l2 : List (Path × Bytes)) (b1 b2 : Bytes),
    IsEntries l1 b1 → IsEntries l2 b2 → IsEntries (l1 ++ l2) (b1 ++ b2)
  | [], l2, b1, b2, h1, h2 => by
    simp only [IsEntries] at h1
    subst h1
    simpa using h2
  | (n, d) :: r, l2, b1, b2, h1, h2 => by
    obtain ⟨e, b', he, hr, rfl⟩ := h1
    exact ⟨e, b' ++ b2, he, isEntries_append r l2 b' b2 hr h2, by simp only [List.append_assoc]⟩

/-- After a successful `create_archive` the archive holds complete entries of the
names, followed by the footer. -/
theorem created_archive (env : Env) (fs : FS) (a : Path) (names : List Path)
    (hv : ∀ n ∈ names, valid_name n)
    (hsz : ∀ n ∈ names, (bytes_of fs n).length < 2147483648)
    (hok : (create_archive env fs a names).1 = 0) :
    ∃ (f : File) (l : List (Path × Bytes)) (b : Bytes),
      fopen_r (create_archive env fs a names).2 a = some f ∧ f.content = b ++ footer ∧
      IsEntries l b ∧ (∀ x ∈ l, valid_name x.1) ∧ (∀ x ∈ l, x.2.length + 511 < 2147483648) ∧
      l.map Prod.fst = names ∧
      l = names.map (fun n => (n, bytes_of (set_content env fs a []) n)) := by
  obtain ⟨ha, hw, hfs⟩ := create_archive_ok env fs a names hok
  obtain ⟨hl, hlv, hls, hnames⟩ := written_entries env (set_content env fs a []) true
    names hw hv (fun n hn => bytes_of_truncated_lt env fs a n _ (hsz n hn))
  obtain ⟨f, hf, hfc⟩ := fopen_r_set_content env (set_content env fs a [])
    a ((write_entries env (set_content env fs a []) true names).2 ++ footer) ha
  rw [hfs]
  exact ⟨f, _, _, hf, hfc, hl, hlv, hls, hnames, rfl⟩

/-- After a successful `append_files_to_archive` on an archive that holds
complete entries and the footer, the archive holds those entries, then complete
entries of the names, then the footer. -/
theorem appended_archive (env : Env) (fs : FS) (a : Path) (names : List Path) (f : File)
    (l : List (Path × Bytes)) (b : Bytes) (hf : fopen_r fs a = some f)
    (hc : f.content = b ++ footer) (hl : IsEntries l b) (hv : ∀ n ∈ names, valid_name n)
    (hna : a ∉ names) (hsz : ∀ n ∈ names, (bytes_of fs n).length < 2147483648)
    (hok : (append_files_to_archive env fs a names).1 = 0) :
    ∃ (f2 : File) (l2 : List (Path × Bytes)) (b2 : Bytes),
      fopen_r (append_files_to_archive env fs a names).2 a = some f2 ∧
      f2.content = (b ++ b2) ++ footer ∧ IsEntries (l ++ l2) (b ++ b2) ∧
      (∀ x ∈ l2, valid_name x.1) ∧ (∀ x ∈ l2, x.2.length + 511 < 2147483648) ∧
      l2 = names.map (fun n => (n, bytes_of fs n)) := by
  have ha : a ≠ [] := by
    intro h0
    simp [fopen_r, h0] at hf
  obtain ⟨f', hf', hw, hfs⟩ := append_ok env fs a names hok
  rw [hf] at hf'
  have hff : f = f' := Option.some.inj hf'
  subst hff
  rw [hc, strip_footer_append] at hw hfs
  have hsame : ∀ n ∈ names, bytes_of (set_content env fs a b) n = bytes_of fs n := by
    intro n hn
    exact bytes_of_set_content_other env fs a n b (fun h0 => hna (h0 ▸ hn))
  obtain ⟨hl2, hlv2, hls2, _⟩ := written_entries env (set_content env fs a b) false
    names hw hv (fun n hn => by rw [hsame n hn]; exact hsz n hn)
  have hmap : names.map (fun n => (n, bytes_of (set_content env fs a b) n))
      = names.map (fun n => (n, bytes_of fs n)) := by
    apply List.map_congr_left
    intro n hn
    rw [hsame n hn]
  rw [hmap] at hl2 hlv2 hls2
  obtain ⟨f2, hf2, hfc2⟩ := fopen_r_set_content env (set_content env fs a b) a
    (b ++ (write_entries env (set_content env fs a b) false names).2 ++ footer) ha
  rw [hfs]
  exact ⟨f2, _, _, hf2, hfc2, isEntries_append l _ b _ hl hl2, hlv2, hls2, rfl⟩

theorem list_after_append_aux (env : Env) (fs : FS) (archive_name : Path) (A B : List Path)
    (fuel : Nat) (junk : Bytes) (hvA : ∀ n ∈ A, valid_name n) (hvB : ∀ n ∈ B, valid_name n)
    (hnaB : archive_name ∉ B)
    (hszA : ∀ n ∈ A, (bytes_of fs n).length < 2147483648)
    (hszB : ∀ n ∈ B,
      (bytes_of (create_archive env fs archive_name A).2 n).length < 2147483648)
    (hokc : (create_archive env fs archive_name A).1 = 0)
    (hoka : (append_files_to_archive env (create_archive env fs archive_name A).2
      archive_name B).1 = 0)
    (htot : (bytes_of (append_files_to_archive env (create_archive env fs archive_name A).2
      archive_name B).2 archive_name).length < 2147483648 + 1024)
    (hfuel : A.length + B.length < fuel) :
    get_archive_file_list fuel junk
      (append_files_to_archive env (create_archive env fs archive_name A).2 archive_name B).2
      archive_name [] = some (0, A ++ B) := by
  obtain ⟨f, l, b, hf, hc, hl, hlv, hls, hnames, _⟩ :=
    created_archive env fs archive_name A hvA hszA hokc
  obtain ⟨f2, l2, b2, hf2, hc2, hl2, hlv2, hls2, hl2eq⟩ :=
    appended_archive env _ archive_name B f l b hf hc hl hvB hnaB hszB hoka
  have ha : archive_name ≠ [] := by
    intro h0
    simp [fopen_r, h0] at hf
  have hby : bytes_of (append_files_to_archive env (create_archive env fs archive_name A).2
      archive_name B).2 archive_name = f2.content := by
    rw [fopen_r_of_ne_nil _ _ ha] at hf2
    exact bytes_of_eq _ _ f2 hf2
  rw [hby, hc2, List.length_append, footer_length] at htot
  have hall_v : ∀ x ∈ l ++ l2, valid_name x.1 := by
    intro x hx
    rcases List.mem_append.1 hx with h | h
    · exact hlv x h
    · exact hlv2 x h
  have hall_s : ∀ x ∈ l ++ l2, x.2.length + 511 < 2147483648 := by
    intro x hx
    rcases List.mem_append.1 hx with h | h
    · exact hls x h
    · exact hls2 x h
  have hlen : (l ++ l2).length = A.length + B.length := by
    rw [List.length_append, ← hnames, hl2eq]
    simp
  have := list_of_entries fuel junk _ archive_name f2 (l ++ l2) (b ++ b2) hf2 hc2 hl2 hall_v hall_s
    (by omega) (by omega)
  rw [this, List.map_append, hnames, hl2eq]
  simp [List.map_map, Function.comp_def]

theorem append_success (env : Env) (fs : FS) (a : Path) (names : List Path) (f : File)
    (hf : fopen_r fs a = some f)
    (h : ∀ n ∈ names,
      (write_entry env (set_content env fs a (strip_footer f.content)) false n).1 = true) :
    (append_files_to_archive env fs a names).1 = 0 := by
  have hw := (write_entries_zero_iff env (set_content env fs a (strip_footer f.content)) false
    names).2 h
  rw [append_eq env fs a names f hf, if_pos hw]

theorem list_after_append_one (d : Bytes) (hd : d.length = 1073741824) :
    (∀ n ∈ ([[102]] : List Path), valid_name n) ∧
    (∀ n ∈ ([[102]] : List Path), (bytes_of (ex_fs_one d) n).length = 1073741824) ∧
    (create_archive ex_env (ex_fs_one d) [97] [[102]]).1 = 0 ∧
    (append_files_to_archive ex_env (create_archive ex_env (ex_fs_one d) [97] [[102]]).2 [97]
      [[102]]).1 = 0 ∧
    ∀ (fuel : Nat) (junk : Bytes),
      get_archive_file_list fuel junk
        (append_files_to_archive ex_env (create_archive ex_env (ex_fs_one d) [97] [[102]]).2
          [97] [[102]]).2 [97] []
        ≠ some (0, [[102]] ++ [[102]]) := by
  have hsucc : (create_archive ex_env (ex_fs_one d) [97] [[102]]).1 = 0 := by
    apply create_archive_success _ _ _ _ (by decide) (by decide)
    intro n hn
    have hn' : n = [102] := by simpa using hn
    rw [hn', ex_fs_one_entry d hd]
  obtain ⟨ha, hw, hfs⟩ := create_archive_ok ex_env (ex_fs_one d) [97] [[102]] hsucc
  have hie : IsEntry [102] d (entry_bytes ex_env [102] { st := ex_stat, content := d }
      [117] [103]) :=
    entry_bytes_isEntry ex_env [102] { st := ex_stat, content := d } [117] [103] (by decide)
      (by show d.length < 4294967296; omega)
  have hlen := isEntry_length _ _ _ hie (by decide)
  rw [hd] at hlen
  have hel : entry_len 1073741824 = 1073742336 := by decide
  rw [hel] at hlen
  have hb : (write_entries ex_env (set_content ex_env (ex_fs_one d) [97] []) true [[102]]).2
      = entry_bytes ex_env [102] { st := ex_stat, content := d } [117] [103] := by
    rw [write_entries_cons, ex_fs_one_entry d hd]
    simp [write_entries]
  rw [hb] at hfs
  obtain ⟨f, hf, hfc⟩ := fopen_r_set_content ex_env (set_content ex_env (ex_fs_one d) [97] [])
    [97] (entry_bytes ex_env [102] { st := ex_stat, content := d } [117] [103] ++ footer) ha
  rw [← hfs] at hf
  have hentry : write_entry ex_env
      (set_content ex_env (create_archive ex_env (ex_fs_one d) [97] [[102]]).2 [97]
        (strip_footer f.content)) false [102]
      = (true, entry_bytes ex_env [102] { st := ex_stat, content := d } [117] [103]) := by
    apply write_entry_ok
    · decide
    · rw [set_content_other _ _ [97] [102] _ (by decide), hfs,
        set_content_other _ _ [97] [102] _ (by decide),
        set_content_other _ _ [97] [102] _ (by decide)]
      rfl
    · rfl
    · rfl
    · show d.length + 511 < 2147483648
      omega
  have hsucc2 : (append_files_to_archive ex_env
      (create_archive ex_env (ex_fs_one d) [97] [[102]]).2 [97] [[102]]).1 = 0 := by
    apply append_success _ _ _ _ f hf
    intro n hn
    have hn' : n = [102] := by simpa using hn
    rw [hn', hentry]
  refine ⟨by decide, ?_, hsucc, hsucc2, ?_⟩
  · intro n hn
    have hn' : n = [102] := by simpa using hn
    rw [hn']
    exact hd
  intro fuel junk
  obtain ⟨f', hf', _, hfs2⟩ := append_ok ex_env _ [97] [[102]] hsucc2
  rw [hf] at hf'
  have hff : f = f' := Option.some.inj hf'
  subst hff
  have hb2 : (write_entries ex_env
      (set_content ex_env (create_archive ex_env (ex_fs_one d) [97] [[102]]).2 [97]
        (strip_footer f.content)) false [[102]]).2
      = entry_bytes ex_env [102] { st := ex_stat, content := d } [117] [103] := by
    rw [write_entries_cons, hentry]
    simp [write_entries]
  rw [hb2, hfc, strip_footer_append] at hfs2
  obtain ⟨f2, hf2, hfc2⟩ := fopen_r_set_content ex_env
    (set_content ex_env (create_archive ex_env (ex_fs_one d) [97] [[102]]).2 [97]
      (entry_bytes ex_env [102] { st := ex_stat, content := d } [117] [103])) [97]
    (entry_bytes ex_env [102] { st := ex_stat, content := d } [117] [103]
      ++ entry_bytes ex_env [102] { st := ex_stat, content := d } [117] [103] ++ footer) ha
  rw [hfs2, get_archive_file_list_eq_scan fuel junk _ [97] [] f2 hf2, hfc2]
  exact list_overflow _ _ footer [102] [102] d d hie hie (by decide) (by decide)
    (by omega) (by omega) (by omega) (by omega) (by omega) fuel junk

/-- C3, counterexample. The archive written by `create_archive` from the one-GiB
file `f`, to which `f` is appended once more: both calls succeed, and
`get_archive_file_list` on the result returns `[f, f]` for no amount of fuel and
no first content of the array `size`. -/
theorem list_after_append_counterexample :
    (∀ n ∈ ([[102]] : List Path), valid_name n) ∧
    (∀ n ∈ ([[102]] : List Path), (bytes_of (ex_fs_one big) n).length = 1073741824) ∧
    (create_archive ex_env (ex_fs_one big) [97] [[102]]).1 = 0 ∧
    (append_files_to_archive ex_env (create_archive ex_env (ex_fs_one big) [97] [[102]]).2 [97]
      [[102]]).1 = 0 ∧
    ∀ (fuel : Nat) (junk : Bytes),
      get_archive_file_list fuel junk
        (append_files_to_archive ex_env (create_archive ex_env (ex_fs_one big) [97] [[102]]).2
          [97] [[102]]).2 [97] []
        ≠ some (0, [[102]] ++ [[102]]) :=
  list_after_append_one big big_length

/-- C3 (amended). Append concatenates: for every archive written by a successful
`create_archive` from names `A` and every list `B` of names (all names non-empty
C strings shorter than 100 bytes, naming files of size below 2^31, none of them
the archive itself), after a successful `append_files_to_archive` with `B` that
leaves entries totalling less than 2^31 bytes (an archive shorter than
2^31 + 1024 bytes), `get_archive_file_list` returns 0 and exactly `A ++ B`, for
every amount of fuel above the number of names; a name of `B` that occurs in `A`
appears again. -/
theorem list_after_append (env : Env) (fs : FS) (archive_name : Path) (A B : List Path)
    (fuel : Nat) (junk : Bytes) (hvA : ∀ n ∈ A, valid_name n) (hvB : ∀ n ∈ B, valid_name n)
    (_hnaA : archive_name ∉ A) (hnaB : archive_name ∉ B)
    (hszA : ∀ n ∈ A, (bytes_of fs n).length < 2147483648)
    (hszB : ∀ n ∈ B,
      (bytes_of (create_archive env fs archive_name A).2 n).length < 2147483648)
    (hokc : (create_archive env fs archive_name A).1 = 0)
    (hoka : (append_files_to_archive env (create_archive env fs archive_name A).2
      archive_name B).1 = 0)
    (htot : (bytes_of (append_files_to_archive env (create_archive env fs archive_name A).2
      archive_name B).2 archive_name).length < 2147483648 + 1024)
    (hfuel : A.length + B.length < fuel) :
    get_archive_file_list fuel junk
      (append_files_to_archive env (create_archive env fs archive_name A).2 archive_name B).2
      archive_name [] = some (0, A ++ B) :=
  list_after_append_aux env fs archive_name A B fuel junk hvA hvB hnaB hszA hszB hokc hoka htot
    hfuel

/-- C3, witness: the archive of `[f, g]`, to which `[f]` is appended. -/
theorem list_after_append_witness :
    get_archive_file_list 4 []
      (append_files_to_archive ex_env (create_archive ex_env ex_fs [97] [[102], [103]]).2 [97]
        [[102]]).2 [97] [] = some (0, [[102], [103]] ++ [[102]]) :=
  list_after_append ex_env ex_fs [97] [[102], [103]] [[102]] 4 [] (by decide) (by decide)
    (by decide) (by decide) (by decide) (by decide!) (by decide) (by decide!) (by decide!)
    (by decide)

/-! ## Lengths -/

theorem header_length (env : Env) (n : Path) (f : File) (pw gr : Bytes) :
    (compute_checksum env (raw_header n f pw gr)).bytes.length = 512 := by
  rw [tar_header_bytes_split]
  have hc := compute_checksum_fields env (raw_header n f pw gr)
  have hl := raw_header_lengths n f pw gr
  have hname : (raw_header n f pw gr).name.length = 100 := by
    show (strncpy (zeros 100) n 100).length = 100
    rw [strncpy_length] <;> simp [zeros]
  have hsize : (raw_header n f pw gr).size.length = 12 := by
    show (snprintf (zeros 12) 12 (fmt_o 11 (u32 f.content.length))).length = 12
    rw [snprintf_length] <;> simp [zeros]
  simp only [List.length_append, hc.1, hc.2.1, hc.2.2.1, hname, hsize, hl.1, hl.2 env]

theorem adjust_size_mod (x : Int) :
    (i32 (x.tdiv BLOCK_SIZE * BLOCK_SIZE)).toNat % 512 = 0 := by
  generalize x.tdiv BLOCK_SIZE = q
  unfold i32 BLOCK_SIZE
  omega

theorem fread_take_length (content buf : Bytes) (pos cnt m : Nat) (h : buf.length = m) :
    ((fread content pos buf cnt).1.take m).length = m := by
  unfold fread
  simp only [List.length_take, List.length_append, List.length_drop, h]
  omega

theorem write_entry_length_mod (env : Env) (fs : FS) (rd : Bool) (n : Path)
    (h : (write_entry env fs rd n).1 = true) :
    512 ≤ (write_entry env fs rd n).2.length ∧ (write_entry env fs rd n).2.length % 512 = 0 := by
  unfold write_entry at h ⊢
  cases hh : fill_tar_header env fs n with
  | none => simp [hh] at h
  | some hd =>
    obtain ⟨f, pw, gr, _, _, _, rfl⟩ := fill_tar_header_some env fs n hd hh
    simp only [hh] at h ⊢
    cases hop : fopen_r fs n with
    | none => simp [hop] at h
    | some cf =>
      simp only [hop] at h ⊢
      by_cases h1 : get_size cf.content < 0
      · simp [h1] at h
      · simp only [h1, if_false] at h ⊢
        by_cases h2 : i32 ((i32 (i32 (get_size cf.content + BLOCK_SIZE) - 1)).tdiv BLOCK_SIZE
            * BLOCK_SIZE) < 0
        · simp [h2] at h
        · simp only [h2, if_false] at h ⊢
          have hm := adjust_size_mod (i32 (i32 (get_size cf.content + BLOCK_SIZE) - 1))
          rw [List.length_append, header_length, fread_take_length _ _ _ _ _ (zeros_length _)]
          omega

theorem write_entries_length_mod (env : Env) (fs : FS) (rd : Bool) : ∀ names : List Path,
    (write_entries env fs rd names).1 = 0 →
    512 * names.length ≤ (write_entries env fs rd names).2.length ∧
      (write_entries env fs rd names).2.length % 512 = 0
  | [], _ => by simp [write_entries]
  | n :: rest, h => by
    have hall := (write_entries_zero_iff env fs rd (n :: rest)).1 h
    have h1 := hall n (List.mem_cons_self _ _)
    have hrest : (write_entries env fs rd rest).1 = 0 :=
      (write_entries_zero_iff env fs rd rest).2 (fun m hm => hall m (List.mem_cons_of_mem _ hm))
    have ih := write_entries_length_mod env fs rd rest hrest
    have he := write_entry_length_mod env fs rd n h1
    rw [write_entries_cons, if_pos h1]
    simp only [List.length_append, List.length_cons]
    omega

theorem entry_bytes_length (env : Env) (n : Path) (f : File) (pw gr : Bytes) :
    (entry_bytes env n f pw gr).length = entry_len f.content.length := by
  unfold entry_bytes
  simp only [List.length_append, header_length, zeros_length]
  rw [← entry_len_eq]
  omega

theorem write_entries_length (env : Env) (fs : FS) (rd : Bool) : ∀ names : List Path,
    (write_entries env fs rd names).1 = 0 →
    (∀ n ∈ names, (bytes_of fs n).length + 511 < 2147483648) →
    (write_entries env fs rd names).2.length
      = (names.map (fun n => entry_len (bytes_of fs n).length)).sum
  | [], _, _ => by simp [write_entries]
  | n :: rest, h, hs => by
    have hall := (write_entries_zero_iff env fs rd (n :: rest)).1 h
    have h1 := hall n (List.mem_cons_self _ _)
    have hrest : (write_entries env fs rd rest).1 = 0 :=
      (write_entries_zero_iff env fs rd rest).2 (fun m hm => hall m (List.mem_cons_of_mem _ hm))
    have ih := write_entries_length env fs rd rest hrest
      (fun m hm => hs m (List.mem_cons_of_mem _ hm))
    obtain ⟨f, pw, gr, hne, hf, hpw, hgr, _⟩ := write_entry_true env fs rd n h1
    have hsn := hs n (List.mem_cons_self _ _)
    rw [bytes_of_eq fs n f hf] at hsn
    rw [write_entries_cons, if_pos h1]
    simp only [List.length_append, List.map_cons, List.sum_cons, ih]
    rw [write_entry_ok env fs rd n f pw gr hne hf hpw hgr hsn, entry_bytes_length,
      bytes_of_eq fs n f hf]

/-! ## Footer, alignment and length of the archive -/

theorem last_bytes_append (b z : Bytes) : last_bytes (b ++ z) z.length = z := by
  unfold last_bytes
  rw [List.length_append, Nat.add_sub_cancel, List.drop_left]

theorem created_bytes (env : Env) (fs : FS) (a : Path) (names : List Path)
    (h : (create_archive env fs a names).1 = 0) :
    ∃ b, bytes_of (create_archive env fs a names).2 a = b ++ footer ∧
      512 * names.length ≤ b.length ∧ b.length % 512 = 0 ∧
      b = (write_entries env (set_content env fs a []) true names).2 := by
  obtain ⟨_, hw, _⟩ := create_archive_ok env fs a names h
  have hm := write_entries_length_mod env _ true names hw
  exact ⟨_, create_archive_bytes env fs a names h, hm.1, hm.2, rfl⟩

theorem appended_bytes (env : Env) (fs : FS) (a : Path) (names : List Path)
    (h : (append_files_to_archive env fs a names).1 = 0) :
    ∃ b, bytes_of (append_files_to_archive env fs a names).2 a
        = strip_footer (bytes_of fs a) ++ b ++ footer ∧
      512 * names.length ≤ b.length ∧ b.length % 512 = 0 := by
  obtain ⟨f, hf, hw, hfs⟩ := append_ok env fs a names h
  have ha : a ≠ [] := by
    intro h0
    simp [fopen_r, h0] at hf
  rw [fopen_r_of_ne_nil fs a ha] at hf
  have hm := write_entries_length_mod env _ false names hw
  rw [hfs, set_content_same, bytes_of_eq fs a f hf]
  exact ⟨_, rfl, hm.1, hm.2⟩

theorem strip_footer_length (c : Bytes) :
    (strip_footer c).length = if 1024 > c.length then 0 else c.length - 1024 := by
  unfold strip_footer
  rw [List.length_take]
  split <;> omega

/-- C4. Footer invariant: after every successful `create_archive`, and after
every successful `append_files_to_archive` on any existing archive file, the
archive has at least 1024 bytes and its last 1024 bytes are all zero. -/
theorem footer_invariant (env : Env) (fs : FS) (archive_name : Path) (files : List Path) :
    ((create_archive env fs archive_name files).1 = 0 →
      1024 ≤ (bytes_of (create_archive env fs archive_name files).2 archive_name).length ∧
      last_bytes (bytes_of (create_archive env fs archive_name files).2 archive_name) 1024
        = List.replicate 1024 0) ∧
    ((append_files_to_archive env fs archive_name files).1 = 0 →
      1024 ≤ (bytes_of (append_files_to_archive env fs archive_name files).2
        archive_name).length ∧
      last_bytes (bytes_of (append_files_to_archive env fs archive_name files).2 archive_name)
        1024 = List.replicate 1024 0) := by
  have hfoot : footer = List.replicate 1024 0 := rfl
  constructor
  · intro h
    obtain ⟨b, hb, _⟩ := created_bytes env fs archive_name files h
    rw [hb]
    refine ⟨by rw [List.length_append, footer_length]; omega, ?_⟩
    have := last_bytes_append b footer
    rw [footer_length] at this
    rw [this, hfoot]
  · intro h
    obtain ⟨b, hb, _⟩ := appended_bytes env fs archive_name files h
    rw [hb]
    refine ⟨by rw [List.length_append, footer_length]; omega, ?_⟩
    have := last_bytes_append (strip_footer (bytes_of fs archive_name) ++ b) footer
    rw [footer_length] at this
    rw [this, hfoot]

/-- C4, witness: `create_archive` of `[f, g]`, and `append_files_to_archive` of
`[f]` to a file of 1025 bytes. -/
theorem footer_invariant_witness :
    (1024 ≤ (bytes_of (create_archive ex_env ex_fs [97] [[102], [103]]).2 [97]).length ∧
      last_bytes (bytes_of (create_archive ex_env ex_fs [97] [[102], [103]]).2 [97]) 1024
        = List.replicate 1024 0) ∧
    (1024 ≤ (bytes_of (append_files_to_archive ex_env ex_fs_odd [97] [[102]]).2 [97]).length ∧
      last_bytes (bytes_of (append_files_to_archive ex_env ex_fs_odd [97] [[102]]).2 [97]) 1024
        = List.replicate 1024 0) :=
  ⟨(footer_invariant ex_env ex_fs [97] [[102], [103]]).1 (by decide),
    (footer_invariant ex_env ex_fs_odd [97] [[102]]).2 (by decide)⟩

theorem alignment_aux (env : Env) (fs : FS) (archive_name : Path) (files : List Path) :
    ((create_archive env fs archive_name files).1 = 0 →
      (bytes_of (create_archive env fs archive_name files).2 archive_name).length % 512 = 0) ∧
    ((append_files_to_archive env fs archive_name files).1 = 0 →
      ((bytes_of fs archive_name).length % 512 = 0 ∨ (bytes_of fs archive_name).length < 1024) →
      (bytes_of (append_files_to_archive env fs archive_name files).2 archive_name).length % 512
        = 0) := by
  constructor
  · intro h
    obtain ⟨b, hb, _, hm, _⟩ := created_bytes env fs archive_name files h
    rw [hb, List.length_append, footer_length]
    omega
  · intro h hal
    obtain ⟨b, hb, _, hm⟩ := appended_bytes env fs archive_name files h
    have hs := strip_footer_length (bytes_of fs archive_name)
    rw [hb, List.length_append, List.length_append, footer_length, hs]
    split <;> omega

/-- C5 (amended). Block alignment: the length of the archive written by a
successful `create_archive` is a multiple of 512, and so is the length of the
archive after a successful `append_files_to_archive` on an existing archive file
whose length was a multiple of 512 or below 1024. -/
theorem alignment (env : Env) (fs : FS) (archive_name : Path) (files : List Path) :
    ((create_archive env fs archive_name files).1 = 0 →
      (bytes_of (create_archive env fs archive_name files).2 archive_name).length % 512 = 0) ∧
    ((append_files_to_archive env fs archive_name files).1 = 0 →
      ((bytes_of fs archive_name).length % 512 = 0 ∨ (bytes_of fs archive_name).length < 1024) →
      (bytes_of (append_files_to_archive env fs archive_name files).2 archive_name).length % 512
        = 0) :=
  alignment_aux env fs archive_name files

/-- C5, witness: `create_archive` of `[f, g]` (2560 bytes), and
`append_files_to_archive` of `[f]` to that archive (3584 bytes). -/
theorem alignment_witness :
    (bytes_of (create_archive ex_env ex_fs [97] [[102], [103]]).2 [97]).length % 512 = 0 ∧
    (bytes_of (append_files_to_archive ex_env
      (create_archive ex_env ex_fs [97] [[102], [103]]).2 [97] [[102]]).2 [97]).length % 512
        = 0 :=
  ⟨(alignment ex_env ex_fs [97] [[102], [103]]).1 (by decide),
    (alignment ex_env (create_archive ex_env ex_fs [97] [[102], [103]]).2 [97] [[102]]).2
      (by decide!) (Or.inl (by decide!))⟩

/-- C5, counterexample. `append_files_to_archive` of `[f]` to an existing file
of 1025 bytes succeeds and leaves an archive of 2049 bytes, not a multiple of
512. -/
theorem alignment_counterexample :
    (append_files_to_archive ex_env ex_fs_odd [97] [[102]]).1 = 0 ∧
    (bytes_of (append_files_to_archive ex_env ex_fs_odd [97] [[102]]).2 [97]).length = 2049 ∧
    ¬ ((bytes_of (append_files_to_archive ex_env ex_fs_odd [97] [[102]]).2 [97]).length % 512
      = 0) := by
  decide!

theorem archive_length_aux (env : Env) (fs : FS) (archive_name : Path) (files : List Path)
    (hna : archive_name ∉ files)
    (hsz : ∀ n ∈ files, (bytes_of fs n).length + 511 < 2147483648)
    (hok : (create_archive env fs archive_name files).1 = 0) :
    (bytes_of (create_archive env fs archive_name files).2 archive_name).length
      = 1024 + (files.map (fun n => 512 + 512 * (((bytes_of fs n).length + 511) / 512))).sum := by
  obtain ⟨_, hw, _⟩ := create_archive_ok env fs archive_name files hok
  have hsame : ∀ n ∈ files, bytes_of (set_content env fs archive_name []) n = bytes_of fs n := by
    intro n hn
    exact bytes_of_set_content_other env fs archive_name n [] (fun h0 => hna (h0 ▸ hn))
  have hl := write_entries_length env (set_content env fs archive_name []) true files hw
    (fun n hn => by rw [hsame n hn]; exact hsz n hn)
  have hmap : files.map (fun n => entry_len (bytes_of (set_content env fs archive_name []) n).length)
      = files.map (fun n => 512 + 512 * (((bytes_of fs n).length + 511) / 512)) := by
    apply List.map_congr_left
    intro n hn
    rw [hsame n hn]
    rfl
  rw [create_archive_bytes env fs archive_name files hok, List.length_append, footer_length, hl,
    hmap]
  omega

/-- C6 (amended). Archive length: for every list of files with sizes `s1..sk`
(each below 2^31 - 511), none of them the archive itself, the archive written by
a successful `create_archive` has length exactly
`1024 + sum over i of (512 + 512 * ceil(si / 512))` bytes. -/
theorem archive_length (env : Env) (fs : FS) (archive_name : Path) (files : List Path)
    (hna : archive_name ∉ files)
    (hsz : ∀ n ∈ files, (bytes_of fs n).length + 511 < 2147483648)
    (hok : (create_archive env fs archive_name files).1 = 0) :
    (bytes_of (create_archive env fs archive_name files).2 archive_name).length
      = 1024 + (files.map (fun n => 512 + 512 * (((bytes_of fs n).length + 511) / 512))).sum :=
  archive_length_aux env fs archive_name files hna hsz hok

/-- C6, witness: one 5-byte file gives exactly 2048 bytes. -/
theorem archive_length_witness :
    (bytes_of ex_fs [102]).length = 5 ∧
    (bytes_of (create_archive ex_env ex_fs [97] [[102]]).2 [97]).length = 2048 :=
  ⟨by decide, archive_length ex_env ex_fs [97] [[102]] (by decide) (by decide) (by decide)⟩

/-- C6, counterexample. With the single file `a` of 5 bytes, `create_archive` on
the archive `a` with the name list `[a]` succeeds and writes 1536 bytes, not the
`1024 + 512 + 512 * ceil(5 / 512) = 2048` of the formula. -/
theorem archive_length_counterexample :
    (∀ n ∈ ([[97]] : List Path), (bytes_of ex_fs_a n).length = 5) ∧
    (create_archive ex_env ex_fs_a [97] [[97]]).1 = 0 ∧
    (bytes_of (create_archive ex_env ex_fs_a [97] [[97]]).2 [97]).length = 1536 ∧
    (bytes_of (create_archive ex_env ex_fs_a [97] [[97]]).2 [97]).length
      ≠ 1024 + (([[97]] : List Path).map
          (fun n => 512 + 512 * (((bytes_of ex_fs_a n).length + 511) / 512))).sum := by
  decide!

/-! ## The checksum and the size field -/

/-- C7, at the failing input. For the file `é` on a platform where `char` is
signed, `fill_tar_header` stores the checksum text `0007410` (3848), while the
unsigned sum of the 512 header bytes, the checksum field counted as spaces, is
4360, whose 7-digit octal text is `0010410`: each of the two name bytes above 127
entered the sum as its value minus 256. -/
theorem checksum_signed_char :
    ex_env.char_signed = true ∧
    (fill_tar_header ex_env ex_fs_accent [195, 169]).map (fun h => (h.chksum, unsigned_sum h))
      = some ([48, 48, 48, 55, 52, 49, 48, 0], 4360) ∧
    fmt_o 7 4360 ++ [0] = [48, 48, 49, 48, 52, 49, 48, 0] ∧
    octVal [48, 48, 48, 55, 52, 49, 48] = 3848 := by
  decide!

theorem size_field_aux (env : Env) (fs : FS) (file_name : Path) (h : tar_header) (f : File)
    (hf : stat fs file_name = some f) (hh : fill_tar_header env fs file_name = some h) :
    ∃ ds, h.size = ds ++ [0] ∧ ds.length = 11 ∧ (∀ d ∈ ds, 48 ≤ d ∧ d ≤ 55) ∧
      octVal ds = f.content.length % 4294967296 ∧
      scan_int_size h.size = some (i32 (f.content.length : Int)) ∧
      (f.content.length < 2147483648 →
        scan_int_size h.size = some (f.content.length : Int)) := by
  obtain ⟨f', pw, gr, hf', _, _, rfl⟩ := fill_tar_header_some env fs file_name h hh
  rw [hf] at hf'
  have hff : f = f' := Option.some.inj hf'
  subst hff
  have hsz : (compute_checksum env (raw_header file_name f pw gr)).size
      = size_field (f.content.length % 4294967296) := by
    show snprintf (zeros 12) 12 (fmt_o 11 (u32 f.content.length)) = _
    rw [snprintf_size]
    have : u32 (f.content.length : Int) = f.content.length % 4294967296 := by
      unfold u32; omega
    rw [this]
  have hlt : f.content.length % 4294967296 < 8 ^ 11 := by
    have : f.content.length % 4294967296 < 4294967296 := Nat.mod_lt _ (by decide)
    have h8 : (8 : Nat) ^ 11 = 8589934592 := by decide
    omega
  have hscan : scan_int_size (compute_checksum env (raw_header file_name f pw gr)).size
      = some (i32 (f.content.length : Int)) := by
    unfold scan_int_size
    rw [hsz, sscanf_o_size_field _ hlt]
    have hi : i32 ((f.content.length % 4294967296 : Nat) : Int)
        = i32 (f.content.length : Int) := by
      unfold i32
      omega
    rw [Option.map_some', hi]
  refine ⟨fmt_o 11 (f.content.length % 4294967296), hsz, fmt_o_length_11 _,
    fun d hd => fmt_o_digit 11 _ d hd, fmt_o_val 11 _ hlt, hscan, ?_⟩
  intro hN
  rw [hscan, i32_id (by omega) (by omega)]

theorem size_field_big (d : Bytes) (hd : d.length = 2147483648) :
    (bytes_of (ex_fs_one d) [102]).length = 2147483648 ∧
    ∃ h, fill_tar_header ex_env (ex_fs_one d) [102] = some h ∧
      h.size = [50, 48, 48, 48, 48, 48, 48, 48, 48, 48, 48, 0] ∧
      sscanf_o h.size = some 2147483648 ∧
      scan_int_size h.size = some (-2147483648) := by
  have hst : stat (ex_fs_one d) [102] = some { st := ex_stat, content := d } := rfl
  have hh := fill_tar_header_eq ex_env (ex_fs_one d) [102] { st := ex_stat, content := d }
    [117] [103] hst rfl rfl
  have hsz : (compute_checksum ex_env
      (raw_header [102] { st := ex_stat, content := d } [117] [103])).size
      = [50, 48, 48, 48, 48, 48, 48, 48, 48, 48, 48, 0] := by
    show snprintf (zeros 12) 12 (fmt_o 11 (u32 (d.length : Int))) = _
    rw [hd]
    decide
  refine ⟨?_, _, hh, hsz, ?_, ?_⟩
  · have hb : bytes_of (ex_fs_one d) [102] = d := rfl
    rw [hb]
    exact hd
  · rw [hsz]
    decide
  · rw [hsz]
    decide

/-- C8 (amended). Size field fidelity: for every file, of length `N`,
`fill_tar_header` stores in the size field 11 octal digits whose value is
`N mod 2^32`, followed by a NUL; `sscanf` with `%o` into the `int` of the
scanning loops converts the field to `N` wrapped to 32 bits, which is exactly `N`
for `N` below 2^31. -/
theorem size_field_fidelity (env : Env) (fs : FS) (file_name : Path) (h : tar_header) (f : File)
    (hf : stat fs file_name = some f) (hh : fill_tar_header env fs file_name = some h) :
    ∃ ds, h.size = ds ++ [0] ∧ ds.length = 11 ∧ (∀ d ∈ ds, 48 ≤ d ∧ d ≤ 55) ∧
      octVal ds = f.content.length % 4294967296 ∧
      scan_int_size h.size = some (i32 (f.content.length : Int)) ∧
      (f.content.length < 2147483648 →
        scan_int_size h.size = some (f.content.length : Int)) :=
  size_field_aux env fs file_name h f hf hh

/-- C8, witness: the header of the file `f` of 5 bytes. -/
theorem size_field_fidelity_witness :
    ∃ ds, (compute_checksum ex_env (raw_header [102] { st := ex_stat, content := hello }
        [117] [103])).size = ds ++ [0] ∧ ds.length = 11 ∧
      (∀ d ∈ ds, 48 ≤ d ∧ d ≤ 55) ∧ octVal ds = hello.length % 4294967296 ∧
      scan_int_size (compute_checksum ex_env (raw_header [102]
        { st := ex_stat, content := hello } [117] [103])).size
        = some (i32 (hello.length : Int)) ∧
      (hello.length < 2147483648 →
        scan_int_size (compute_checksum ex_env (raw_header [102]
          { st := ex_stat, content := hello } [117] [103])).size
          = some (hello.length : Int)) :=
  size_field_fidelity ex_env ex_fs [102] _ { st := ex_stat, content := hello } (by decide)
    (by decide!)

theorem big2_length : big2.length = 2147483648 := by
  unfold big2
  rw [List.length_replicate]

/-- C8, counterexample. The file `f` holds 2^31 bytes, a length below 2^32.
`fill_tar_header` stores the size field `20000000000`, the octal digits of 2^31,
and `sscanf` with `%o` into `int int_size` leaves -2^31 in `int_size`, not the
length. -/
theorem size_field_fidelity_counterexample :
    (bytes_of (ex_fs_one big2) [102]).length = 2147483648 ∧
    ∃ h, fill_tar_header ex_env (ex_fs_one big2) [102] = some h ∧
      h.size = [50, 48, 48, 48, 48, 48, 48, 48, 48, 48, 48, 0] ∧
      sscanf_o h.size = some 2147483648 ∧
      scan_int_size h.size = some (-2147483648) :=
  size_field_big big2 big2_length

/-! ## The update operation -/

theorem update_gate_aux (fuel : Nat) (junk : Bytes) (env : Env) (fs : FS) (archive_name : Path)
    (names : List Path) (r : Int) (listed : file_list_t) (hne : names ≠ [])
    (hlist : get_archive_file_list fuel junk fs archive_name [] = some (r, listed))
    (hmiss : ∃ n ∈ names, n ∉ listed) :
    main_update fuel junk env fs archive_name names = some (1, fs) := by
  unfold main_update
  have he : names.isEmpty = false := by
    cases names with
    | nil => exact absurd rfl hne
    | cons a t => rfl
  rw [he, hlist]
  simp only [Bool.false_eq_true, if_false]
  by_cases hr : r = -1
  · rw [if_pos hr]
  · rw [if_neg hr]
    have hall : (names.all fun n => file_list_contains listed n) = false := by
      obtain ⟨n, hn, hnl⟩ := hmiss
      rw [List.all_eq_false]
      exact ⟨n, hn, by simp [file_list_contains, hnl]⟩
    rw [hall]
    simp

/-- C9. Update membership gate: for every archive and every non-empty list of
requested names, if `get_archive_file_list` returns for the archive and at least
one requested name is not among the names it returns, the update operation ends
with exit status 1 and leaves the archive, and every other file, unchanged. -/
theorem update_membership_gate (fuel : Nat) (junk : Bytes) (env : Env) (fs : FS)
    (archive_name : Path) (names : List Path) (r : Int) (listed : file_list_t)
    (hne : names ≠ [])
    (hlist : get_archive_file_list fuel junk fs archive_name [] = some (r, listed))
    (hmiss : ∃ n ∈ names, n ∉ listed) :
    main_update fuel junk env fs archive_name names = some (1, fs) :=
  update_gate_aux fuel junk env fs archive_name names r listed hne hlist hmiss


/-- C9, witness: the archive of `[f, g]` and the requested name `h`. -/
theorem update_membership_gate_witness :
    main_update 3 [] ex_env (create_archive ex_env ex_fs [97] [[102], [103]]).2 [97] [[104]]
      = some (1, (create_archive ex_env ex_fs [97] [[102], [103]]).2) :=
  update_membership_gate 3 [] ex_env (create_archive ex_env ex_fs [97] [[102], [103]]).2 [97]
    [[104]] 0 [[102], [103]] (by decide) (by decide!) ⟨[104], by decide, by decide⟩

theorem octRev_length_of_lt : ∀ (fuel k n : Nat), n < 8 ^ (k + 1) →
    (octRev fuel n).length ≤ k + 1
  | 0, _, _, _ => by simp [octRev]
  | fuel + 1, 0, n, h => by
    have h0 : n / 8 = 0 := by
      simp only [Nat.zero_add, pow_one] at h
      omega
    simp [octRev, h0]
  | fuel + 1, k + 1, n, h => by
    unfold octRev
    split
    · simp
    · have hk : n / 8 < 8 ^ (k + 1) := by
        rw [pow_succ] at h
        omega
      have := octRev_length_of_lt fuel k (n / 8) hk
      simp only [List.length_cons]
      omega

theorem fmt_o_length_7 (v : Nat) (h : v < 8 ^ 7) : (fmt_o 7 v).length = 7 := by
  have := octRev_length_of_lt 11 6 v h
  unfold fmt_o
  simp
  omega

theorem foldl_char_sum (signed : Bool) : ∀ (l : Bytes) (acc : Nat),
    (∀ b ∈ l, char_val signed b = (b : Int)) → acc + l.sum < 4294967296 →
    l.foldl (fun s b => u32 ((s : Int) + char_val signed b)) acc = acc + l.sum
  | [], acc, _, _ => by simp
  | b :: t, acc, hv, hs => by
    rw [List.sum_cons] at hs
    have hb := hv b (List.mem_cons_self _ _)
    have hstep : u32 ((acc : Int) + char_val signed b) = acc + b := by
      rw [hb]
      unfold u32
      omega
    rw [List.foldl_cons, hstep, foldl_char_sum signed t (acc + b)
      (fun c hc => hv c (List.mem_cons_of_mem _ hc)) (by omega), List.sum_cons]
    omega

theorem sum_le_of_bytes : ∀ (l : Bytes), (∀ b ∈ l, b < 256) → l.sum ≤ 255 * l.length
  | [], _ => by simp
  | b :: t, h => by
    have hb := h b (List.mem_cons_self _ _)
    have := sum_le_of_bytes t (fun c hc => h c (List.mem_cons_of_mem _ hc))
    simp only [List.sum_cons, List.length_cons]
    omega

theorem compute_checksum_unsigned (env : Env) (h : tar_header)
    (hlen : ({ h with chksum := List.replicate 8 32 } : tar_header).bytes.length = 512)
    (hb : ∀ b ∈ ({ h with chksum := List.replicate 8 32 } : tar_header).bytes,
      b < 256 ∧ char_val env.char_signed b = (b : Int)) :
    (compute_checksum env h).chksum = fmt_o 7 (unsigned_sum (compute_checksum env h)) ++ [0] ∧
    (fmt_o 7 (unsigned_sum (compute_checksum env h))).length = 7 ∧
    octVal (fmt_o 7 (unsigned_sum (compute_checksum env h)))
      = unsigned_sum (compute_checksum env h) := by
  have hsum_le := sum_le_of_bytes _ (fun b hm => (hb b hm).1)
  rw [hlen] at hsum_le
  have hus : unsigned_sum (compute_checksum env h)
      = ({ h with chksum := List.replicate 8 32 } : tar_header).bytes.sum := rfl
  have hfold := foldl_char_sum env.char_signed _ 0 (fun b hm => (hb b hm).2)
    (by rw [Nat.zero_add]; omega)
  rw [Nat.zero_add] at hfold
  have h7 : ({ h with chksum := List.replicate 8 32 } : tar_header).bytes.sum < 8 ^ 7 := by
    have : (8 : Nat) ^ 7 = 2097152 := by decide
    omega
  have hl7 := fmt_o_length_7 _ h7
  have h11 : ({ h with chksum := List.replicate 8 32 } : tar_header).bytes.sum < 8 ^ 11 := by
    have : (8 : Nat) ^ 11 = 8589934592 := by decide
    omega
  refine ⟨?_, by rw [hus]; exact hl7, by rw [hus]; exact fmt_o_val 7 _ h11⟩
  rw [hus]
  show snprintf (List.replicate 8 32) 8 (fmt_o 7 (List.foldl _ 0 _)) = _
  rw [hfold]
  unfold snprintf
  have ht : (fmt_o 7 ({ h with chksum := List.replicate 8 32 } : tar_header).bytes.sum).take
      (8 - 1) = fmt_o 7 ({ h with chksum := List.replicate 8 32 } : tar_header).bytes.sum := by
    apply List.take_of_length_le
    omega
  simp only [ht, hl7]
  rfl

theorem mem_strncpy_zeros (k m : Nat) (src : Bytes) (b : Nat)
    (h : b ∈ strncpy (zeros k) src m) : b ∈ src ∨ b = 0 := by
  unfold strncpy zeros at h
  simp only [List.mem_append] at h
  rcases h with (h | h) | h
  · exact Or.inl (List.mem_of_mem_take h)
  · exact Or.inr (List.eq_of_mem_replicate h)
  · exact Or.inr (List.eq_of_mem_replicate (List.mem_of_mem_drop h))

theorem mem_snprintf_zeros (k m w v : Nat) (b : Nat)
    (h : b ∈ snprintf (zeros k) m (fmt_o w v)) : (48 ≤ b ∧ b ≤ 55) ∨ b = 0 := by
  unfold snprintf zeros at h
  simp only [List.mem_append, List.mem_cons] at h
  rcases h with h | h | h
  · exact Or.inl (fmt_o_digit w v b (List.mem_of_mem_take h))
  · exact Or.inr h
  · exact Or.inr (List.eq_of_mem_replicate (List.mem_of_mem_drop h))

theorem char_val_ascii (signed : Bool) (b : Nat) (h : b < 128) :
    char_val signed b = (b : Int) := by
  unfold char_val
  have : ¬ (128 ≤ b) := by omega
  simp [this]

theorem raw_header_bytes_mem (n : Path) (f : File) (pw gr : Bytes) (b : Nat)
    (h : b ∈ ({ raw_header n f pw gr with chksum := List.replicate 8 32 } : tar_header).bytes) :
    b < 128 ∨ b ∈ n ∨ b ∈ pw ∨ b ∈ gr := by
  unfold tar_header.bytes raw_header at h
  simp only [List.mem_append, List.mem_singleton] at h
  have hs : ∀ k m w v, b ∈ snprintf (zeros k) m (fmt_o w v) → b < 128 := by
    intro k m w v hb
    rcases mem_snprintf_zeros k m w v b hb with h1 | h1 <;> omega
  have hz : ∀ k, b ∈ zeros k → b < 128 := by
    intro k hb
    have := List.eq_of_mem_replicate hb
    omega
  rcases h with (((((((((((((((h | h) | h) | h) | h) | h) | h) | h) | h) | h) | h) | h) | h) | h)
    | h) | h) | h
  · rcases mem_strncpy_zeros _ _ _ _ h with h1 | h1
    · exact Or.inr (Or.inl h1)
    · exact Or.inl (by omega)
  · exact Or.inl (hs _ _ _ _ h)
  · exact Or.inl (hs _ _ _ _ h)
  · exact Or.inl (hs _ _ _ _ h)
  · exact Or.inl (hs _ _ _ _ h)
  · exact Or.inl (hs _ _ _ _ h)
  · have := List.eq_of_mem_replicate h
    exact Or.inl (by omega)
  · exact Or.inl (by rw [h]; decide)
  · exact Or.inl (hz _ h)
  · rcases mem_strncpy_zeros _ _ _ _ h with h1 | h1
    · have : b ∈ ([117, 115, 116, 97, 114] : List Nat) := h1
      simp only [List.mem_cons, List.mem_singleton, List.not_mem_nil, or_false] at this
      exact Or.inl (by omega)
    · exact Or.inl (by omega)
  · have : b ∈ ([48, 48] : List Nat) := by
      simpa [memcpy, zeros] using h
    simp only [List.mem_cons, List.mem_singleton, List.not_mem_nil, or_false] at this
    exact Or.inl (by omega)
  · rcases mem_strncpy_zeros _ _ _ _ h with h1 | h1
    · exact Or.inr (Or.inr (Or.inl h1))
    · exact Or.inl (by omega)
  · rcases mem_strncpy_zeros _ _ _ _ h with h1 | h1
    · exact Or.inr (Or.inr (Or.inr h1))
    · exact Or.inl (by omega)
  · exact Or.inl (hs _ _ _ _ h)
  · exact Or.inl (hs _ _ _ _ h)
  · exact Or.inl (hz _ h)
  · exact Or.inl (hz _ h)

theorem raw_header_blank_length (n : Path) (f : File) (pw gr : Bytes) :
    ({ raw_header n f pw gr with chksum := List.replicate 8 32 } : tar_header).bytes.length
      = 512 := by
  unfold tar_header.bytes raw_header
  simp only [List.length_append, List.length_singleton, List.length_replicate]
  rw [snprintf_length, snprintf_length, snprintf_length, snprintf_length, snprintf_length,
    snprintf_length, snprintf_length, strncpy_length, strncpy_length, strncpy_length,
    strncpy_length] <;> simp [zeros, memcpy]

/-- The checksum is the one the specification describes whenever no byte of the
name, of the owner name and of the group name is counted as negative: on a
platform where `char` is unsigned, or when these bytes are all below 128. -/
theorem checksum_where_unsigned (env : Env) (fs : FS) (n : Path) (h : tar_header)
    (hh : fill_tar_header env fs n = some h)
    (hn : ∀ b ∈ n, b < 256 ∧ char_val env.char_signed b = (b : Int))
    (hpw : ∀ u pw, env.getpwuid u = some pw →
      ∀ b ∈ pw, b < 256 ∧ char_val env.char_signed b = (b : Int))
    (hgr : ∀ g gr, env.getgrgid g = some gr →
      ∀ b ∈ gr, b < 256 ∧ char_val env.char_signed b = (b : Int)) :
    h.chksum = fmt_o 7 (unsigned_sum h) ++ [0] ∧ (fmt_o 7 (unsigned_sum h)).length = 7 ∧
    octVal (fmt_o 7 (unsigned_sum h)) = unsigned_sum h := by
  obtain ⟨f, pw, gr, _, hpw', hgr', rfl⟩ := fill_tar_header_some env fs n h hh
  apply compute_checksum_unsigned env _ (raw_header_blank_length n f pw gr)
  intro b hb
  rcases raw_header_bytes_mem n f pw gr b hb with h1 | h1 | h1 | h1
  · exact ⟨by omega, char_val_ascii _ b h1⟩
  · exact hn b h1
  · exact hpw _ pw hpw' b h1
  · exact hgr _ gr hgr' b h1

/-! ## The extract pass beyond 2^31 bytes -/

theorem entry_bytes_split (env : Env) (n : Path) (f : File) (pw gr : Bytes)
    (hn : n.length ≤ 100) (hs : f.content.length < 4294967296) :
    entry_bytes env n f pw gr
      = name_field n ++ hdr_mid (raw_header n f pw gr) ++ size_field f.content.length
        ++ hdr_tail (compute_checksum env (raw_header n f pw gr)) ++ f.content
        ++ zeros (pad_len f.content.length) := by
  unfold entry_bytes
  rw [tar_header_bytes_split]
  have hc := compute_checksum_fields env (raw_header n f pw gr)
  rw [hc.1, hc.2.1, hc.2.2.1]
  have h1 : (raw_header n f pw gr).name = name_field n := strncpy_name n hn
  have h2 : (raw_header n f pw gr).size = size_field f.content.length := by
    show snprintf (zeros 12) 12 (fmt_o 11 (u32 f.content.length)) = _
    rw [snprintf_size, u32_id _ hs]
  rw [h1, h2]

theorem list_overflow_state (e1 post : Bytes) (n1 n2 : Path) (d1 d2 g1 g2 : Bytes)
    (h1 : IsEntry n1 d1 e1) (hg1 : g1.length = 24) (hg2 : g2.length = 376)
    (hg : ∃ c g, g2 = c :: g ∧ c ≠ 0) (hn1 : valid_name n1) (hn2 : valid_name n2)
    (hd1 : d1.length + 511 < 2147483648) (hd2 : d2.length + 511 < 2147483648)
    (hl1 : e1.length < 2147483648) (hl2 : 2147483648 ≤ e1.length + entry_len d2.length)
    (hl3 : e1.length + entry_len d2.length < 4294967296) (k : Nat) (junk : Bytes) :
    scan_from (e1 ++ (name_field n2 ++ g1 ++ size_field d2.length ++ g2 ++ d2
        ++ zeros (pad_len d2.length)) ++ post) (k + 1 + 1) (zeros 100) junk 0 []
      = list_loop (e1 ++ (name_field n2 ++ g1 ++ size_field d2.length ++ g2 ++ d2
          ++ zeros (pad_len d2.length)) ++ post) k (g2.take 100)
          (size_field d2.length ++ (size_field d1.length ++ junk.drop 12).drop 12)
          (i32 ((e1.length : Int) + i32 ((entry_len d2.length : Nat) : Int)))
          (e1.length + 136 + 100) ([n1] ++ [n2]) := by
  have hnl2 := name_field_length n2 (by have := hn2.2.1; omega)
  have h2 : IsEntry n2 d2 (name_field n2 ++ g1 ++ size_field d2.length ++ g2 ++ d2
      ++ zeros (pad_len d2.length)) := ⟨g1, g2, hg1, hg2, hg, rfl⟩
  generalize he2 : name_field n2 ++ g1 ++ size_field d2.length ++ g2 ++ d2
      ++ zeros (pad_len d2.length) = e2 at h2 ⊢
  have s1 := scan_step (e1 ++ e2 ++ post) [] e1 (e2 ++ post) n1 d1
    (by simp only [List.nil_append, List.append_assoc]) h1 hn1 hd1
    (by simpa using hl1) (zeros 100) junk (by simp [zeros]) [] (k + 1)
  simp only [List.length_nil, Nat.zero_add, List.nil_append] at s1
  rw [s1]
  have hrd : fread (e1 ++ e2 ++ post) e1.length (name_field n1) 100 = (name_field n2, 100) := by
    apply fread_full_shape _ e1 (name_field n2)
      (g1 ++ size_field d2.length ++ g2 ++ d2 ++ zeros (pad_len d2.length) ++ post)
    · rw [← he2]; simp only [List.append_assoc]
    · rfl
    · rw [hnl2]
    · rw [name_field_length n1 (by have := hn1.2.1; omega)]
  unfold scan_from
  rw [hrd]
  simp only []
  have s2 := list_loop_step (e1 ++ e2 ++ post) e1 e2 post n2 d2 rfl h2 hn2 hd2
    (size_field d1.length ++ junk.drop 12) (e1.length : Int) [n1] k
  rw [s2]
  have hoff : i32 ((e1.length : Int) + i32 ((entry_len d2.length : Nat) : Int)) < 0 := by
    have : entry_len d2.length ≤ 2147483648 + 512 := by
      unfold entry_len; omega
    unfold i32
    omega
  have hset : fseek_set (e1.length + 136)
      (i32 ((e1.length : Int) + i32 ((entry_len d2.length : Nat) : Int)))
      = e1.length + 136 := by
    unfold fseek_set
    rw [if_neg (by omega)]
  rw [hset]
  have hrd2 : fread (e1 ++ e2 ++ post) (e1.length + 136) (name_field n2) 100
      = (g2.take 100, 100) := by
    apply fread_full_shape _ (e1 ++ name_field n2 ++ g1 ++ size_field d2.length)
      (g2.take 100) (g2.drop 100 ++ d2 ++ zeros (pad_len d2.length) ++ post)
    · rw [← he2]
      conv_lhs => rw [← List.take_append_drop 100 g2]
      simp only [List.append_assoc]
    · simp only [List.length_append, hnl2, hg1, size_field_length]
    · rw [List.length_take, hg2]
      rfl
    · rw [hnl2]
  rw [hrd2]

theorem list_loop_bad_size (content : Bytes) (k : Nat) (fnm size S : Bytes) (off : Int)
    (pos m : Nat) (files : file_list_t) (hz : allZeros fnm 100 = false)
    (hrd : fread content (fseek_cur pos 24) size 12 = (S, m)) (hs : sscanf_o S = none) :
    list_loop content (k + 1) fnm size off pos files = some (-1, []) := by
  rw [list_loop]
  simp only [hz, Bool.false_eq_true, if_false, hrd, hs]
  rfl

theorem hdr_tail_split (n : Path) (f : File) :
    ∃ G R, hdr_tail (compute_checksum ex_env (raw_header n f [117] [103]))
        = G ++ [97, 114, 0, 48, 48, 117, 0, 0, 0, 0, 0, 0] ++ R ∧ G.length = 124 := by
  have hmagic : (compute_checksum ex_env (raw_header n f [117] [103])).magic
      = [117, 115, 116] ++ [97, 114, 0] := by
    show strncpy (zeros 6) MAGIC 6 = _
    decide
  have hversion : (compute_checksum ex_env (raw_header n f [117] [103])).version = [48, 48] := by
    show memcpy (zeros 2) [48, 48] 2 = _
    decide
  have huname : (compute_checksum ex_env (raw_header n f [117] [103])).uname
      = [117, 0, 0, 0, 0, 0, 0] ++ zeros 25 := by
    show strncpy (zeros 32) [117] 32 = _
    decide
  have hmt : (compute_checksum ex_env (raw_header n f [117] [103])).mtime.length = 12 := by
    show (snprintf (zeros 12) 12 (fmt_o 11 (u32 f.st.st_mtime))).length = 12
    rw [snprintf_length] <;> simp [zeros]
  have hck := (compute_checksum_fields ex_env (raw_header n f [117] [103])).2.2.2.2
  have hln : (compute_checksum ex_env (raw_header n f [117] [103])).linkname.length = 100 := by
    show (zeros 100).length = 100
    simp [zeros]
  refine ⟨(compute_checksum ex_env (raw_header n f [117] [103])).mtime
      ++ (compute_checksum ex_env (raw_header n f [117] [103])).chksum
      ++ [(compute_checksum ex_env (raw_header n f [117] [103])).typeflag]
      ++ (compute_checksum ex_env (raw_header n f [117] [103])).linkname ++ [117, 115, 116],
    zeros 25 ++ (compute_checksum ex_env (raw_header n f [117] [103])).gname
      ++ (compute_checksum ex_env (raw_header n f [117] [103])).devmajor
      ++ (compute_checksum ex_env (raw_header n f [117] [103])).devminor
      ++ (compute_checksum ex_env (raw_header n f [117] [103])).pfx
      ++ (compute_checksum ex_env (raw_header n f [117] [103])).padding, ?_, ?_⟩
  · unfold hdr_tail
    rw [hmagic, hversion, huname]
    simp only [List.append_assoc, List.cons_append, List.nil_append]
  · simp only [List.length_append, hmt, hck, hln, List.length_cons, List.length_nil]

theorem sscanf_o_ar (t : Bytes) : sscanf_o ([97, 114] ++ 0 :: t) = none := by
  unfold sscanf_o
  rw [cstr_append_nul [97, 114] t (by decide)]
  rfl

theorem extract_of_list_failure (fuel : Nat) (junk1 junk2 : Bytes) (env : Env) (fs : FS)
    (a : Path)
    (h : get_archive_file_list fuel junk1 fs a [] = none ∨
      get_archive_file_list fuel junk1 fs a [] = some (-1, [])) (fs2 : FS) :
    extract_files_from_archive fuel junk1 junk2 env fs a ≠ some (0, fs2) := by
  unfold extract_files_from_archive
  rcases h with h | h
  · rw [h]
    simp
  · rw [h]
    simp

theorem ex_fs_two_entry (d : Bytes) (hd : d.length = 1073741824) (n : Path)
    (hn : n = [102] ∨ n = [103]) :
    write_entry ex_env (set_content ex_env (ex_fs_two d) [97] []) true n
      = (true, entry_bytes ex_env n { st := ex_stat, content := d } [117] [103]) := by
  apply write_entry_ok
  · rcases hn with rfl | rfl <;> decide
  · rcases hn with rfl | rfl
    · rw [set_content_other ex_env (ex_fs_two d) [97] [102] [] (by decide)]
      rfl
    · rw [set_content_other ex_env (ex_fs_two d) [97] [103] [] (by decide)]
      rfl
  · rfl
  · rfl
  · show d.length + 511 < 2147483648
    omega

theorem round_trip_two (d : Bytes) (hd : d.length = 1073741824) :
    ([[102], [103]] : List Path).Nodup ∧ (∀ n ∈ ([[102], [103]] : List Path), valid_name n) ∧
    (∀ n ∈ ([[102], [103]] : List Path), (bytes_of (ex_fs_two d) n).length = 1073741824) ∧
    (create_archive ex_env (ex_fs_two d) [97] [[102], [103]]).1 = 0 ∧
    ∀ (fuel : Nat) (junk1 junk2 : Bytes) (fs2 : FS),
      extract_files_from_archive fuel junk1 junk2 ex_env
        (create_archive ex_env (ex_fs_two d) [97] [[102], [103]]).2 [97] ≠ some (0, fs2) := by
  have hsucc : (create_archive ex_env (ex_fs_two d) [97] [[102], [103]]).1 = 0 := by
    apply create_archive_success _ _ _ _ (by decide) (by decide)
    intro n hn
    have hn' : n = [102] ∨ n = [103] := by simpa using hn
    rw [ex_fs_two_entry d hd n hn']
  refine ⟨by decide, by decide, ?_, hsucc, ?_⟩
  · intro n hn
    have hn' : n = [102] ∨ n = [103] := by simpa using hn
    rcases hn' with rfl | rfl <;> exact hd
  intro fuel junk1 junk2 fs2
  apply extract_of_list_failure
  obtain ⟨ha, hw, hfs⟩ := create_archive_ok ex_env (ex_fs_two d) [97] [[102], [103]] hsucc
  have hie : IsEntry [102] d (entry_bytes ex_env [102] { st := ex_stat, content := d }
      [117] [103]) :=
    entry_bytes_isEntry ex_env [102] { st := ex_stat, content := d } [117] [103] (by decide)
      (by show d.length < 4294967296; omega)
  have hlen := isEntry_length _ _ _ hie (by decide)
  rw [hd] at hlen
  have hel : entry_len 1073741824 = 1073742336 := by decide
  rw [hel] at hlen
  have hsplit := entry_bytes_split ex_env [103] { st := ex_stat, content := d } [117] [103]
    (by decide) (by show d.length < 4294967296; omega)
  have hb : (write_entries ex_env (set_content ex_env (ex_fs_two d) [97] []) true
      [[102], [103]]).2
      = entry_bytes ex_env [102] { st := ex_stat, content := d } [117] [103]
        ++ entry_bytes ex_env [103] { st := ex_stat, content := d } [117] [103] := by
    rw [write_entries_cons, write_entries_cons, ex_fs_two_entry d hd [102] (Or.inl rfl),
      ex_fs_two_entry d hd [103] (Or.inr rfl)]
    simp [write_entries]
  obtain ⟨f, hf, hfc⟩ := fopen_r_set_content ex_env (set_content ex_env (ex_fs_two d) [97] [])
    [97] ((write_entries ex_env (set_content ex_env (ex_fs_two d) [97] []) true
      [[102], [103]]).2 ++ footer) ha
  rw [hfs, get_archive_file_list_eq_scan fuel junk1 _ [97] [] f hf, hfc, hb, hsplit]
  obtain ⟨G, R, hG, hGl⟩ := hdr_tail_split [103] { st := ex_stat, content := d }
  have hg1 := (raw_header_lengths [103] { st := ex_stat, content := d } [117] [103]).1
  have hg2 := (raw_header_lengths [103] { st := ex_stat, content := d } [117] [103]).2 ex_env
  have hgh := raw_header_tail_head ex_env [103] { st := ex_stat, content := d } [117] [103]
  generalize hdr_tail (compute_checksum ex_env
    (raw_header [103] { st := ex_stat, content := d } [117] [103])) = g2 at hG hg2 hgh ⊢
  generalize hdr_mid (raw_header [103] { st := ex_stat, content := d } [117] [103]) = g1
    at hg1 ⊢
  generalize entry_bytes ex_env [102] { st := ex_stat, content := d } [117] [103] = e1
    at hie hlen ⊢
  have hdl : ({ st := ex_stat, content := d } : File).content = d := rfl
  rw [hdl]
  match fuel with
  | 0 => exact Or.inl (by simp [scan_from, list_loop])
  | 1 =>
    left
    have s1 := scan_step (e1 ++ (name_field [103] ++ g1 ++ size_field d.length ++ g2 ++ d
        ++ zeros (pad_len d.length)) ++ footer) [] e1
      ((name_field [103] ++ g1 ++ size_field d.length ++ g2 ++ d
        ++ zeros (pad_len d.length)) ++ footer) [102] d
      (by simp only [List.nil_append, List.append_assoc]) hie (by decide) (by omega)
      (by simp only [List.length_nil]; omega) (zeros 100) junk1 (by simp [zeros]) [] 0
    simp only [List.length_nil, Nat.zero_add, List.nil_append] at s1
    rw [s1]
    simp [scan_from, list_loop]
  | k + 2 =>
    have hst := list_overflow_state e1 footer [102] [103] d d g1 g2 hie hg1 hg2 hgh (by decide)
      (by decide) (by omega) (by omega) (by omega)
      (by rw [hd, hel]; omega) (by rw [hd, hel]; omega) k junk1
    rw [hst]
    match k with
    | 0 => exact Or.inl (by simp [list_loop])
    | k + 1 =>
      right
      obtain ⟨c, g, hcg, hc0⟩ := hgh
      apply list_loop_bad_size _ _ _ _
        ([97, 114, 0, 48, 48, 117, 0, 0, 0, 0, 0, 0]
          ++ (size_field d.length ++ (size_field d.length ++ junk1.drop 12).drop 12).drop 12) _ _ 12
      · rw [hcg]
        unfold allZeros
        simp [List.take, hc0]
      · have hsk : fseek_cur (e1.length + 136 + 100) 24 = e1.length + 260 := by
          unfold fseek_cur
          rw [if_pos (by omega)]
          omega
        rw [hsk]
        apply fread_at_shape _ (e1 ++ name_field [103] ++ g1 ++ size_field d.length ++ G)
          [97, 114, 0, 48, 48, 117, 0, 0, 0, 0, 0, 0]
          (R ++ d ++ zeros (pad_len d.length) ++ footer)
        · rw [hG]
          simp only [List.append_assoc]
        · simp only [List.length_append, hg1, hGl, size_field_length,
            name_field_length [103] (by decide)]
        · rfl
      · exact sscanf_o_ar _

/-- C1, a second input on which the claim fails. Two distinct one-GiB files `f`
and `g`: `create_archive` succeeds (the archive has 2^31 + 2048 bytes), and
`extract_files_from_archive` on the archive returns 0 for no amount of fuel and
no first content of the arrays `size`: its list pass fails once `offset` has
left the range of `int`. -/
theorem round_trip_big_counterexample :
    ([[102], [103]] : List Path).Nodup ∧ (∀ n ∈ ([[102], [103]] : List Path), valid_name n) ∧
    (∀ n ∈ ([[102], [103]] : List Path), (bytes_of (ex_fs_two big) n).length = 1073741824) ∧
    (create_archive ex_env (ex_fs_two big) [97] [[102], [103]]).1 = 0 ∧
    ∀ (fuel : Nat) (junk1 junk2 : Bytes) (fs2 : FS),
      extract_files_from_archive fuel junk1 junk2 ex_env
        (create_archive ex_env (ex_fs_two big) [97] [[102], [103]]).2 [97] ≠ some (0, fs2) :=
  round_trip_two big big_length

/-! ## Appending to a missing archive, and stripping the footer -/

theorem append_missing_aux (env : Env) (fs : FS) (archive_name : Path) (files : List Path)
    (h : fs archive_name = none) :
    append_files_to_archive env fs archive_name files = (-1, fs) := by
  have hop : fopen_r fs archive_name = none := by
    unfold fopen_r
    split
    · rfl
    · exact h
  unfold append_files_to_archive
  rw [hop]

/-- C11. Append requires an existing archive: for every name list,
`append_files_to_archive` on an archive path that does not exist returns -1 and
leaves the file system as it was: the archive is not created and no other file
changes. -/
theorem append_missing_archive (env : Env) (fs : FS) (archive_name : Path) (files : List Path)
    (h : fs archive_name = none) :
    append_files_to_archive env fs archive_name files = (-1, fs) :=
  append_missing_aux env fs archive_name files h

/-- C11, witness: appending `[f]` to the archive `a`, which does not exist. -/
theorem append_missing_archive_witness :
    append_files_to_archive ex_env ex_fs [97] [[102]] = (-1, ex_fs) :=
  append_missing_archive ex_env ex_fs [97] [[102]] (by decide)

theorem footer_stripping_aux (env : Env) (fs : FS) (file_name : Path) (f : File)
    (hf : stat fs file_name = some f) :
    (remove_trailing_bytes env fs file_name 1024).1 = 0 ∧
    bytes_of (remove_trailing_bytes env fs file_name 1024).2 file_name
      = f.content.take (f.content.length - 1024) ∧
    (1024 ≤ f.content.length →
      (bytes_of (remove_trailing_bytes env fs file_name 1024).2 file_name).length
        = f.content.length - 1024) ∧
    (f.content.length < 1024 →
      (bytes_of (remove_trailing_bytes env fs file_name 1024).2 file_name).length = 0) ∧
    (∀ p, p ≠ file_name → (remove_trailing_bytes env fs file_name 1024).2 p = fs p) := by
  have hrt : remove_trailing_bytes env fs file_name 1024
      = (0, set_content env fs file_name (f.content.take (f.content.length - 1024))) := by
    unfold remove_trailing_bytes
    rw [hf]
    simp only []
    by_cases hlt : 1024 > f.content.length
    · have h0 : f.content.length - 1024 = 0 := by omega
      rw [if_pos hlt, h0]
    · rw [if_neg hlt]
  rw [hrt]
  refine ⟨rfl, set_content_same _ _ _ _, ?_, ?_, ?_⟩
  · intro h
    rw [set_content_same, List.length_take]
    omega
  · intro h
    rw [set_content_same, List.length_take]
    omega
  · intro p hp
    exact set_content_other env fs file_name p _ hp

/-- C15. Footer stripping: for every existing file of length `L`,
`remove_trailing_bytes` with `nbytes = 1024` returns 0 and leaves the first
`L - 1024` bytes of the file when `L >= 1024` and no byte when `L < 1024`; the
bytes that remain are a prefix of the original, and no other file changes. -/
theorem footer_stripping (env : Env) (fs : FS) (file_name : Path) (f : File)
    (hf : stat fs file_name = some f) :
    (remove_trailing_bytes env fs file_name 1024).1 = 0 ∧
    bytes_of (remove_trailing_bytes env fs file_name 1024).2 file_name
      = f.content.take (f.content.length - 1024) ∧
    (1024 ≤ f.content.length →
      (bytes_of (remove_trailing_bytes env fs file_name 1024).2 file_name).length
        = f.content.length - 1024) ∧
    (f.content.length < 1024 →
      (bytes_of (remove_trailing_bytes env fs file_name 1024).2 file_name).length = 0) ∧
    (∀ p, p ≠ file_name → (remove_trailing_bytes env fs file_name 1024).2 p = fs p) :=
  footer_stripping_aux env fs file_name f hf

/-- C15, witness: the file `a` of 1025 bytes keeps its first `1025 - 1024` bytes. -/
theorem footer_stripping_witness :
    (remove_trailing_bytes ex_env ex_fs_odd [97] 1024).1 = 0 ∧
    bytes_of (remove_trailing_bytes ex_env ex_fs_odd [97] 1024).2 [97]
      = ex_file_odd.content.take (ex_file_odd.content.length - 1024) :=
  have h := footer_stripping ex_env ex_fs_odd [97] ex_file_odd rfl
  ⟨h.1, h.2.1⟩

/-! ## The content block and the header format -/

theorem content_block_aux (env : Env) (fs : FS) (rd : Bool) (n : Path) (f : File) (b : Bytes)
    (hf : fs n = some f) (hs : f.content.length + 511 < 2147483648)
    (hw : write_entry env fs rd n = (true, b)) :
    ∃ h : tar_header, fill_tar_header env fs n = some h ∧ h.bytes.length = 512 ∧
      b = h.bytes ++ f.content ++ List.replicate ((512 - f.content.length % 512) % 512) 0 ∧
      (f.content.length = 0 → b = h.bytes) ∧
      (f.content.length % 512 = 0 → b = h.bytes ++ f.content) := by
  have h1 : (write_entry env fs rd n).1 = true := by rw [hw]
  obtain ⟨f', pw, gr, hne, hf', hpw, hgr, _⟩ := write_entry_true env fs rd n h1
  rw [hf] at hf'
  have hff : f = f' := Option.some.inj hf'
  subst hff
  have hb : b = entry_bytes env n f pw gr := by
    have := write_entry_ok env fs rd n f pw gr hne hf hpw hgr hs
    rw [hw] at this
    exact (Prod.mk.inj this).2
  have hst : stat fs n = some f := by rw [stat_of_ne_nil fs n hne, hf]
  refine ⟨compute_checksum env (raw_header n f pw gr),
    fill_tar_header_eq env fs n f pw gr hst hpw hgr, header_length env n f pw gr, ?_, ?_, ?_⟩
  · rw [hb]
    rfl
  · intro h0
    have hc : f.content = [] := List.eq_nil_of_length_eq_zero h0
    have hp : pad_len f.content.length = 0 := by unfold pad_len; omega
    rw [hb]
    unfold entry_bytes
    rw [hp, hc]
    simp [zeros]
  · intro h0
    have hp : pad_len f.content.length = 0 := by unfold pad_len; omega
    rw [hb]
    unfold entry_bytes
    rw [hp]
    simp [zeros]

/-- C16. Content block layout: for every file of size `s` below 2^31 - 511 that
the loop of `create_archive` (`rd = true`) or of `append_files_to_archive`
(`rd = false`) writes, the bytes written are the 512-byte header followed by the
`s` bytes of the file and exactly `(512 - s mod 512) mod 512` zero bytes; an
empty file contributes no content block, and a file whose size is a multiple of
512 gets no padding. -/
theorem content_block_layout (env : Env) (fs : FS) (rd : Bool) (n : Path) (f : File) (b : Bytes)
    (hf : fs n = some f) (hs : f.content.length + 511 < 2147483648)
    (hw : write_entry env fs rd n = (true, b)) :
    ∃ h : tar_header, fill_tar_header env fs n = some h ∧ h.bytes.length = 512 ∧
      b = h.bytes ++ f.content ++ List.replicate ((512 - f.content.length % 512) % 512) 0 ∧
      (f.content.length = 0 → b = h.bytes) ∧
      (f.content.length % 512 = 0 → b = h.bytes ++ f.content) :=
  content_block_aux env fs rd n f b hf hs hw

/-- C16, witness: the file `f` of 5 bytes in the loop of `create_archive`. -/
theorem content_block_layout_witness :
    ∃ h : tar_header, fill_tar_header ex_env ex_fs [102] = some h ∧ h.bytes.length = 512 ∧
      (write_entry ex_env ex_fs true [102]).2
        = h.bytes ++ hello ++ List.replicate ((512 - hello.length % 512) % 512) 0 ∧
      (hello.length = 0 → (write_entry ex_env ex_fs true [102]).2 = h.bytes) ∧
      (hello.length % 512 = 0 → (write_entry ex_env ex_fs true [102]).2 = h.bytes ++ hello) :=
  content_block_layout ex_env ex_fs true [102] { st := ex_stat, content := hello }
    (write_entry ex_env ex_fs true [102]).2 (by decide) (by decide) (by decide!)

theorem snprintf_octal (dst : Bytes) (k w v : Nat) (hkw : k ≤ w) (hd : dst.length = k + 1) :
    octal_field k (snprintf dst (k + 1) (fmt_o w v)) := by
  have hl := fmt_o_length_ge w v
  refine ⟨(fmt_o w v).take k, ?_, ?_, ?_⟩
  · unfold snprintf
    have h1 : k + 1 - 1 = k := by omega
    have h2 : ((fmt_o w v).take k).length = k := by
      rw [List.length_take]
      omega
    simp only [h1, h2]
    rw [List.drop_eq_nil_of_le (by omega)]
  · rw [List.length_take]
    omega
  · intro d hdm
    exact fmt_o_digit w v d (List.mem_of_mem_take hdm)

theorem header_format_aux (env : Env) (fs : FS) (file_name : Path) (h : tar_header)
    (hh : fill_tar_header env fs file_name = some h) :
    h.magic = [117, 115, 116, 97, 114, 0] ∧ h.version = [48, 48] ∧ h.typeflag = 48 ∧
    h.linkname = List.replicate 100 0 ∧ h.pfx = List.replicate 155 0 ∧
    h.padding = List.replicate 12 0 ∧
    octal_field 7 h.mode ∧ octal_field 7 h.uid ∧ octal_field 7 h.gid ∧
    octal_field 7 h.devmajor ∧ octal_field 7 h.devminor ∧ octal_field 7 h.chksum ∧
    octal_field 11 h.size ∧ octal_field 11 h.mtime := by
  obtain ⟨f, pw, gr, _, _, _, rfl⟩ := fill_tar_header_some env fs file_name h hh
  have hz8 : (zeros 8).length = 7 + 1 := by simp [zeros]
  have hz12 : (zeros 12).length = 11 + 1 := by simp [zeros]
  refine ⟨by show strncpy (zeros 6) MAGIC 6 = _; decide,
    by show memcpy (zeros 2) [48, 48] 2 = _; decide, rfl, rfl, rfl, rfl,
    snprintf_octal _ 7 7 _ (by omega) hz8, snprintf_octal _ 7 7 _ (by omega) hz8,
    snprintf_octal _ 7 7 _ (by omega) hz8, snprintf_octal _ 7 7 _ (by omega) hz8,
    snprintf_octal _ 7 7 _ (by omega) hz8, ?_,
    snprintf_octal _ 11 11 _ (by omega) hz12, snprintf_octal _ 11 11 _ (by omega) hz12⟩
  show octal_field 7 (snprintf (List.replicate 8 32) 8 (fmt_o 7 _))
  exact snprintf_octal _ 7 7 _ (by omega) (by simp)

/-- C17. Header format invariant: every header produced by a successful
`fill_tar_header` has `magic` equal to `ustar` followed by NUL, `version` equal to
the two bytes `00`, `typeflag` `'0'`, all-zero `linkname`, `prefix` and trailing
padding, and each numeric field made only of octal digits followed by a NUL
(7 digits in `mode`, `uid`, `gid`, `devmajor`, `devminor`, `chksum`; 11 in
`size`, `mtime`), for every value of the file's metadata. -/
theorem header_format (env : Env) (fs : FS) (file_name : Path) (h : tar_header)
    (hh : fill_tar_header env fs file_name = some h) :
    h.magic = [117, 115, 116, 97, 114, 0] ∧ h.version = [48, 48] ∧ h.typeflag = 48 ∧
    h.linkname = List.replicate 100 0 ∧ h.pfx = List.replicate 155 0 ∧
    h.padding = List.replicate 12 0 ∧
    octal_field 7 h.mode ∧ octal_field 7 h.uid ∧ octal_field 7 h.gid ∧
    octal_field 7 h.devmajor ∧ octal_field 7 h.devminor ∧ octal_field 7 h.chksum ∧
    octal_field 11 h.size ∧ octal_field 11 h.mtime :=
  header_format_aux env fs file_name h hh

/-- C17, witness: the header of the file `f`. -/
theorem header_format_witness :
    ∃ h, fill_tar_header ex_env ex_fs [102] = some h ∧
      h.magic = [117, 115, 116, 97, 114, 0] ∧ h.version = [48, 48] ∧ h.typeflag = 48 ∧
      octal_field 7 h.mode ∧ octal_field 7 h.chksum ∧ octal_field 11 h.size :=
  have hh : fill_tar_header ex_env ex_fs [102]
      = some (compute_checksum ex_env (raw_header [102] { st := ex_stat, content := hello }
        [117] [103])) := by decide!
  have h := header_format ex_env ex_fs [102] _ hh
  ⟨_, hh, h.1, h.2.1, h.2.2.1, h.2.2.2.2.2.2.1, h.2.2.2.2.2.2.2.2.2.2.2.1,
    h.2.2.2.2.2.2.2.2.2.2.2.2.1⟩

/-! ## Aborted runs of `create_archive` and `append_files_to_archive` -/

theorem fill_tar_header_congr (env : Env) (fs fs' : FS) (n : Path) (h : fs n = fs' n) :
    fill_tar_header env fs n = fill_tar_header env fs' n := by
  unfold fill_tar_header stat
  rw [h]

theorem write_entry_congr (env : Env) (fs fs' : FS) (rd : Bool) (n : Path) (h : fs n = fs' n) :
    write_entry env fs rd n = write_entry env fs' rd n := by
  unfold write_entry fopen_r
  rw [fill_tar_header_congr env fs fs' n h, h]

theorem entry_of_congr (env : Env) (fs fs' : FS) (n : Path) (h : fs n = fs' n) :
    entry_of env fs n = entry_of env fs' n := by
  unfold entry_of
  rw [fill_tar_header_congr env fs fs' n h, h]

theorem write_entry_archivable (env : Env) (fs : FS) (rd : Bool) (n : Path)
    (h : archivable env fs n) : write_entry env fs rd n = (true, entry_of env fs n) := by
  obtain ⟨hne, f, hf, hpw, hgr, hs⟩ := h
  obtain ⟨pw, hpw'⟩ := Option.isSome_iff_exists.1 hpw
  obtain ⟨gr, hgr'⟩ := Option.isSome_iff_exists.1 hgr
  have hst : stat fs n = some f := by rw [stat_of_ne_nil fs n hne, hf]
  rw [write_entry_ok env fs rd n f pw gr hne hf hpw' hgr' hs]
  unfold entry_of
  rw [fill_tar_header_eq env fs n f pw gr hst hpw' hgr', hf]
  rfl

theorem write_entry_no_stat (env : Env) (fs : FS) (rd : Bool) (n : Path)
    (h : stat fs n = none) : write_entry env fs rd n = (false, []) := by
  unfold write_entry fill_tar_header
  rw [h]

theorem write_entries_abort (env : Env) (fs : FS) (rd : Bool) (nj : Path) (post : List Path) :
    ∀ pre : List Path, (∀ n ∈ pre, archivable env fs n) → stat fs nj = none →
    write_entries env fs rd (pre ++ nj :: post) = (-1, (pre.map (entry_of env fs)).flatten)
  | [], _, hnj => by
    rw [List.nil_append, write_entries_cons, write_entry_no_stat env fs rd nj hnj]
    rfl
  | n :: r, hpre, hnj => by
    have hn := write_entry_archivable env fs rd n (hpre n (List.mem_cons_self _ _))
    have ih := write_entries_abort env fs rd nj post r
      (fun m hm => hpre m (List.mem_cons_of_mem _ hm)) hnj
    rw [List.cons_append, write_entries_cons, hn, ih]
    simp

theorem write_entries_archivable (env : Env) (fs : FS) (rd : Bool) :
    ∀ names : List Path, (∀ n ∈ names, archivable env fs n) →
    write_entries env fs rd names = (0, (names.map (entry_of env fs)).flatten)
  | [], _ => rfl
  | n :: r, h => by
    have hn := write_entry_archivable env fs rd n (h n (List.mem_cons_self _ _))
    have ih := write_entries_archivable env fs rd r (fun m hm => h m (List.mem_cons_of_mem _ hm))
    rw [write_entries_cons, hn, ih]
    simp

theorem archivable_congr (env : Env) (fs fs' : FS) (n : Path) (h : fs n = fs' n)
    (ha : archivable env fs n) : archivable env fs' n := by
  obtain ⟨hne, f, hf, hrest⟩ := ha
  exact ⟨hne, f, by rw [← h]; exact hf, hrest⟩

theorem map_entry_of_congr (env : Env) (fs fs' : FS) (l : List Path)
    (h : ∀ n ∈ l, fs n = fs' n) : l.map (entry_of env fs) = l.map (entry_of env fs') := by
  apply List.map_congr_left
  intro n hn
  exact entry_of_congr env fs fs' n (h n hn)

theorem create_abort_aux (env : Env) (fs : FS) (archive_name : Path) (pre post : List Path)
    (nj : Path) (ha : archive_name ≠ []) (hcw : env.writable archive_name = true)
    (hpre : ∀ n ∈ pre, archivable env fs n)
    (hna : archive_name ∉ pre) (hnj : stat fs nj = none) (hnja : nj ≠ archive_name) :
    (create_archive env fs archive_name (pre ++ nj :: post)).1 = -1 ∧
    bytes_of (create_archive env fs archive_name (pre ++ nj :: post)).2 archive_name
      = (pre.map (entry_of env fs)).flatten := by
  have hsame : ∀ n ∈ pre, set_content env fs archive_name [] n = fs n := by
    intro n hn
    exact set_content_other env fs archive_name n [] (fun h0 => hna (h0 ▸ hn))
  have hpre' : ∀ n ∈ pre, archivable env (set_content env fs archive_name []) n := by
    intro n hn
    exact archivable_congr env fs _ n (hsame n hn).symm (hpre n hn)
  have hnj' : stat (set_content env fs archive_name []) nj = none := by
    unfold stat at hnj ⊢
    by_cases h0 : nj = []
    · simp [h0]
    · simp only [h0, if_false] at hnj ⊢
      rw [set_content_other env fs archive_name nj [] hnja]
      exact hnj
  have hw := write_entries_abort env (set_content env fs archive_name []) true nj post pre
    hpre' hnj'
  have hmap := map_entry_of_congr env (set_content env fs archive_name []) fs pre hsame
  unfold create_archive fopen_w
  simp only [ha, hcw, if_false, if_true, hw, hmap]
  exact ⟨rfl, set_content_same _ _ _ _⟩

theorem create_archive_unwritable (env : Env) (fs : FS) (archive_name : Path)
    (files : List Path) (h : archive_name = [] ∨ env.writable archive_name = false) :
    create_archive env fs archive_name files = (-1, fs) := by
  unfold create_archive fopen_w
  rcases h with h | h
  · simp only [h, if_true]
  · by_cases ha : archive_name = []
    · simp only [ha, if_true]
    · simp [ha, h]

theorem append_abort_aux (env : Env) (fs : FS) (archive_name : Path) (pre post : List Path)
    (nj : Path) (f : File) (hf : fopen_r fs archive_name = some f)
    (hpre : ∀ n ∈ pre, archivable env fs n)
    (hna : archive_name ∉ pre) (hnj : stat fs nj = none) :
    (append_files_to_archive env fs archive_name (pre ++ nj :: post)).1 = -1 ∧
    bytes_of (append_files_to_archive env fs archive_name (pre ++ nj :: post)).2 archive_name
      = f.content.take (f.content.length - 1024) ++ (pre.map (entry_of env fs)).flatten := by
  have ha : archive_name ≠ [] := by
    intro h0
    simp [fopen_r, h0] at hf
  have hnja : nj ≠ archive_name := by
    intro h0
    rw [h0, stat_of_ne_nil fs archive_name ha, ← fopen_r_of_ne_nil fs archive_name ha, hf] at hnj
    exact absurd hnj (by simp)
  have hsame : ∀ n ∈ pre,
      set_content env fs archive_name (strip_footer f.content) n = fs n := by
    intro n hn
    exact set_content_other env fs archive_name n _ (fun h0 => hna (h0 ▸ hn))
  have hpre' : ∀ n ∈ pre,
      archivable env (set_content env fs archive_name (strip_footer f.content)) n := by
    intro n hn
    exact archivable_congr env fs _ n (hsame n hn).symm (hpre n hn)
  have hnj' : stat (set_content env fs archive_name (strip_footer f.content)) nj = none := by
    unfold stat at hnj ⊢
    by_cases h0 : nj = []
    · simp [h0]
    · simp only [h0, if_false] at hnj ⊢
      rw [set_content_other env fs archive_name nj _ hnja]
      exact hnj
  have hw := write_entries_abort env (set_content env fs archive_name (strip_footer f.content))
    false nj post pre hpre' hnj'
  have hmap := map_entry_of_congr env
    (set_content env fs archive_name (strip_footer f.content)) fs pre hsame
  have hstrip : strip_footer f.content = f.content.take (f.content.length - 1024) := by
    unfold strip_footer
    by_cases hlt : 1024 > f.content.length
    · have h0 : f.content.length - 1024 = 0 := by omega
      rw [if_pos hlt, h0]
    · rw [if_neg hlt]
  rw [append_eq env fs archive_name (pre ++ nj :: post) f hf, hw, hmap]
  have hne : ¬ ((-1 : Int) = 0) := by decide
  simp only [hne, if_false, set_content_same, hstrip]
  exact ⟨trivial, trivial⟩

theorem ex_fs_archivable (n : Path) (hn : n ∈ ([[102], [103]] : List Path)) :
    archivable ex_env ex_fs n := by
  have hn' : n = [102] ∨ n = [103] := by simpa using hn
  rcases hn' with rfl | rfl
  · exact ⟨by decide, { st := ex_stat, content := hello }, by decide, by decide, by decide,
      by decide⟩
  · exact ⟨by decide, { st := ex_stat, content := [] }, by decide, by decide, by decide,
      by decide⟩

/-- C13 (amended). Create aborts on the first failure without rollback: when
the archive can be created (`fopen` with mode `w` succeeds for its name), for
every name list in which `n1..n(j-1)` name existing files other than the archive,
whose owner and group have names and whose sizes are below 2^31 - 511, and `nj`,
not the archive, cannot be stat'ed, `create_archive` returns -1 and the archive
file then holds exactly the complete entries (header, content, padding) of
`n1..n(j-1)`, in order, with no footer and nothing for `nj` or any later name. -/
theorem create_abort (env : Env) (fs : FS) (archive_name : Path) (pre post : List Path)
    (nj : Path) (ha : archive_name ≠ []) (hcw : env.writable archive_name = true)
    (hpre : ∀ n ∈ pre, archivable env fs n)
    (hna : archive_name ∉ pre) (hnj : stat fs nj = none) (hnja : nj ≠ archive_name) :
    (create_archive env fs archive_name (pre ++ nj :: post)).1 = -1 ∧
    bytes_of (create_archive env fs archive_name (pre ++ nj :: post)).2 archive_name
      = (pre.map (entry_of env fs)).flatten :=
  create_abort_aux env fs archive_name pre post nj ha hcw hpre hna hnj hnja

/-- C13, witness: the names `[f, g, m, f]`, where no file `m` exists. -/
theorem create_abort_witness :
    (create_archive ex_env ex_fs [97] ([[102], [103]] ++ [109] :: [[102]])).1 = -1 ∧
    bytes_of (create_archive ex_env ex_fs [97] ([[102], [103]] ++ [109] :: [[102]])).2 [97]
      = (([[102], [103]] : List Path).map (entry_of ex_env ex_fs)).flatten :=
  create_abort ex_env ex_fs [97] [[102], [103]] [[102]] [109] (by decide) (by decide)
    ex_fs_archivable (by decide) (by decide) (by decide)

/-- C13, counterexample. The names `[o, m]`: the file `o` exists, but its owner
has no name, and no file `m` exists. `create_archive` returns -1 at `o`, and the
archive is left empty: it does not hold an entry of `o`. -/
theorem create_abort_counterexample :
    ex_fs_orphan [111] = some { st := ex_stat_orphan, content := hello } ∧
    stat ex_fs_orphan [109] = none ∧
    (create_archive ex_env ex_fs_orphan [97] [[111], [109]]).1 = -1 ∧
    bytes_of (create_archive ex_env ex_fs_orphan [97] [[111], [109]]).2 [97] = [] := by
  decide

theorem append_abort_bytes (env : Env) (fs : FS) (archive_name : Path) (pre post : List Path)
    (nj : Path) (ha : archive_name ≠ []) (hex : (fs archive_name).isSome = true)
    (hpre : ∀ n ∈ pre, archivable env fs n)
    (hna : archive_name ∉ pre) (hnj : stat fs nj = none) :
    (append_files_to_archive env fs archive_name (pre ++ nj :: post)).1 = -1 ∧
    bytes_of (append_files_to_archive env fs archive_name (pre ++ nj :: post)).2 archive_name
      = (bytes_of fs archive_name).take ((bytes_of fs archive_name).length - 1024)
        ++ (pre.map (entry_of env fs)).flatten := by
  obtain ⟨f, hf⟩ := Option.isSome_iff_exists.1 hex
  have hop : fopen_r fs archive_name = some f := by
    rw [fopen_r_of_ne_nil fs archive_name ha, hf]
  rw [bytes_of_eq fs archive_name f hf]
  exact append_abort_aux env fs archive_name pre post nj f hop hpre hna hnj

/-- C14 (amended). Append failure damages the archive: for every existing
archive and name list in which `n1..n(j-1)` name existing files other than the
archive, whose owner and group have names and whose sizes are below 2^31 - 511,
and `nj` cannot be stat'ed, `append_files_to_archive` returns -1 and leaves the
archive equal to the original without its last 1024 bytes, followed by the
complete entries of `n1..n(j-1)`; the footer is not restored. -/
theorem append_abort (env : Env) (fs : FS) (archive_name : Path) (pre post : List Path)
    (nj : Path) (ha : archive_name ≠ []) (hex : (fs archive_name).isSome = true)
    (hpre : ∀ n ∈ pre, archivable env fs n)
    (hna : archive_name ∉ pre) (hnj : stat fs nj = none) :
    (append_files_to_archive env fs archive_name (pre ++ nj :: post)).1 = -1 ∧
    bytes_of (append_files_to_archive env fs archive_name (pre ++ nj :: post)).2 archive_name
      = (bytes_of fs archive_name).take ((bytes_of fs archive_name).length - 1024)
        ++ (pre.map (entry_of env fs)).flatten :=
  append_abort_bytes env fs archive_name pre post nj ha hex hpre hna hnj

/-- C14, witness: the archive of `[f]`, to which `[g, m]` is appended, where no
file `m` exists. -/
theorem append_abort_witness :
    (append_files_to_archive ex_env (create_archive ex_env ex_fs [97] [[102]]).2 [97]
      ([[103]] ++ [109] :: [])).1 = -1 ∧
    bytes_of (append_files_to_archive ex_env (create_archive ex_env ex_fs [97] [[102]]).2 [97]
      ([[103]] ++ [109] :: [])).2 [97]
      = (bytes_of (create_archive ex_env ex_fs [97] [[102]]).2 [97]).take
          ((bytes_of (create_archive ex_env ex_fs [97] [[102]]).2 [97]).length - 1024)
        ++ (([[103]] : List Path).map
            (entry_of ex_env (create_archive ex_env ex_fs [97] [[102]]).2)).flatten :=
  append_abort ex_env (create_archive ex_env ex_fs [97] [[102]]).2 [97] [[103]] [] [109]
    (by decide) (by decide)
    (fun n hn => by
      have hn' : n = [103] := by simpa using hn
      rw [hn']
      exact ⟨by decide, { st := ex_stat, content := [] }, by decide, by decide, by decide,
        by decide⟩)
    (by decide) (by decide)

/-- C14, counterexample. The archive of `[f]` (2048 bytes), to which `[o, m]` is
appended: the file `o` exists, but its owner has no name, and no file `m` exists.
`append_files_to_archive` returns -1 at `o` and leaves the first 1024 bytes of
the archive and nothing else: no entry of `o` follows. -/
theorem append_abort_counterexample :
    (create_archive ex_env ex_fs_orphan [97] [[102]]).2 [111]
      = some { st := ex_stat_orphan, content := hello } ∧
    stat (create_archive ex_env ex_fs_orphan [97] [[102]]).2 [109] = none ∧
    (bytes_of (create_archive ex_env ex_fs_orphan [97] [[102]]).2 [97]).length = 2048 ∧
    (append_files_to_archive ex_env (create_archive ex_env ex_fs_orphan [97] [[102]]).2 [97]
      [[111], [109]]).1 = -1 ∧
    bytes_of (append_files_to_archive ex_env (create_archive ex_env ex_fs_orphan [97]
      [[102]]).2 [97] [[111], [109]]).2 [97]
      = (bytes_of (create_archive ex_env ex_fs_orphan [97] [[102]]).2 [97]).take 1024 := by
  decide!

/-! ## Append and create of the concatenation -/

theorem hna_elim {a n : Path} {l : List Path} (hna : a ∉ l) (h0 : n = a) (hn : n ∈ l) :
    False := hna (h0 ▸ hn)

theorem write_entry_true_lt (env : Env) (fs : FS) (rd : Bool) (n : Path)
    (h : (write_entry env fs rd n).1 = true) (hs : (bytes_of fs n).length < 4294967296) :
    archivable env fs n := by
  obtain ⟨f, pw, gr, hne, hf, hpw, hgr, hlt⟩ := write_entry_true env fs rd n h
  rw [bytes_of_eq fs n f hf] at hs
  refine ⟨hne, f, hf, by rw [hpw]; rfl, by rw [hgr]; rfl, ?_⟩
  by_cases h31 : f.content.length < 2147483648
  · exact hlt h31
  · exfalso
    have hst : stat fs n = some f := by rw [stat_of_ne_nil fs n hne, hf]
    have hop : fopen_r fs n = some f := by rw [fopen_r_of_ne_nil fs n hne, hf]
    have hneg : get_size f.content < 0 := by
      unfold get_size i32
      omega
    unfold write_entry at h
    rw [fill_tar_header_eq env fs n f pw gr hst hpw hgr] at h
    simp [hop, hneg] at h

theorem append_is_create_aux (env : Env) (fs : FS) (archive_name : Path) (A B : List Path)
    (hnaA : archive_name ∉ A) (hnaB : archive_name ∉ B)
    (hsz : ∀ n ∈ A ++ B, (bytes_of fs n).length < 4294967296)
    (hokc : (create_archive env fs archive_name A).1 = 0)
    (hoka : (append_files_to_archive env (create_archive env fs archive_name A).2
      archive_name B).1 = 0) :
    (create_archive env fs archive_name (A ++ B)).1 = 0 ∧
    (append_files_to_archive env (create_archive env fs archive_name A).2 archive_name B).2
      = (create_archive env fs archive_name (A ++ B)).2 := by
  obtain ⟨ha, hwA, hfsA⟩ := create_archive_ok env fs archive_name A hokc
  have hA : ∀ n ∈ A, archivable env fs n := by
    intro n hn
    have hne : n ≠ archive_name := fun h0 => hna_elim hnaA h0 hn
    have h1 := (write_entries_zero_iff env _ true A).1 hwA n hn
    have hsame := set_content_other env fs archive_name n [] hne
    have := write_entry_true_lt env _ true n h1
      (by rw [bytes_of_set_content_other env fs archive_name n [] hne]
          exact hsz n (List.mem_append_left _ hn))
    exact archivable_congr env _ fs n hsame this
  have hwA' := write_entries_archivable env (set_content env fs archive_name []) true A
    (fun n hn => archivable_congr env fs _ n
      (set_content_other env fs archive_name n [] (fun h0 => hna_elim hnaA h0 hn)).symm
      (hA n hn))
  have hmapA := map_entry_of_congr env (set_content env fs archive_name []) fs A
    (fun n hn => set_content_other env fs archive_name n [] (fun h0 => hna_elim hnaA h0 hn))
  rw [hwA', hmapA, set_content_twice] at hfsA
  dsimp only at hfsA
  obtain ⟨f, hf, hwB, hfsB⟩ := append_ok env _ archive_name B hoka
  obtain ⟨g, hg, hgc⟩ := fopen_r_set_content env fs archive_name
    ((A.map (entry_of env fs)).flatten ++ footer) ha
  rw [hfsA] at hf hwB hfsB ⊢
  rw [hg] at hf
  have hfg : g = f := Option.some.inj hf
  subst hfg
  rw [hgc, strip_footer_append, set_content_twice] at hwB hfsB
  simp only [set_content_twice] at hfsB
  have hB : ∀ n ∈ B, archivable env fs n := by
    intro n hn
    have hne : n ≠ archive_name := fun h0 => hna_elim hnaB h0 hn
    have h1 := (write_entries_zero_iff env _ false B).1 hwB n hn
    have hsame := set_content_other env fs archive_name n
      ((A.map (entry_of env fs)).flatten) hne
    have := write_entry_true_lt env _ false n h1
      (by rw [bytes_of_set_content_other env fs archive_name n _ hne]
          exact hsz n (List.mem_append_right _ hn))
    exact archivable_congr env _ fs n hsame this
  have hwB' := write_entries_archivable env
    (set_content env fs archive_name ((A.map (entry_of env fs)).flatten)) false B
    (fun n hn => archivable_congr env fs _ n
      (set_content_other env fs archive_name n _ (fun h0 => hna_elim hnaB h0 hn)).symm
      (hB n hn))
  have hmapB := map_entry_of_congr env
    (set_content env fs archive_name ((A.map (entry_of env fs)).flatten)) fs B
    (fun n hn => set_content_other env fs archive_name n _ (fun h0 => hna_elim hnaB h0 hn))
  rw [hwB', hmapB] at hfsB
  dsimp only at hfsB
  have hAB : ∀ n ∈ A ++ B, archivable env (set_content env fs archive_name []) n := by
    intro n hn
    rcases List.mem_append.1 hn with h | h
    · exact archivable_congr env fs _ n
        (set_content_other env fs archive_name n [] (fun h0 => hna_elim hnaA h0 h)).symm
        (hA n h)
    · exact archivable_congr env fs _ n
        (set_content_other env fs archive_name n [] (fun h0 => hna_elim hnaB h0 h)).symm
        (hB n h)
  have hwAB := write_entries_archivable env (set_content env fs archive_name []) true (A ++ B)
    hAB
  have hmapAB := map_entry_of_congr env (set_content env fs archive_name []) fs (A ++ B)
    (fun n hn => by
      rcases List.mem_append.1 hn with h | h
      · exact set_content_other env fs archive_name n [] (fun h0 => hna_elim hnaA h0 h)
      · exact set_content_other env fs archive_name n [] (fun h0 => hna_elim hnaB h0 h))
  have hcr : create_archive env fs archive_name (A ++ B)
      = (0, set_content env fs archive_name
          (((A ++ B).map (entry_of env fs)).flatten ++ footer)) := by
    unfold create_archive fopen_w
    simp only [ha, create_archive_writable env fs archive_name A hokc, if_false, hwAB, hmapAB,
      if_true, set_content_twice]
  rw [hcr, hfsB, List.map_append, List.flatten_append]
  exact ⟨rfl, rfl⟩

theorem big4_length : big4.length = 4294967301 := by
  unfold big4
  rw [List.length_replicate]

theorem big4_take : big4.take 512 = List.replicate 512 1 := by
  unfold big4
  rw [List.take_replicate]
  rfl

theorem write_entry_wrapped (fs : FS) (rd : Bool) (d : Bytes) (hd : d.length = 4294967301)
    (hfs : fs [102] = some { st := ex_stat, content := d }) :
    write_entry ex_env fs rd [102]
      = (true, (compute_checksum ex_env
          (raw_header [102] { st := ex_stat, content := d } [117] [103])).bytes
          ++ (if rd = true then d.take 512 else d.take 5 ++ zeros 507)) := by
  have hn : ([102] : Path) ≠ [] := by decide
  have hst : stat fs [102] = some { st := ex_stat, content := d } := by
    rw [stat_of_ne_nil fs _ hn, hfs]
  have hop : fopen_r fs [102] = some { st := ex_stat, content := d } := by
    rw [fopen_r_of_ne_nil fs _ hn, hfs]
  have hsz : get_size d = 5 := by
    unfold get_size
    rw [hd]
    decide
  have hadj : i32 ((i32 (i32 ((5 : Int) + BLOCK_SIZE) - 1)).tdiv BLOCK_SIZE * BLOCK_SIZE)
      = 512 := by decide
  unfold write_entry
  rw [fill_tar_header_eq ex_env fs [102] { st := ex_stat, content := d } [117] [103] hst rfl rfl]
  simp only [hop, hsz, hadj]
  have h5 : ¬ ((5 : Int) < 0) := by decide
  have h512 : ¬ ((512 : Int) < 0) := by decide
  have t5 : (5 : Int).toNat = 5 := rfl
  have t512 : (512 : Int).toNat = 512 := rfl
  simp only [h5, h512, if_false, t5, t512]
  cases rd with
  | true =>
    simp only [if_true]
    unfold fread
    have hl : ((d.drop 0).take 512).length = 512 := by
      rw [List.drop_zero, List.length_take]
      omega
    simp only [hl]
    rw [List.drop_zero]
    have hz : (zeros 512).drop 512 = [] := by
      apply List.drop_eq_nil_of_le
      unfold zeros
      rw [List.length_replicate]
    rw [hz, List.append_nil, List.take_take]
    rfl
  | false =>
    simp only [Bool.false_eq_true, if_false]
    unfold fread
    have hl : ((d.drop 0).take 5).length = 5 := by
      rw [List.drop_zero, List.length_take]
      omega
    simp only [hl]
    rw [List.drop_zero]
    have hz : (zeros 512).drop 5 = zeros 507 := by
      unfold zeros
      rw [List.drop_replicate]
    rw [hz]
    have hlen : (d.take 5 ++ zeros 507).length = 512 := by
      rw [List.length_append, List.length_take]
      unfold zeros
      rw [List.length_replicate]
      omega
    rw [List.take_of_length_le (by omega)]

theorem create_archive_of_entries (env : Env) (fs : FS) (a : Path) (names : List Path)
    (b : Bytes) (ha : a ≠ []) (hcw : env.writable a = true)
    (hw : write_entries env (set_content env fs a []) true names = (0, b)) :
    create_archive env fs a names = (0, set_content env fs a (b ++ footer)) := by
  unfold create_archive fopen_w
  simp only [ha, hcw, if_false, hw, if_true, set_content_twice]

theorem append_of_entries (env : Env) (fs : FS) (a : Path) (files : List Path) (f : File)
    (b : Bytes) (hf : fopen_r fs a = some f)
    (hw : write_entries env (set_content env fs a (strip_footer f.content)) false files
      = (0, b)) :
    append_files_to_archive env fs a files
      = (0, set_content env fs a (strip_footer f.content ++ b ++ footer)) := by
  rw [append_eq env fs a files f hf, hw]
  simp only [if_true, set_content_twice]

theorem write_entries_single (env : Env) (fs : FS) (rd : Bool) (n : Path) (b : Bytes)
    (h : write_entry env fs rd n = (true, b)) : write_entries env fs rd [n] = (0, b) := by
  rw [write_entries_cons, h]
  simp [write_entries]

theorem append_is_create_big (d : Bytes) (hd : d.length = 4294967301)
    (h1 : d.take 512 = List.replicate 512 1) :
    (bytes_of (ex_fs_one d) [102]).length = 4294967301 ∧
    (create_archive ex_env (ex_fs_one d) [97] []).1 = 0 ∧
    (append_files_to_archive ex_env (create_archive ex_env (ex_fs_one d) [97] []).2 [97]
      [[102]]).1 = 0 ∧
    (create_archive ex_env (ex_fs_one d) [97] ([] ++ [[102]])).1 = 0 ∧
    bytes_of (append_files_to_archive ex_env (create_archive ex_env (ex_fs_one d) [97] []).2
      [97] [[102]]).2 [97]
      ≠ bytes_of (create_archive ex_env (ex_fs_one d) [97] ([] ++ [[102]])).2 [97] := by
  have hne : ([97] : Path) ≠ [] := by decide
  have hc0 := create_archive_of_entries ex_env (ex_fs_one d) [97] [] [] hne (by decide) rfl
  rw [List.nil_append] at hc0
  have hfs0 : ∀ x, set_content ex_env (ex_fs_one d) [97] x [102]
      = some { st := ex_stat, content := d } := by
    intro x
    rw [set_content_other ex_env (ex_fs_one d) [97] [102] x (by decide)]
    rfl
  have hc1 := create_archive_of_entries ex_env (ex_fs_one d) [97] [[102]] _ hne (by decide)
    (write_entries_single _ _ _ _ _ (write_entry_wrapped _ true d hd (hfs0 [])))
  obtain ⟨g, hg, hgc⟩ := fopen_r_set_content ex_env (ex_fs_one d) [97] footer hne
  have hstrip : strip_footer footer = [] := by
    have h0 := strip_footer_append []
    rwa [List.nil_append] at h0
  have ha := append_of_entries ex_env (set_content ex_env (ex_fs_one d) [97] footer) [97]
    [[102]] g _ hg
    (write_entries_single _ _ _ _ _ (write_entry_wrapped _ false d hd (by
      rw [set_content_twice]
      exact hfs0 _)))
  rw [hgc, hstrip, set_content_twice, List.nil_append] at ha
  rw [List.nil_append, hc0, hc1]
  refine ⟨?_, rfl, ?_, rfl, ?_⟩
  · have hb : bytes_of (ex_fs_one d) [102] = d := rfl
    rw [hb]
    exact hd
  · rw [ha]
  · rw [ha, set_content_same, set_content_same]
    simp only [if_true, Bool.false_eq_true, if_false]
    intro h
    have h2 := List.append_cancel_right h
    have h3 := List.append_cancel_left h2
    have h4 : (d.take 512).take 5 = d.take 5 := by
      rw [List.take_take]
      rfl
    rw [h1] at h3 h4
    rw [← h4] at h3
    revert h3
    unfold zeros
    decide

/-- C18, amended: for name lists `A` and `B` that do not name the archive, of
files smaller than 4 GiB that stay as they are, when `create_archive` with `A`
succeeds and `append_files_to_archive` with `B` on its result succeeds, then
`create_archive` with `A ++ B` succeeds as well, the archive the append leaves is
byte for byte the archive `create_archive` writes for `A ++ B`, and the two file
systems are the same. -/
theorem append_is_create (env : Env) (fs : FS) (archive_name : Path) (A B : List Path)
    (hnaA : archive_name ∉ A) (hnaB : archive_name ∉ B)
    (hsz : ∀ n ∈ A ++ B, (bytes_of fs n).length < 4294967296)
    (hokc : (create_archive env fs archive_name A).1 = 0)
    (hoka : (append_files_to_archive env (create_archive env fs archive_name A).2
      archive_name B).1 = 0) :
    (create_archive env fs archive_name (A ++ B)).1 = 0 ∧
    bytes_of (append_files_to_archive env (create_archive env fs archive_name A).2
      archive_name B).2 archive_name
      = bytes_of (create_archive env fs archive_name (A ++ B)).2 archive_name ∧
    (append_files_to_archive env (create_archive env fs archive_name A).2 archive_name B).2
      = (create_archive env fs archive_name (A ++ B)).2 :=
  have h := append_is_create_aux env fs archive_name A B hnaA hnaB hsz hokc hoka
  ⟨h.1, congrArg (fun s => bytes_of s archive_name) h.2, h.2⟩

/-- C18, witness: the archive of `[f]`, to which `[g]` is appended, against the
archive of `[f, g]`. -/
theorem append_is_create_witness :
    (create_archive ex_env ex_fs [97] ([[102]] ++ [[103]])).1 = 0 ∧
    bytes_of (append_files_to_archive ex_env (create_archive ex_env ex_fs [97] [[102]]).2
      [97] [[103]]).2 [97]
      = bytes_of (create_archive ex_env ex_fs [97] ([[102]] ++ [[103]])).2 [97] ∧
    (append_files_to_archive ex_env (create_archive ex_env ex_fs [97] [[102]]).2 [97]
      [[103]]).2
      = (create_archive ex_env ex_fs [97] ([[102]] ++ [[103]])).2 :=
  append_is_create ex_env ex_fs [97] [[102]] [[103]] (by decide) (by decide) (by decide)
    (by decide!) (by decide!)

/-- C18, counterexample. The file `f` holds 4 GiB and 5 bytes, every byte 1, and
does not change. `create_archive` with the empty list succeeds, the append of
`[f]` to its archive succeeds, `create_archive` with `[] ++ [f]` succeeds, and
the two archives differ: `get_size` returns 5 in both, the append asks `fread`
for 5 bytes and pads with zeros, the create asks for the 512 bytes of the
buffer. -/
theorem append_is_create_counterexample :
    (bytes_of (ex_fs_one big4) [102]).length = 4294967301 ∧
    (create_archive ex_env (ex_fs_one big4) [97] []).1 = 0 ∧
    (append_files_to_archive ex_env (create_archive ex_env (ex_fs_one big4) [97] []).2 [97]
      [[102]]).1 = 0 ∧
    (create_archive ex_env (ex_fs_one big4) [97] ([] ++ [[102]])).1 = 0 ∧
    bytes_of (append_files_to_archive ex_env (create_archive ex_env (ex_fs_one big4) [97] []).2
      [97] [[102]]).2 [97]
      ≠ bytes_of (create_archive ex_env (ex_fs_one big4) [97] ([] ++ [[102]])).2 [97] :=
  append_is_create_big big4 big4_length big4_take

/-! ## An archive that ends without a footer -/

theorem list_loop_mono (content : Bytes) (k : Nat) : ∀ (fuel : Nat) (fnm size : Bytes)
    (off : Int) (pos : Nat) (files : file_list_t) (r : Int × file_list_t),
    list_loop content fuel fnm size off pos files = some r →
    list_loop content (fuel + k) fnm size off pos files = some r
  | 0, _, _, _, _, _, _, h => by simp [list_loop] at h
  | fuel + 1, fnm, size, off, pos, files, r, h => by
    have e : fuel + 1 + k = (fuel + k) + 1 := by omega
    rw [e, list_loop]
    rw [list_loop] at h
    split
    · rename_i hz
      simpa only [hz, if_true] using h
    · rename_i hz
      simp only [hz, if_false] at h
      simp only []
      split
      · rename_i hs
        simpa only [hs] using h
      · rename_i v hs
        simp only [hs] at h
        exact list_loop_mono content k fuel _ _ _ _ _ r h

/-- The list pass over complete entries, as `scan_entries`, with the fact that
the name array is not all zeros after the last entry. -/
theorem scan_entries_name : ∀ (l : List (Path × Bytes)) (b : Bytes), IsEntries l b →
    (∀ x ∈ l, valid_name x.1) → (∀ x ∈ l, x.2.length + 511 < 2147483648) →
    ∀ (pre old size : Bytes) (files : file_list_t), pre.length + b.length < 2147483648 →
    old.length ≤ 100 → (l = [] → allZeros old 100 = false) →
    ∃ old' size', old'.length ≤ 100 ∧ allZeros old' 100 = false ∧ ∀ (fuel : Nat) (post : Bytes),
      scan_from (pre ++ b ++ post) (fuel + l.length) old size pre.length files
        = scan_from (pre ++ b ++ post) fuel old' size' (pre.length + b.length)
            (files ++ l.map Prod.fst)
  | [], b, h, _, _, pre, old, size, files, _, hold, hz => by
    simp only [IsEntries] at h
    subst h
    exact ⟨old, size, hold, hz rfl, fun fuel post => by simp⟩
  | (n, d) :: r, b, h, hv, hs, pre, old, size, files, hov, hold, _ => by
    obtain ⟨e, b', he, hr, rfl⟩ := h
    have hn : valid_name n := hv (n, d) (List.mem_cons_self _ _)
    have hd : d.length + 511 < 2147483648 := hs (n, d) (List.mem_cons_self _ _)
    have hnl := name_field_length n (by have := hn.2.1; omega)
    have hov' : pre.length + (e.length + b'.length) < 2147483648 := by
      rw [← List.length_append]; exact hov
    obtain ⟨old', size', hold', hz', ih⟩ := scan_entries_name r b' hr
      (fun x hx => hv x (List.mem_cons_of_mem _ hx))
      (fun x hx => hs x (List.mem_cons_of_mem _ hx)) (pre ++ e) (name_field n)
      (size_field d.length ++ size.drop 12) (files ++ [n])
      (by rw [List.length_append]; omega) (by omega) (fun _ => allZeros_name_field n hn)
    refine ⟨old', size', hold', hz', fun fuel post => ?_⟩
    have hstep := scan_step (pre ++ (e ++ b') ++ post) pre e (b' ++ post) n d
      (by simp only [List.append_assoc]) he hn hd (by omega) old size hold files
      (fuel + r.length)
    have hih := ih fuel post
    rw [List.length_append] at hih
    have e1 : pre ++ (e ++ b') ++ post = pre ++ e ++ b' ++ post := by
      simp only [List.append_assoc]
    have e2 : fuel + ((n, d) :: r).length = fuel + r.length + 1 := by
      simp only [List.length_cons]; omega
    rw [e2, hstep, e1, hih]
    simp only [List.length_append, List.map_cons, List.append_assoc, List.singleton_append,
      Nat.add_assoc]

theorem fread_at_end (content buf : Bytes) (k : Nat) :
    fread content content.length buf k = (buf, 0) := by
  unfold fread
  simp

/-- On an archive of one or more complete entries and nothing after them, the
list pass does not return the names of the entries, whatever the fuel: at the end
of the file `fread` reads nothing, the name array keeps the last name, and the
loop adds it once more. -/
theorem list_no_footer (fs : FS) (a : Path) (f : File) (l : List (Path × Bytes))
    (hf : fopen_r fs a = some f) (hl : IsEntries l f.content) (hne : l ≠ [])
    (hv : ∀ x ∈ l, valid_name x.1) (hs : ∀ x ∈ l, x.2.length + 511 < 2147483648)
    (htot : f.content.length < 2147483648) (fuel : Nat) (junk : Bytes) :
    get_archive_file_list fuel junk fs a [] ≠ some (0, l.map Prod.fst) := by
  intro h
  rw [get_archive_file_list_eq_scan fuel junk fs a [] f hf] at h
  have h' := list_loop_mono f.content l.length fuel _ _ _ _ _ _ h
  obtain ⟨old', size', _, hz, hscan⟩ := scan_entries_name l f.content hl hv hs []
    (zeros 100) junk [] (by simpa using htot) (by simp [zeros]) (fun h0 => absurd h0 hne)
  have h1 := hscan fuel []
  simp only [List.nil_append, List.length_nil, Nat.zero_add, List.append_nil] at h1
  unfold scan_from at h1
  rw [fread_at_end] at h1
  have h2 : list_loop f.content fuel old' size' (f.content.length : Int)
      (f.content.length + 0) (l.map Prod.fst) = some (0, l.map Prod.fst) := by
    rw [← h1]
    exact h'
  have := list_loop_grows f.content fuel old' size' _ _ _ _ hz h2
  omega

theorem ex_fs_cut_file : ∃ f, fopen_r ex_fs_cut [97] = some f ∧
    f.content = entry_bytes ex_env [102] { st := ex_stat, content := hello } [117] [103] :=
  ⟨{ st := ex_env.creat,
     content := entry_bytes ex_env [102] { st := ex_stat, content := hello } [117] [103] },
    by decide!, rfl⟩

theorem list_end_of_file_aux (fuel : Nat) (junk : Bytes) :
    (create_archive ex_env ex_fs [97] [[102], [109]]).1 = -1 ∧
    bytes_of ex_fs_cut [97]
      = entry_bytes ex_env [102] { st := ex_stat, content := hello } [117] [103] ∧
    IsEntries [([102], hello)] (bytes_of ex_fs_cut [97]) ∧
    get_archive_file_list fuel junk ex_fs_cut [97] [] ≠ some (0, [[102]]) ∧
    get_archive_file_list 20 [] ex_fs_cut [97] [] = none := by
  obtain ⟨f, hf, hfc⟩ := ex_fs_cut_file
  have hb : bytes_of ex_fs_cut [97]
      = entry_bytes ex_env [102] { st := ex_stat, content := hello } [117] [103] := by
    decide!
  have hie := entry_bytes_isEntry ex_env [102] { st := ex_stat, content := hello } [117] [103]
    (by decide) (by decide)
  have hl : IsEntries [([102], hello)]
      (entry_bytes ex_env [102] { st := ex_stat, content := hello } [117] [103]) :=
    ⟨_, [], hie, rfl, (List.append_nil _).symm⟩
  refine ⟨by decide!, hb, by rw [hb]; exact hl, ?_, by decide!⟩
  have hlen : f.content.length < 2147483648 := by
    rw [hfc]
    decide!
  exact list_no_footer ex_fs_cut [97] f [([102], hello)] hf (by rw [hfc]; exact hl)
    (by decide) (by decide) (by decide) hlen fuel junk

/-- C19, the code at the failing input. The archive `a` that an aborted
`create_archive` leaves holds the complete entry of `f` and no footer. On it
`get_archive_file_list` returns the names `[f]` for no amount of fuel and no
first content of the array `size`: at the end of the file `fread` reads nothing,
`file_name` keeps the name `f`, and the loop goes on; after 20 iterations it has
not returned. -/
theorem list_end_of_file (fuel : Nat) (junk : Bytes) :
    (create_archive ex_env ex_fs [97] [[102], [109]]).1 = -1 ∧
    bytes_of ex_fs_cut [97]
      = entry_bytes ex_env [102] { st := ex_stat, content := hello } [117] [103] ∧
    IsEntries [([102], hello)] (bytes_of ex_fs_cut [97]) ∧
    get_archive_file_list fuel junk ex_fs_cut [97] [] ≠ some (0, [[102]]) ∧
    get_archive_file_list 20 [] ex_fs_cut [97] [] = none :=
  list_end_of_file_aux fuel junk

/-! ## A size field that holds no number -/

theorem list_loop_next (content : Bytes) (s s' : list_state) (fuel : Nat)
    (h : list_next content s = some s') :
    list_loop content (fuel + 1) s.file_name s.size s.offset s.pos s.files
      = list_loop content fuel s'.file_name s'.size s'.offset s'.pos s'.files := by
  unfold list_next at h
  rw [list_loop]
  by_cases hz : allZeros s.file_name 100 = true
  · simp [hz] at h
  · simp only [hz, if_false] at h ⊢
    cases hs : sscanf_o (fread content (fseek_cur s.pos 24) s.size 12).1 with
    | none => simp [hs] at h
    | some v =>
      simp only [hs] at h ⊢
      have h' := Option.some.inj h
      subst h'
      rfl

theorem list_loop_iter (content : Bytes) : ∀ (k : Nat) (s s' : list_state) (fuel : Nat),
    list_iter content k s = some s' →
    list_loop content (fuel + k) s.file_name s.size s.offset s.pos s.files
      = list_loop content fuel s'.file_name s'.size s'.offset s'.pos s'.files
  | 0, s, s', fuel, h => by
    simp only [list_iter, Option.some.injEq] at h
    subst h
    rfl
  | k + 1, s, s', fuel, h => by
    rw [list_iter] at h
    cases hn : list_next content s with
    | none => simp [hn] at h
    | some t =>
      simp only [hn] at h
      have e : fuel + (k + 1) = (fuel + k) + 1 := by omega
      rw [e, list_loop_next content s t (fuel + k) hn]
      exact list_loop_iter content k t s' fuel h

theorem list_next_size_length (content : Bytes) (s s' : list_state)
    (h : list_next content s = some s') (hl : s.size.length = 12) : s'.size.length = 12 := by
  unfold list_next at h
  split at h
  · simp at h
  · simp only [] at h
    split at h
    · simp at h
    · have h' := Option.some.inj h
      subst h'
      simp only [fread, List.length_append, List.length_drop, List.length_take]
      omega

theorem list_iter_size_length (content : Bytes) : ∀ (k : Nat) (s s' : list_state),
    list_iter content k s = some s' → s.size.length = 12 → s'.size.length = 12
  | 0, s, s', h, hl => by
    simp only [list_iter, Option.some.injEq] at h
    subst h
    exact hl
  | k + 1, s, s', h, hl => by
    rw [list_iter] at h
    cases hn : list_next content s with
    | none => simp [hn] at h
    | some t =>
      simp only [hn] at h
      exact list_iter_size_length content k t s' h (list_next_size_length content s t hn hl)

theorem malformed_size_aux (fuel : Nat) (junk : Bytes) (fs : FS) (archive_name : Path)
    (files : file_list_t) (f : File) (k : Nat) (s : list_state)
    (hf : fopen_r fs archive_name = some f) (hj : junk.length = 12)
    (hreach : list_iter f.content k (list_start f.content junk files) = some s)
    (hname : allZeros s.file_name 100 = false)
    (hlen : s.pos + 36 ≤ f.content.length)
    (hbad : sscanf_o ((f.content.drop (s.pos + 24)).take 12) = none)
    (hfuel : k < fuel) :
    get_archive_file_list fuel junk fs archive_name files = some (-1, []) := by
  obtain ⟨m, rfl⟩ : ∃ m, fuel = (m + 1) + k := ⟨fuel - k - 1, by omega⟩
  have hsl := list_iter_size_length f.content k _ s hreach hj
  have h1 := list_loop_iter f.content k _ s (m + 1) hreach
  unfold get_archive_file_list
  simp only [hf]
  show list_loop f.content (m + 1 + k) (list_start f.content junk files).file_name
    (list_start f.content junk files).size (list_start f.content junk files).offset
    (list_start f.content junk files).pos (list_start f.content junk files).files = _
  rw [h1]
  have hseek : fseek_cur s.pos 24 = s.pos + 24 := by
    unfold fseek_cur
    have : (0 : Int) ≤ (s.pos : Int) + 24 := by omega
    rw [if_pos this]
    omega
  have hrd : fread f.content (fseek_cur s.pos 24) s.size 12
      = ((f.content.drop (s.pos + 24)).take 12, 12) := by
    rw [hseek]
    unfold fread
    have hl : ((f.content.drop (s.pos + 24)).take 12).length = 12 := by
      rw [List.length_take, List.length_drop]
      omega
    simp only [hl]
    have hd : s.size.drop 12 = [] := List.drop_eq_nil_of_le (by omega)
    rw [hd, List.append_nil]
  exact list_loop_bad_size f.content m s.file_name s.size _ s.offset s.pos 12 s.files hname
    hrd hbad

/-- A field from which `sscanf` converts no number is not a valid octal number
string. -/
theorem sscanf_o_octal_string (fld : Bytes) (h : octal_string fld) : sscanf_o fld ≠ none := by
  obtain ⟨hne, hd⟩ := h
  obtain ⟨c, t, hc⟩ := List.exists_cons_of_ne_nil hne
  have hcd : isodigit c = true := hd c (by rw [hc]; exact List.mem_cons_self _ _)
  have hcs : isspace c = false := by
    unfold isodigit at hcd
    unfold isspace
    simp only [Bool.and_eq_true, decide_eq_true_eq] at hcd
    simp only [Bool.or_eq_false_iff, beq_eq_false_iff_ne, ne_eq, Bool.and_eq_false_imp,
      decide_eq_true_eq, decide_eq_false_iff_not]
    omega
  have h45 : c ≠ 45 := by
    unfold isodigit at hcd
    simp only [Bool.and_eq_true, decide_eq_true_eq] at hcd
    omega
  have h43 : c ≠ 43 := by
    unfold isodigit at hcd
    simp only [Bool.and_eq_true, decide_eq_true_eq] at hcd
    omega
  unfold sscanf_o
  simp only [hc, List.dropWhile_cons, hcs, List.head?_cons]
  simp [h45, h43, List.takeWhile_cons, hcd]

/-- C12, amended: when the list pass reaches, after `k` iterations, a header
whose name array is not all zeros and whose 12-byte size field holds no number
for `sscanf` with `%o` (after white space and an optional sign no octal digit
comes before the first NUL), `get_archive_file_list` returns -1 and leaves the
list empty, given fuel above `k`. -/
theorem malformed_size (fuel : Nat) (junk : Bytes) (fs : FS) (archive_name : Path)
    (files : file_list_t) (f : File) (k : Nat) (s : list_state)
    (hf : fopen_r fs archive_name = some f) (hj : junk.length = 12)
    (hreach : list_iter f.content k (list_start f.content junk files) = some s)
    (hname : allZeros s.file_name 100 = false)
    (hlen : s.pos + 36 ≤ f.content.length)
    (hbad : sscanf_o ((f.content.drop (s.pos + 24)).take 12) = none)
    (hfuel : k < fuel) :
    get_archive_file_list fuel junk fs archive_name files = some (-1, []) :=
  malformed_size_aux fuel junk fs archive_name files f k s hf hj hreach hname hlen hbad hfuel

/-- C12, witness: the archive `ex_bad_size`; the scan reaches the header of `g`
at offset 1024 after one iteration. -/
theorem malformed_size_witness :
    get_archive_file_list 2 (zeros 12) (ex_fs_archive ex_bad_size) [97] [] = some (-1, []) :=
  malformed_size 2 (zeros 12) (ex_fs_archive ex_bad_size) [97] []
    { st := ex_stat, content := ex_bad_size } 1
    { file_name := name_field [103], size := size_field 5, offset := 1024, pos := 1124,
      files := [[102]] }
    rfl (by decide) (by decide!) (by decide) (by decide!) (by decide!) (by decide)

/-- C12, counterexample. The first header of the archive `ex_bad_octal` has the
name `f` and the size field `00000000018`, which is not an octal number string
(`8` is no octal digit). `sscanf` converts the digits before the `8`, and
`get_archive_file_list` returns 0 with the list `[f]`. -/
theorem malformed_size_counterexample :
    allZeros (ex_bad_octal.take 100) 100 = false ∧
    (ex_bad_octal.drop 124).take 12 = [48, 48, 48, 48, 48, 48, 48, 48, 48, 49, 56, 0] ∧
    ¬ octal_string ((ex_bad_octal.drop 124).take 12) ∧
    get_archive_file_list 2 (zeros 12) (ex_fs_archive ex_bad_octal) [97] []
      = some (0, [[102]]) := by
  decide!

/-! ## The two passes and the positions of the headers -/

theorem extract_loop_next (env : Env) (a n : Path) (rest : List Path) (s s' : extract_state)
    (h : extract_next env a n s = some s') :
    extract_loop env a (n :: rest) s.fs s.pos s.size
      = extract_loop env a rest s'.fs s'.pos s'.size := by
  unfold extract_next at h
  rw [extract_loop]
  cases ho : fopen_w env s.fs n with
  | none => simp [ho] at h
  | some fs1 =>
    simp only [ho] at h ⊢
    cases hs : sscanf_o (fread (bytes_of fs1 a) (fseek_cur s.pos 124) s.size 12).1 with
    | none => simp [hs] at h
    | some v =>
      simp only [hs] at h ⊢
      by_cases hneg : i32 v < 0
      · simp [hneg] at h
      · simp only [hneg, if_false] at h ⊢
        have h' := Option.some.inj h
        subst h'
        rfl

theorem extract_loop_iter (env : Env) (a : Path) : ∀ (names rest : List Path)
    (s s' : extract_state), extract_iter env a names s = some s' →
    extract_loop env a (names ++ rest) s.fs s.pos s.size
      = extract_loop env a rest s'.fs s'.pos s'.size
  | [], rest, s, s', h => by
    simp only [extract_iter, Option.some.injEq] at h
    subst h
    rfl
  | n :: names, rest, s, s', h => by
    rw [extract_iter] at h
    cases hn : extract_next env a n s with
    | none => simp [hn] at h
    | some t =>
      simp only [hn] at h
      rw [List.cons_append, extract_loop_next env a n (names ++ rest) s t hn]
      exact extract_loop_iter env a names rest t s' h

theorem list_next_stride (content : Bytes) (s s' : list_state)
    (h : list_next content s = some s') :
    ∃ v, sscanf_o (fread content (fseek_cur s.pos 24) s.size 12).1 = some v ∧
      s'.offset = i32 (s.offset + list_stride (i32 v)) := by
  unfold list_next at h
  by_cases hz : allZeros s.file_name 100 = true
  · simp [hz] at h
  · simp only [hz, if_false] at h
    cases hs : sscanf_o (fread content (fseek_cur s.pos 24) s.size 12).1 with
    | none => simp [hs] at h
    | some v =>
      simp only [hs] at h
      have h' := Option.some.inj h
      subst h'
      exact ⟨v, rfl, rfl⟩

theorem stride_eq (s : Int) (h0 : 0 ≤ s) (h : s + 1023 < 2147483648) :
    extract_move s = list_stride s ∧ list_stride s = ((s + 511) / 512 + 1) * 512 ∧
    extract_move s = 124 + 12 + (512 - 136) + s + (512 - s % 512) % 512 := by
  have h1 : i32 (i32 (s + BLOCK_SIZE) - 1) = s + 511 := by
    unfold i32 BLOCK_SIZE; omega
  have h2 : (s + 511).tdiv BLOCK_SIZE = (s + 511) / 512 :=
    Int.tdiv_eq_ediv (by omega) (by unfold BLOCK_SIZE; omega)
  have h3 : i32 ((s + 511) / 512 + 1) = (s + 511) / 512 + 1 := i32_id (by omega) (by omega)
  have h4 : i32 (((s + 511) / 512 + 1) * BLOCK_SIZE) = ((s + 511) / 512 + 1) * 512 := by
    unfold BLOCK_SIZE
    exact i32_id (by omega) (by omega)
  have h5 : s.tmod BLOCK_SIZE = s % 512 :=
    Int.tmod_eq_emod h0 (by unfold BLOCK_SIZE; omega)
  have h6 : i32 (BLOCK_SIZE - s % 512) = 512 - s % 512 := by
    unfold BLOCK_SIZE
    exact i32_id (by omega) (by omega)
  have h7 : (512 - s % 512).tmod BLOCK_SIZE = (512 - s % 512) % 512 :=
    Int.tmod_eq_emod (by omega) (by unfold BLOCK_SIZE; omega)
  have h8 : i32 ((512 - s % 512) % 512) = (512 - s % 512) % 512 :=
    i32_id (by omega) (by omega)
  have hl : list_stride s = ((s + 511) / 512 + 1) * 512 := by
    unfold list_stride
    rw [h1, h2, h3, h4]
  have he : extract_move s = 124 + 12 + (512 - 136) + s + (512 - s % 512) % 512 := by
    unfold extract_move
    rw [h5, h6, h7, h8]
  refine ⟨?_, hl, he⟩
  rw [hl, he]
  omega

theorem list_next_entry (content pre e post : Bytes) (n : Path) (data : Bytes)
    (hc : content = pre ++ e ++ post) (he : IsEntry n data e) (hn : valid_name n)
    (hs : data.length + 511 < 2147483648) (hov : pre.length + e.length < 2147483648)
    (old size : Bytes) (hold : old.length ≤ 100) (files : file_list_t) :
    list_next content (at_header content pre.length old size files)
      = some (at_header content (pre.length + e.length) (name_field n)
          (size_field data.length ++ size.drop 12) (files ++ [n])) := by
  have hnl := name_field_length n (by have := hn.2.1; omega)
  have hel := isEntry_length n data e he (by have := hn.2.1; omega)
  have hrd : fread content pre.length old 100 = (name_field n, 100) := by
    obtain ⟨g1, g2, hg1, hg2, _, rfl⟩ := he
    apply fread_full_shape content pre (name_field n)
      (g1 ++ size_field data.length ++ g2 ++ data ++ zeros (pad_len data.length) ++ post)
    · rw [hc]; simp only [List.append_assoc]
    · rfl
    · rw [hnl]
    · exact hold
  have hoff : i32 ((pre.length : Int) + i32 ((entry_len data.length : Nat) : Int))
      = ((pre.length + e.length : Nat) : Int) := by
    rw [← hel]
    have h1 : i32 ((e.length : Nat) : Int) = (e.length : Int) := i32_id (by omega) (by omega)
    rw [h1, i32_id (by omega) (by omega)]
    push_cast
    rfl
  have hset : fseek_set (pre.length + 124 + 12) ((pre.length + e.length : Nat) : Int)
      = pre.length + e.length := by
    unfold fseek_set
    rw [if_pos (by omega)]
    omega
  have hseek : fseek_cur (pre.length + 100) 24 = pre.length + 124 := by
    unfold fseek_cur
    have : (0 : Int) ≤ ((pre.length + 100 : Nat) : Int) + 24 := by omega
    rw [if_pos this]
    omega
  have hrd2 : fread content (pre.length + 124) size 12
      = (size_field data.length ++ size.drop 12, 12) := by
    obtain ⟨g1, g2, hg1, hg2, _, rfl⟩ := he
    apply fread_at_shape content (pre ++ name_field n ++ g1) (size_field data.length)
      (g2 ++ data ++ zeros (pad_len data.length) ++ post)
    · rw [hc]; simp only [List.append_assoc]
    · simp only [List.length_append, hnl, hg1]
    · rw [size_field_length]
  have hscan : sscanf_o (size_field data.length ++ size.drop 12) = some (data.length : Int) := by
    have hne : fmt_o 11 data.length ≠ [] := by
      intro h0
      have := fmt_o_length_11 data.length
      rw [h0] at this
      simp at this
    have := sscanf_o_digits (fmt_o 11 data.length) (size.drop 12) hne
      (fun d hd => fmt_o_digit 11 _ d hd)
    rw [fmt_o_val 11 _ (by norm_num; omega)] at this
    unfold size_field
    simpa using this
  unfold list_next at_header
  rw [hrd]
  simp only [allZeros_name_field n hn, cstr_name_field n hn, hseek, hrd2, hscan,
    block_num_eq data.length hs, file_list_add, Bool.false_eq_true, if_false, hoff, hset]

theorem list_iter_entries (content : Bytes) : ∀ (l : List (Path × Bytes)) (b : Bytes),
    IsEntries l b → (∀ x ∈ l, valid_name x.1) → (∀ x ∈ l, x.2.length + 511 < 2147483648) →
    ∀ (pre post old size : Bytes) (files : file_list_t), content = pre ++ b ++ post →
    pre.length + b.length < 2147483648 → old.length ≤ 100 →
    ∃ old' size', old'.length ≤ 100 ∧
      list_iter content l.length (at_header content pre.length old size files)
        = some (at_header content (pre.length + b.length) old' size' (files ++ l.map Prod.fst))
  | [], b, h, _, _, pre, post, old, size, files, _, _, hold => by
    simp only [IsEntries] at h
    subst h
    exact ⟨old, size, hold, by simp [list_iter]⟩
  | (n, d) :: r, b, h, hv, hs, pre, post, old, size, files, hc, hov, hold => by
    obtain ⟨e, b', he, hr, rfl⟩ := h
    have hn : valid_name n := hv (n, d) (List.mem_cons_self _ _)
    have hd : d.length + 511 < 2147483648 := hs (n, d) (List.mem_cons_self _ _)
    have hnl := name_field_length n (by have := hn.2.1; omega)
    rw [List.length_append] at hov
    obtain ⟨old', size', hold', ih⟩ := list_iter_entries content r b' hr
      (fun x hx => hv x (List.mem_cons_of_mem _ hx))
      (fun x hx => hs x (List.mem_cons_of_mem _ hx)) (pre ++ e) post (name_field n)
      (size_field d.length ++ size.drop 12) (files ++ [n])
      (by rw [hc]; simp only [List.append_assoc])
      (by rw [List.length_append]; omega) (by omega)
    refine ⟨old', size', hold', ?_⟩
    have hstep := list_next_entry content pre e (b' ++ post) n d
      (by rw [hc]; simp only [List.append_assoc]) he hn hd (by omega) old size hold files
    rw [List.length_append] at ih
    simp only [List.length_cons, list_iter, hstep, ih, List.length_append, List.map_cons,
      List.append_assoc, List.singleton_append, Nat.add_assoc]

theorem extract_next_entry (env : Env) (a n : Path) (fs : FS)
    (pre e post data size : Bytes) (hna : n ≠ a) (hn : valid_name n)
    (hcw : env.writable n = true)
    (hc : bytes_of fs a = pre ++ e ++ post) (he : IsEntry n data e)
    (hs : data.length < 2147483648) :
    extract_next env a n { fs := fs, pos := pre.length, size := size }
      = some { fs := set_content env fs n data, pos := pre.length + e.length,
               size := size_field data.length ++ size.drop 12 } := by
  have hnl := name_field_length n (by have := hn.2.1; omega)
  have hel := isEntry_length n data e he (by have := hn.2.1; omega)
  obtain ⟨g1, g2, hg1, hg2, _, rfl⟩ := he
  have hc1 : bytes_of (set_content env fs n []) a
      = pre ++ (name_field n ++ g1 ++ size_field data.length ++ g2 ++ data
          ++ zeros (pad_len data.length)) ++ post := by
    rw [bytes_of_set_content_other env fs n a [] (Ne.symm hna), hc]
  have hopen : fopen_w env fs n = some (set_content env fs n []) := by
    simp [fopen_w, hn.1, hcw]
  have hseek1 : fseek_cur pre.length 124 = pre.length + 124 := by
    unfold fseek_cur
    rw [if_pos (by omega)]
    omega
  have hrd1 : fread (bytes_of (set_content env fs n []) a) (pre.length + 124) size 12
      = (size_field data.length ++ size.drop 12, 12) := by
    apply fread_at_shape _ (pre ++ name_field n ++ g1) (size_field data.length)
      (g2 ++ data ++ zeros (pad_len data.length) ++ post)
    · rw [hc1]; simp only [List.append_assoc]
    · simp only [List.length_append, hnl, hg1]
    · rw [size_field_length]
  have hscan : sscanf_o (size_field data.length ++ size.drop 12) = some (data.length : Int) := by
    have hne : fmt_o 11 data.length ≠ [] := by
      intro h0
      have := fmt_o_length_11 data.length
      rw [h0] at this
      simp at this
    have := sscanf_o_digits (fmt_o 11 data.length) (size.drop 12) hne
      (fun d hd => fmt_o_digit 11 _ d hd)
    rw [fmt_o_val 11 _ (by norm_num; omega)] at this
    unfold size_field
    simpa using this
  have hi : i32 (data.length : Int) = (data.length : Int) := i32_id (by omega) (by omega)
  have hseek2 : fseek_cur (pre.length + 124 + 12) (512 - 136) = pre.length + 512 := by
    unfold fseek_cur
    rw [if_pos (by omega)]
    omega
  have hrd2 : fread (bytes_of (set_content env fs n []) a) (pre.length + 512)
      (zeros data.length) data.length = (data, data.length) := by
    apply fread_full_shape _ (pre ++ name_field n ++ g1 ++ size_field data.length ++ g2) data
      (zeros (pad_len data.length) ++ post)
    · rw [hc1]; simp only [List.append_assoc]
    · simp only [List.length_append, hnl, hg1, hg2, size_field_length]
    · rfl
    · simp [zeros]
  have hpad := extract_pad_eq data.length hs
  rw [hi] at hpad
  have hseek3 : fseek_cur (pre.length + 512 + data.length) ((pad_len data.length : Nat) : Int)
      = pre.length + (name_field n ++ g1 ++ size_field data.length ++ g2 ++ data
          ++ zeros (pad_len data.length)).length := by
    unfold fseek_cur
    rw [if_pos (by omega), hel, ← entry_len_eq]
    omega
  have hnn : ¬ ((data.length : Int) < 0) := by omega
  unfold extract_next
  simp only [hopen, hseek1, hrd1, hscan, hi, hseek2, hnn, if_false, Int.toNat_ofNat, hrd2,
    List.take_length, hpad, hseek3, set_content_twice]

theorem extract_iter_entries (env : Env) (a : Path) : ∀ (l : List (Path × Bytes)) (b : Bytes),
    IsEntries l b → (∀ x ∈ l, valid_name x.1) → (∀ x ∈ l, x.2.length < 2147483648) →
    (∀ x ∈ l, x.1 ≠ a) → (∀ x ∈ l, env.writable x.1 = true) →
    ∀ (fs : FS) (pre post size : Bytes),
    bytes_of fs a = pre ++ b ++ post →
    ∃ size', extract_iter env a (l.map Prod.fst) { fs := fs, pos := pre.length, size := size }
      = some { fs := extracted env fs l, pos := pre.length + b.length, size := size' }
  | [], b, h, _, _, _, _, fs, pre, post, size, _ => by
    simp only [IsEntries] at h
    subst h
    exact ⟨size, by simp [extract_iter, extracted]⟩
  | (n, d) :: r, b, h, hv, hs, hna, hcw, fs, pre, post, size, hc => by
    obtain ⟨e, b', he, hr, rfl⟩ := h
    have hn : valid_name n := hv (n, d) (List.mem_cons_self _ _)
    have hd : d.length < 2147483648 := hs (n, d) (List.mem_cons_self _ _)
    have hne : n ≠ a := hna (n, d) (List.mem_cons_self _ _)
    have hstep := extract_next_entry env a n fs pre e (b' ++ post) d size hne hn
      (hcw (n, d) (List.mem_cons_self _ _))
      (by rw [hc]; simp only [List.append_assoc]) he hd
    have hc' : bytes_of (set_content env fs n d) a = (pre ++ e) ++ b' ++ post := by
      rw [bytes_of_set_content_other env fs n a d (Ne.symm hne), hc]
      simp only [List.append_assoc]
    obtain ⟨size', ih⟩ := extract_iter_entries env a r b' hr
      (fun x hx => hv x (List.mem_cons_of_mem _ hx))
      (fun x hx => hs x (List.mem_cons_of_mem _ hx))
      (fun x hx => hna x (List.mem_cons_of_mem _ hx))
      (fun x hx => hcw x (List.mem_cons_of_mem _ hx)) (set_content env fs n d) (pre ++ e) post
      (size_field d.length ++ size.drop 12) hc'
    rw [List.length_append] at ih
    refine ⟨size', ?_⟩
    simp only [List.map_cons, extract_iter, hstep, ih, List.length_append, Nat.add_assoc]
    rfl

theorem isEntries_take : ∀ (l : List (Path × Bytes)) (b : Bytes) (k : Nat), IsEntries l b →
    ∃ b1 b2, b = b1 ++ b2 ∧ IsEntries (l.take k) b1
  | l, b, 0, _ => ⟨[], b, rfl, by simp [IsEntries]⟩
  | [], b, k + 1, h => by
    simp only [IsEntries] at h
    subst h
    exact ⟨[], [], rfl, by simp [IsEntries]⟩
  | (n, d) :: r, b, k + 1, h => by
    obtain ⟨e, b', he, hr, rfl⟩ := h
    obtain ⟨b1, b2, hb, h1⟩ := isEntries_take r b' k hr
    refine ⟨e ++ b1, b2, by rw [hb, List.append_assoc], ?_⟩
    exact ⟨e, b1, he, h1, rfl⟩

theorem passes_agree_aux (env : Env) (fs : FS) (archive_name : Path) (f : File)
    (l : List (Path × Bytes)) (b post junk1 junk2 : Bytes) (k : Nat)
    (hf : fopen_r fs archive_name = some f) (hc : f.content = b ++ post)
    (hl : IsEntries l b) (hv : ∀ x ∈ l, valid_name x.1)
    (hs : ∀ x ∈ l, x.2.length + 511 < 2147483648) (htot : b.length < 2147483648)
    (hna : ∀ x ∈ l, x.1 ≠ archive_name) :
    ∃ s : list_state,
      list_iter f.content (l.take k).length (list_start f.content junk1 []) = some s ∧
      s.offset = ((((l.take k).map (fun x => entry_len x.2.length)).sum : Nat) : Int) ∧
      s.pos = ((l.take k).map (fun x => entry_len x.2.length)).sum
        + min 100 (f.content.length - ((l.take k).map (fun x => entry_len x.2.length)).sum) ∧
      ((∀ x ∈ l.take k, env.writable x.1 = true) →
        ∃ t : extract_state,
          extract_iter env archive_name ((l.take k).map Prod.fst)
            { fs := fs, pos := 0, size := junk2 } = some t ∧
          s.offset = (t.pos : Int) ∧
          s.pos = t.pos + min 100 (f.content.length - t.pos) ∧
          t.pos = ((l.take k).map (fun x => entry_len x.2.length)).sum) := by
  have ha : archive_name ≠ [] := by
    intro h0
    simp [fopen_r, h0] at hf
  have hfa : fs archive_name = some f := by rw [← fopen_r_of_ne_nil fs archive_name ha, hf]
  have hbytes : bytes_of fs archive_name = f.content := bytes_of_eq fs archive_name f hfa
  obtain ⟨b1, b2, hb, h1⟩ := isEntries_take l b k hl
  have hsub : ∀ x ∈ l.take k, x ∈ l := fun x hx => List.mem_of_mem_take hx
  have hlen := isEntries_length (l.take k) b1 h1
    (fun x hx => by have := (hv x (hsub x hx)).2.1; omega)
  have hb1 : b1.length < 2147483648 := by
    have : b.length = b1.length + b2.length := by rw [hb, List.length_append]
    omega
  obtain ⟨old', size', _, hli⟩ := list_iter_entries f.content (l.take k) b1 h1
    (fun x hx => hv x (hsub x hx)) (fun x hx => hs x (hsub x hx)) [] (b2 ++ post)
    (zeros 100) junk1 []
    (by rw [hc, hb]; simp only [List.nil_append, List.append_assoc])
    (by simpa using hb1) (by simp [zeros])
  have hstart : list_start f.content junk1 [] = at_header f.content 0 (zeros 100) junk1 [] := by
    unfold list_start at_header
    simp only [Nat.zero_add, Nat.cast_zero]
  simp only [List.length_nil, Nat.zero_add, List.nil_append] at hli
  have hpos : b1.length + (fread f.content b1.length old' 100).2
      = b1.length + min 100 (f.content.length - b1.length) := by
    unfold fread
    simp only [List.length_take, List.length_drop]
  rw [← hlen]
  refine ⟨_, by rw [hstart]; exact hli, rfl, hpos, ?_⟩
  intro hcw
  obtain ⟨size2, hei⟩ := extract_iter_entries env archive_name (l.take k) b1 h1
    (fun x hx => hv x (hsub x hx))
    (fun x hx => by have := hs x (hsub x hx); omega)
    (fun x hx => hna x (hsub x hx)) hcw fs [] (b2 ++ post) junk2
    (by rw [hbytes, hc, hb]; simp only [List.nil_append, List.append_assoc])
  simp only [List.length_nil, Nat.zero_add] at hei
  exact ⟨_, hei, rfl, hpos, rfl⟩

/-- C20, amended: for every parsed size `s` with `0 ≤ s` and `s + 1023 < 2^31`
the number of bytes the extract pass moves from one header to the next,
`124 + 12 + (512 - 136) + s + (512 - s mod 512) mod 512`, equals the stride
`((s + 511) / 512 + 1) * 512` the list pass adds to `offset`. And on an archive
that starts with complete entries of less than 2^31 bytes in total, whose names
are valid and are not the archive, after the first `k` entries both passes are
at the same header offset, the sum of the lengths of these entries: the list pass
has this value in `offset` and has read the name field there, and the extract
pass has its stream there when `fopen` with mode `w` has succeeded for the first
`k` names (a failed `fopen` ends the extract pass where it is). -/
theorem passes_agree (env : Env) (fs : FS) (archive_name : Path) (f : File)
    (l : List (Path × Bytes)) (b post junk1 junk2 : Bytes) (k : Nat)
    (hf : fopen_r fs archive_name = some f) (hc : f.content = b ++ post)
    (hl : IsEntries l b) (hv : ∀ x ∈ l, valid_name x.1)
    (hs : ∀ x ∈ l, x.2.length + 511 < 2147483648) (htot : b.length < 2147483648)
    (hna : ∀ x ∈ l, x.1 ≠ archive_name) :
    (∀ s : Int, 0 ≤ s → s + 1023 < 2147483648 →
      extract_move s = list_stride s ∧ list_stride s = ((s + 511) / 512 + 1) * 512 ∧
      extract_move s = 124 + 12 + (512 - 136) + s + (512 - s % 512) % 512) ∧
    ∃ s : list_state,
      list_iter f.content (l.take k).length (list_start f.content junk1 []) = some s ∧
      s.offset = ((((l.take k).map (fun x => entry_len x.2.length)).sum : Nat) : Int) ∧
      s.pos = ((l.take k).map (fun x => entry_len x.2.length)).sum
        + min 100 (f.content.length - ((l.take k).map (fun x => entry_len x.2.length)).sum) ∧
      ((∀ x ∈ l.take k, env.writable x.1 = true) →
        ∃ t : extract_state,
          extract_iter env archive_name ((l.take k).map Prod.fst)
            { fs := fs, pos := 0, size := junk2 } = some t ∧
          s.offset = (t.pos : Int) ∧
          s.pos = t.pos + min 100 (f.content.length - t.pos) ∧
          t.pos = ((l.take k).map (fun x => entry_len x.2.length)).sum) :=
  ⟨stride_eq, passes_agree_aux env fs archive_name f l b post junk1 junk2 k hf hc hl hv hs htot
    hna⟩

/-- C20, witness: the archive `a` holding the entries of `f` and `g` and the
footer; after two entries both passes are at the offset 1536. -/
theorem passes_agree_witness :
    (∀ s : Int, 0 ≤ s → s + 1023 < 2147483648 →
      extract_move s = list_stride s ∧ list_stride s = ((s + 511) / 512 + 1) * 512 ∧
      extract_move s = 124 + 12 + (512 - 136) + s + (512 - s % 512) % 512) ∧
    ∃ (s : list_state) (t : extract_state),
      list_iter (ex_two ++ footer) (([([102], hello), ([103], [])] : List (Path × Bytes)).take
        2).length (list_start (ex_two ++ footer) (zeros 12) []) = some s ∧
      extract_iter ex_env [97] ((([([102], hello), ([103], [])] : List (Path × Bytes)).take
        2).map Prod.fst)
        { fs := ex_fs_archive (ex_two ++ footer), pos := 0, size := zeros 12 } = some t ∧
      s.offset = (t.pos : Int) ∧
      s.pos = t.pos + min 100 ((ex_two ++ footer).length - t.pos) ∧
      t.pos = ((([([102], hello), ([103], [])] : List (Path × Bytes)).take 2).map
        (fun x => entry_len x.2.length)).sum := by
  obtain ⟨h1, s, h2, h3, h4, h5⟩ := passes_agree ex_env (ex_fs_archive (ex_two ++ footer)) [97]
    { st := ex_stat, content := ex_two ++ footer } [([102], hello), ([103], [])] ex_two footer
    (zeros 12) (zeros 12) 2 rfl rfl
    ⟨entry_bytes ex_env [102] { st := ex_stat, content := hello } [117] [103],
      entry_bytes ex_env [103] { st := ex_stat, content := [] } [117] [103] ++ [],
      entry_bytes_isEntry ex_env [102] { st := ex_stat, content := hello } [117] [103]
        (by decide) (by decide),
      ⟨entry_bytes ex_env [103] { st := ex_stat, content := [] } [117] [103], [],
        entry_bytes_isEntry ex_env [103] { st := ex_stat, content := [] } [117] [103]
          (by decide) (by decide),
        rfl, rfl⟩,
      rfl⟩
    (by decide) (by decide) (by decide!) (by decide)
  obtain ⟨t, h6, h7, h8, h9⟩ := h5 (by decide)
  exact ⟨h1, s, t, h2, h6, h7, h8, h9⟩

/-- C20, counterexample. For the parsed size `s = 2^31 - 1023`, inside the range
of the claim, the extract pass moves 2^31 bytes, while the product
`block_num * BLOCK_SIZE` of the list pass does not fit an `int`: the stride the
list pass adds to `offset` is -2^31. And for two entries of one GiB of content
each, where the two strides agree, the sum `offset += ...` of the list pass
after the second entry does not fit an `int` either: `offset` is negative, while
the extract pass is at 2^31 + 1024. -/
theorem passes_agree_counterexample :
    (0 : Int) ≤ 2147482625 ∧ (2147482625 : Int) < 2147483648 - 511 ∧
    124 + 12 + (512 - 136) + (2147482625 : Int) + (512 - 2147482625 % 512) % 512 = 2147483648 ∧
    extract_move 2147482625 = 2147483648 ∧
    list_stride 2147482625 = -2147483648 ∧
    extract_move 2147482625 ≠ list_stride 2147482625 ∧
    extract_move 1073741824 = list_stride 1073741824 ∧
    1073742336 + extract_move 1073741824 = 2147484672 ∧
    i32 (1073742336 + list_stride 1073741824) = -2147482624 := by
  decide

/-! ## The name field -/

theorem strncpy_take (n : Path) :
    strncpy (zeros 100) n 100
      = n.take 100 ++ List.replicate (100 - (n.take 100).length) 0 := by
  unfold strncpy zeros
  have h1 : (List.replicate 100 0 : Bytes).drop 100 = [] := by
    apply List.drop_eq_nil_of_le
    rw [List.length_replicate]
  have h2 : 100 - (n.take 100).length = 100 - n.length := by
    rw [List.length_take]
    omega
  rw [h1, h2, List.append_nil]

theorem header_name (env : Env) (fs : FS) (n : Path) (h : tar_header)
    (hh : fill_tar_header env fs n = some h) : h.name = strncpy (zeros 100) n 100 := by
  obtain ⟨f, pw, gr, _, _, _, rfl⟩ := fill_tar_header_some env fs n h hh
  rw [(compute_checksum_fields env (raw_header n f pw gr)).1]
  rfl

theorem name_truncation_aux (env : Env) (fs : FS) (n : Path) (h : tar_header)
    (hh : fill_tar_header env fs n = some h) :
    h.name = n.take (min n.length 100) ++ List.replicate (100 - min n.length 100) 0 ∧
    h.name.length = 100 ∧ h.bytes.take 100 = h.name ∧
    (100 ≤ n.length → (∀ b ∈ n, b ≠ 0) → ∀ b ∈ h.name, b ≠ 0) ∧
    (∀ (env2 : Env) (fs2 : FS) (n2 : Path) (h2 : tar_header),
      fill_tar_header env2 fs2 n2 = some h2 → n2.take 100 = n.take 100 → h2.name = h.name) := by
  have hn := header_name env fs n h hh
  have ht := strncpy_take n
  have hlen : h.name.length = 100 := by
    rw [hn, ht, List.length_append, List.length_replicate, List.length_take]
    omega
  refine ⟨?_, hlen, ?_, ?_, ?_⟩
  · rw [hn, ht, List.length_take]
    have e1 : n.take (min n.length 100) = n.take 100 := by
      by_cases hl : n.length ≤ 100
      · rw [Nat.min_eq_left hl, List.take_of_length_le hl, List.take_of_length_le (le_refl _)]
      · rw [Nat.min_eq_right (by omega)]
    rw [e1, Nat.min_comm]
  · rw [tar_header_bytes_split]
    simp only [List.append_assoc]
    rw [List.take_append_of_le_length (by omega), List.take_of_length_le (by omega)]
  · intro h100 hnz b hb
    rw [hn, ht] at hb
    have hz : 100 - (n.take 100).length = 0 := by
      rw [List.length_take]
      omega
    rw [hz, List.replicate_zero, List.append_nil] at hb
    exact hnz b (List.mem_of_mem_take hb)
  · intro env2 fs2 n2 h2 hh2 hsame
    rw [header_name env2 fs2 n2 h2 hh2, hn, strncpy_take n2, ht, hsame]

/-- C22. Name field truncation: for every file name for which `fill_tar_header`
succeeds, the name field of the header, the first 100 bytes of the 512, holds
the first `min(len, 100)` bytes of the name followed by zero bytes up to 100; a
name of 100 bytes or more (a C string: no byte of it is NUL) is stored with no
NUL in the field, and every name with the same first 100 bytes gets the same
name field. -/
theorem name_truncation (env : Env) (fs : FS) (n : Path) (h : tar_header)
    (hh : fill_tar_header env fs n = some h) :
    h.name = n.take (min n.length 100) ++ List.replicate (100 - min n.length 100) 0 ∧
    h.name.length = 100 ∧ h.bytes.take 100 = h.name ∧
    (100 ≤ n.length → (∀ b ∈ n, b ≠ 0) → ∀ b ∈ h.name, b ≠ 0) ∧
    (∀ (env2 : Env) (fs2 : FS) (n2 : Path) (h2 : tar_header),
      fill_tar_header env2 fs2 n2 = some h2 → n2.take 100 = n.take 100 → h2.name = h.name) :=
  name_truncation_aux env fs n h hh

/-- C22, witness: the two names of 101 bytes `long_b` and `long_c`, which differ
in their last byte, get the same name field, a hundred times `a` and no NUL. -/
theorem name_truncation_witness :
    long_b ≠ long_c ∧
    ∃ h h2, fill_tar_header ex_env ex_fs_long long_b = some h ∧
      fill_tar_header ex_env ex_fs_long long_c = some h2 ∧
      h.name = long_b.take (min long_b.length 100)
        ++ List.replicate (100 - min long_b.length 100) 0 ∧
      h.name = List.replicate 100 97 ∧ (∀ b ∈ h.name, b ≠ 0) ∧ h2.name = h.name :=
  have hh : fill_tar_header ex_env ex_fs_long long_b
      = some (compute_checksum ex_env (raw_header long_b { st := ex_stat, content := hello }
        [117] [103])) := by decide!
  have hh2 : fill_tar_header ex_env ex_fs_long long_c
      = some (compute_checksum ex_env (raw_header long_c { st := ex_stat, content := [] }
        [117] [103])) := by decide!
  have t := name_truncation ex_env ex_fs_long long_b _ hh
  ⟨by decide, _, _, hh, hh2, t.1, by rw [t.1]; decide, t.2.2.2.1 (by decide) (by decide),
    t.2.2.2.2 ex_env ex_fs_long long_c _ hh2 (by decide)⟩

/-! ## Several entries with one name -/

theorem extracted_append (env : Env) (fs : FS) (l1 l2 : List (Path × Bytes)) :
    extracted env fs (l1 ++ l2) = extracted env (extracted env fs l1) l2 := by
  unfold extracted
  rw [List.foldl_append]

theorem extracted_last (env : Env) (fs : FS) (l1 l2 : List (Path × Bytes)) (n : Path)
    (d : Bytes) (h2 : ∀ x ∈ l2, x.1 ≠ n) :
    ∃ g, extracted env fs (l1 ++ (n, d) :: l2) n = some g ∧ g.content = d := by
  rw [extracted_append]
  show ∃ g, extracted env (set_content env (extracted env fs l1) n d) l2 n = some g ∧ _
  rw [extracted_other env l2 _ n h2]
  unfold set_content
  simp only [if_true]
  exact ⟨_, rfl, rfl⟩

theorem last_entry_wins_aux (fuel : Nat) (junk1 junk2 : Bytes) (env : Env) (fs : FS)
    (archive_name : Path) (f : File) (l : List (Path × Bytes)) (b : Bytes)
    (hf : fopen_r fs archive_name = some f) (hc : f.content = b ++ footer)
    (hl : IsEntries l b) (hv : ∀ x ∈ l, valid_name x.1)
    (hs : ∀ x ∈ l, x.2.length + 511 < 2147483648) (hna : ∀ x ∈ l, x.1 ≠ archive_name)
    (hcw : ∀ x ∈ l, env.writable x.1 = true)
    (htot : b.length < 2147483648) (hfuel : l.length < fuel) :
    ∃ fs2, extract_files_from_archive fuel junk1 junk2 env fs archive_name = some (0, fs2) ∧
      ∀ (l1 l2 : List (Path × Bytes)) (n : Path) (d : Bytes), l = l1 ++ (n, d) :: l2 →
        (∀ x ∈ l2, x.1 ≠ n) → ∃ g, fs2 n = some g ∧ g.content = d := by
  refine ⟨extracted env fs l,
    extract_of_entries fuel junk1 junk2 env fs archive_name f l b hf hc hl hv hs hna hcw htot
      hfuel,
    ?_⟩
  intro l1 l2 n d hl12 h2
  rw [hl12]
  exact extracted_last env fs l1 l2 n d h2

/-- C21, amended: for every archive made of complete entries followed by the
footer, whose names are non-empty C strings shorter than 100 bytes, under which
a file can be created (`fopen` with mode `w` succeeds), plain names of the
working directory (no `/`, so that two names are two files) and not the archive
itself, whose contents are below 2^31 - 511 bytes and whose entries total less
than 2^31 bytes,
`extract_files_from_archive` returns 0, given fuel above the number of entries,
and leaves under every name the content of the last entry with that name in
archive order, also when several entries have the name. -/
theorem last_entry_wins (fuel : Nat) (junk1 junk2 : Bytes) (env : Env) (fs : FS)
    (archive_name : Path) (f : File) (l : List (Path × Bytes)) (b : Bytes)
    (hf : fopen_r fs archive_name = some f) (hc : f.content = b ++ footer)
    (hl : IsEntries l b) (hv : ∀ x ∈ l, valid_name x.1)
    (hs : ∀ x ∈ l, x.2.length + 511 < 2147483648) (hna : ∀ x ∈ l, x.1 ≠ archive_name)
    (hcw : ∀ x ∈ l, env.writable x.1 = true)
    (_hplain : ∀ x ∈ l, 47 ∉ x.1)
    (htot : b.length < 2147483648) (hfuel : l.length < fuel) :
    ∃ fs2, extract_files_from_archive fuel junk1 junk2 env fs archive_name = some (0, fs2) ∧
      ∀ (l1 l2 : List (Path × Bytes)) (n : Path) (d : Bytes), l = l1 ++ (n, d) :: l2 →
        (∀ x ∈ l2, x.1 ≠ n) → ∃ g, fs2 n = some g ∧ g.content = d :=
  last_entry_wins_aux fuel junk1 junk2 env fs archive_name f l b hf hc hl hv hs hna hcw htot
    hfuel

/-- C21, witness: the archive `a` holds an entry of `f` with the content `hello`
and then an entry of `f` with the content `hi`; after the extraction `f` holds
`hi`. -/
theorem last_entry_wins_witness :
    ∃ fs2, extract_files_from_archive 3 (zeros 12) (zeros 12) ex_env
        (ex_fs_archive (ex_twice ++ footer)) [97] = some (0, fs2) ∧
      ∃ g, fs2 [102] = some g ∧ g.content = [104, 105] := by
  obtain ⟨fs2, h1, h2⟩ := last_entry_wins 3 (zeros 12) (zeros 12) ex_env
    (ex_fs_archive (ex_twice ++ footer)) [97] { st := ex_stat, content := ex_twice ++ footer }
    [([102], hello), ([102], [104, 105])] ex_twice rfl rfl
    ⟨entry_bytes ex_env [102] { st := ex_stat, content := hello } [117] [103],
      entry_bytes ex_env [102] { st := ex_stat, content := [104, 105] } [117] [103] ++ [],
      entry_bytes_isEntry ex_env [102] { st := ex_stat, content := hello } [117] [103]
        (by decide) (by decide),
      ⟨entry_bytes ex_env [102] { st := ex_stat, content := [104, 105] } [117] [103], [],
        entry_bytes_isEntry ex_env [102] { st := ex_stat, content := [104, 105] } [117] [103]
          (by decide) (by decide),
        rfl, rfl⟩,
      rfl⟩
    (by decide) (by decide) (by decide) (by decide) (by decide) (by decide!) (by decide)
  exact ⟨fs2, h1, h2 [([102], hello)] [] [102] [104, 105] rfl (by simp)⟩

/-- The list pass on two entries of one GiB of content each, written on the
example platform: it returns -1 once it has fuel for three iterations, and does
not return with less. -/
theorem list_two_big (d : Bytes) (hd : d.length = 1073741824) (n1 n2 : Path)
    (hn1 : valid_name n1) (hn2 : valid_name n2) (post : Bytes) (fuel : Nat) (junk : Bytes) :
    scan_from (entry_bytes ex_env n1 { st := ex_stat, content := d } [117] [103]
        ++ entry_bytes ex_env n2 { st := ex_stat, content := d } [117] [103] ++ post)
      fuel (zeros 100) junk 0 []
      = if fuel ≤ 2 then none else some (-1, []) := by
  have hie : IsEntry n1 d (entry_bytes ex_env n1 { st := ex_stat, content := d } [117] [103]) :=
    entry_bytes_isEntry ex_env n1 { st := ex_stat, content := d } [117] [103]
      (by have := hn1.2.1; omega) (by show d.length < 4294967296; omega)
  have hlen := isEntry_length _ _ _ hie (by have := hn1.2.1; omega)
  rw [hd] at hlen
  have hel : entry_len 1073741824 = 1073742336 := by decide
  rw [hel] at hlen
  have hsplit := entry_bytes_split ex_env n2 { st := ex_stat, content := d } [117] [103]
    (by have := hn2.2.1; omega) (by show d.length < 4294967296; omega)
  rw [hsplit]
  obtain ⟨G, R, hG, hGl⟩ := hdr_tail_split n2 { st := ex_stat, content := d }
  have hg1 := (raw_header_lengths n2 { st := ex_stat, content := d } [117] [103]).1
  have hg2 := (raw_header_lengths n2 { st := ex_stat, content := d } [117] [103]).2 ex_env
  have hgh := raw_header_tail_head ex_env n2 { st := ex_stat, content := d } [117] [103]
  generalize hdr_tail (compute_checksum ex_env
    (raw_header n2 { st := ex_stat, content := d } [117] [103])) = g2 at hG hg2 hgh ⊢
  generalize hdr_mid (raw_header n2 { st := ex_stat, content := d } [117] [103]) = g1
    at hg1 ⊢
  generalize entry_bytes ex_env n1 { st := ex_stat, content := d } [117] [103] = e1
    at hie hlen ⊢
  have hdl : ({ st := ex_stat, content := d } : File).content = d := rfl
  rw [hdl]
  match fuel with
  | 0 => simp [scan_from, list_loop]
  | 1 =>
    have s1 := scan_step (e1 ++ (name_field n2 ++ g1 ++ size_field d.length ++ g2 ++ d
        ++ zeros (pad_len d.length)) ++ post) [] e1
      ((name_field n2 ++ g1 ++ size_field d.length ++ g2 ++ d
        ++ zeros (pad_len d.length)) ++ post) n1 d
      (by simp only [List.nil_append, List.append_assoc]) hie hn1 (by omega)
      (by simp only [List.length_nil]; omega) (zeros 100) junk (by simp [zeros]) [] 0
    simp only [List.length_nil, Nat.zero_add, List.nil_append] at s1
    rw [s1]
    simp [scan_from, list_loop]
  | k + 2 =>
    have hst := list_overflow_state e1 post n1 n2 d d g1 g2 hie hg1 hg2 hgh hn1
      hn2 (by omega) (by omega) (by omega)
      (by rw [hd, hel]; omega) (by rw [hd, hel]; omega) k junk
    rw [hst]
    match k with
    | 0 => simp [list_loop]
    | k + 1 =>
      have hfu : ¬ (k + 1 + 2 ≤ 2) := by omega
      rw [if_neg hfu]
      obtain ⟨c, g, hcg, hc0⟩ := hgh
      apply list_loop_bad_size _ _ _ _
        ([97, 114, 0, 48, 48, 117, 0, 0, 0, 0, 0, 0]
          ++ (size_field d.length ++ (size_field d.length ++ junk.drop 12).drop 12).drop 12) _ _ 12
      · rw [hcg]
        unfold allZeros
        simp [List.take, hc0]
      · have hsk : fseek_cur (e1.length + 136 + 100) 24 = e1.length + 260 := by
          unfold fseek_cur
          rw [if_pos (by omega)]
          omega
        rw [hsk]
        apply fread_at_shape _ (e1 ++ name_field n2 ++ g1 ++ size_field d.length ++ G)
          [97, 114, 0, 48, 48, 117, 0, 0, 0, 0, 0, 0]
          (R ++ d ++ zeros (pad_len d.length) ++ post)
        · rw [hG]
          simp only [List.append_assoc]
        · simp only [List.length_append, hg1, hGl, size_field_length,
            name_field_length n2 (by have := hn2.2.1; omega)]
        · rfl
      · exact sscanf_o_ar _

theorem fopen_r_only (fs : FS) : fopen_r (ex_fs_only fs) [97] = fopen_r fs [97] := by
  simp [fopen_r, ex_fs_only]

theorem last_entry_big (d : Bytes) (hd : d.length = 1073741824) :
    (create_archive ex_env (ex_fs_one d) [97] [[102]]).1 = 0 ∧
    (append_files_to_archive ex_env (create_archive ex_env (ex_fs_one d) [97] [[102]]).2 [97]
      [[102]]).1 = 0 ∧
    bytes_of (append_files_to_archive ex_env (create_archive ex_env (ex_fs_one d) [97] [[102]]).2
        [97] [[102]]).2 [97]
      = entry_bytes ex_env [102] { st := ex_stat, content := d } [117] [103]
        ++ entry_bytes ex_env [102] { st := ex_stat, content := d } [117] [103] ++ footer ∧
    IsEntries [([102], d), ([102], d)]
      (entry_bytes ex_env [102] { st := ex_stat, content := d } [117] [103]
        ++ (entry_bytes ex_env [102] { st := ex_stat, content := d } [117] [103] ++ [])) ∧
    ex_fs_only (append_files_to_archive ex_env
      (create_archive ex_env (ex_fs_one d) [97] [[102]]).2 [97] [[102]]).2 [102] = none ∧
    ∀ (fuel : Nat) (junk1 junk2 : Bytes),
      extract_files_from_archive fuel junk1 junk2 ex_env
        (ex_fs_only (append_files_to_archive ex_env
          (create_archive ex_env (ex_fs_one d) [97] [[102]]).2 [97] [[102]]).2) [97]
        = if fuel ≤ 2 then none
          else some (-1, ex_fs_only (append_files_to_archive ex_env
            (create_archive ex_env (ex_fs_one d) [97] [[102]]).2 [97] [[102]]).2) := by
  have hne : ([97] : Path) ≠ [] := by decide
  have hfs0 : ∀ x, set_content ex_env (ex_fs_one d) [97] x [102]
      = some { st := ex_stat, content := d } := by
    intro x
    rw [set_content_other ex_env (ex_fs_one d) [97] [102] x (by decide)]
    rfl
  have hwe : ∀ (fs : FS) (rd : Bool), fs [102] = some { st := ex_stat, content := d } →
      write_entry ex_env fs rd [102]
        = (true, entry_bytes ex_env [102] { st := ex_stat, content := d } [117] [103]) := by
    intro fs rd hfs
    exact write_entry_ok ex_env fs rd [102] { st := ex_stat, content := d } [117] [103]
      (by decide) hfs rfl rfl (by show d.length + 511 < 2147483648; omega)
  have hie := entry_bytes_isEntry ex_env [102] { st := ex_stat, content := d } [117] [103]
    (by decide) (by show d.length < 4294967296; omega)
  generalize he : entry_bytes ex_env [102] { st := ex_stat, content := d } [117] [103] = e
    at hwe hie ⊢
  have hc := create_archive_of_entries ex_env (ex_fs_one d) [97] [[102]] e hne (by decide)
    (write_entries_single _ _ _ _ _ (hwe _ true (hfs0 [])))
  obtain ⟨g, hg, hgc⟩ := fopen_r_set_content ex_env (ex_fs_one d) [97] (e ++ footer) hne
  have ha := append_of_entries ex_env (set_content ex_env (ex_fs_one d) [97] (e ++ footer)) [97]
    [[102]] g e hg
    (write_entries_single _ _ _ _ _ (hwe _ false (by
      rw [set_content_twice]
      exact hfs0 _)))
  rw [hgc, strip_footer_append, set_content_twice] at ha
  have hc2 : (create_archive ex_env (ex_fs_one d) [97] [[102]]).2
      = set_content ex_env (ex_fs_one d) [97] (e ++ footer) := by rw [hc]
  rw [← hc2] at ha
  obtain ⟨g2, hg2, hg2c⟩ := fopen_r_set_content ex_env (ex_fs_one d) [97] (e ++ e ++ footer) hne
  rw [ha]
  refine ⟨by rw [hc], rfl, set_content_same _ _ _ _, ?_, ?_, ?_⟩
  · exact ⟨e, e ++ [], hie, ⟨e, [], hie, rfl, rfl⟩, rfl⟩
  · have h1 : (([102] : Path) = [97]) = False := by decide
    unfold ex_fs_only
    simp only [h1, if_false]
  · intro fuel junk1 junk2
    have hop : fopen_r (ex_fs_only (set_content ex_env (ex_fs_one d) [97] (e ++ e ++ footer)))
        [97] = some g2 := by
      rw [fopen_r_only, hg2]
    unfold extract_files_from_archive
    rw [get_archive_file_list_eq_scan fuel junk1 _ [97] [] g2 hop, hg2c, ← he,
      list_two_big d hd [102] [102] (by decide) (by decide) footer fuel junk1]
    by_cases hfu : fuel ≤ 2
    · simp only [hfu, if_true]
    · simp only [hfu, if_false]
      rfl

/-- C21, counterexample. The file `f` holds one GiB; `create_archive` with
`[f]` and then `append_files_to_archive` with `[f]`, as an update does, both
succeed and leave a well-formed archive: two complete entries named `f` and the
footer, 2^31 + 2048 bytes. In a directory that holds only this archive,
`extract_files_from_archive` returns -1 (with fuel for three iterations of the
list pass, and does not return with less) and leaves the directory as it was:
there is no file `f`, so `f` does not hold the content of the last entry. The
list pass fails once `offset` has left the range of `int`. -/
theorem last_entry_wins_counterexample :
    (create_archive ex_env (ex_fs_one big) [97] [[102]]).1 = 0 ∧
    (append_files_to_archive ex_env (create_archive ex_env (ex_fs_one big) [97] [[102]]).2 [97]
      [[102]]).1 = 0 ∧
    bytes_of (append_files_to_archive ex_env
        (create_archive ex_env (ex_fs_one big) [97] [[102]]).2 [97] [[102]]).2 [97]
      = entry_bytes ex_env [102] { st := ex_stat, content := big } [117] [103]
        ++ entry_bytes ex_env [102] { st := ex_stat, content := big } [117] [103] ++ footer ∧
    IsEntries [([102], big), ([102], big)]
      (entry_bytes ex_env [102] { st := ex_stat, content := big } [117] [103]
        ++ (entry_bytes ex_env [102] { st := ex_stat, content := big } [117] [103] ++ [])) ∧
    ex_fs_only (append_files_to_archive ex_env
      (create_archive ex_env (ex_fs_one big) [97] [[102]]).2 [97] [[102]]).2 [102] = none ∧
    ∀ (fuel : Nat) (junk1 junk2 : Bytes),
      extract_files_from_archive fuel junk1 junk2 ex_env
        (ex_fs_only (append_files_to_archive ex_env
          (create_archive ex_env (ex_fs_one big) [97] [[102]]).2 [97] [[102]]).2) [97]
        = if fuel ≤ 2 then none
          else some (-1, ex_fs_only (append_files_to_archive ex_env
            (create_archive ex_env (ex_fs_one big) [97] [[102]]).2 [97] [[102]]).2) :=
  last_entry_big big big_length

end Minitar
